import Mathlib

/-!
# tiny-redis: shallow embedding and verification

This file embeds the core data structures and operations of the tiny-redis
C++ repository (skiplist, key-value engine, RDB snapshot codec, replica
client frame dispatch, CLI argument parsing) as executable Lean definitions
and proves or refutes the frozen specification claims about them.

Modelling conventions:
* C++ `std::string` byte strings are modelled as `List Char` (`Str`); the
  C++ lexicographic `operator<` is the Mathlib lexicographic order on lists.
* `double` scores are modelled as integers in units of `1e-6` (micro-units),
  the resolution of the source's equality tolerance `kDelta = 0.000001` and
  of `std::to_string`'s fixed six-decimal rendering.  `kDelta` becomes `1`.
* `std::unordered_map` is modelled as an association list in insertion
  order; `operator[]` on a fresh key appends, on an existing key updates in
  place.  Iteration order of the model is the list order (the C++ order is
  unspecified; all claim-relevant results are either order-insensitive or
  sorted afterwards by the source itself).
* Code whose C++ execution is undefined behaviour (null dereference,
  uncaught exception from `std::stoi`/`std::stod`, falling off the end of a
  value-returning function) is modelled by returning `none`.
* Randomness (`std::rand`) is made explicit: skiplist insertion takes the
  sampled level as an argument, and engine-level `zadd` threads a list of
  sampled levels, one per `Skiplist::insert` call.
-/

/-- Byte strings of the C++ sources (`std::string`), as lists of characters. -/
abbrev Str := List Char

namespace TinyRedis

/-- `std::string::operator<`: lexicographic comparison (Mathlib list order). -/
def ltStr (a b : Str) : Bool := decide (a < b)

/-- Non-strict string comparison, used to characterize `std::sort`'s output. -/
def leStr (a b : Str) : Bool := decide (a ≤ b)

theorem leStr_total (a b : Str) : leStr a b || leStr b a := by
  simp only [leStr, Bool.or_eq_true, decide_eq_true_eq]
  exact le_total a b

theorem leStr_trans (a b c : Str) (h1 : leStr a b) (h2 : leStr b c) : leStr a c := by
  simp only [leStr, decide_eq_true_eq] at h1 h2 ⊢
  exact le_trans h1 h2

theorem leStr_antisymm {a b : Str} (h1 : leStr a b) (h2 : leStr b a) : a = b := by
  simp only [leStr, decide_eq_true_eq] at h1 h2
  exact le_antisymm h1 h2

/-! ## Association lists: the model of `std::unordered_map`

`alookup` is `find`; `aset` is `m[k] = v` (in-place update, or append for a
fresh key, matching insertion-order iteration); `aerase` is `erase(k)`. -/

/-- `std::unordered_map::find`. -/
def alookup {α : Type} : List (Str × α) → Str → Option α
  | [], _ => none
  | (k, v) :: r, q => if k = q then some v else alookup r q

/-- `m[k] = v`: update in place, or append a fresh entry. -/
def aset {α : Type} : List (Str × α) → Str → α → List (Str × α)
  | [], q, v => [(q, v)]
  | (k, w) :: r, q, v => if k = q then (k, v) :: r else (k, w) :: aset r q v

/-- `std::unordered_map::erase(k)`. -/
def aerase {α : Type} : List (Str × α) → Str → List (Str × α)
  | [], _ => []
  | (k, w) :: r, q => if k = q then r else (k, w) :: aerase r q

/-- The key list of a map, in iteration order. -/
def akeys {α : Type} (m : List (Str × α)) : List Str := m.map Prod.fst

theorem alookup_append_right {α : Type} (m₁ m₂ : List (Str × α)) (q : Str)
    (h : alookup m₁ q = none) : alookup (m₁ ++ m₂) q = alookup m₂ q := by
  induction m₁ with
  | nil => rfl
  | cons kv r ih =>
    obtain ⟨k, v⟩ := kv
    by_cases hk : k = q
    · simp [alookup, hk] at h
    · simp only [alookup, hk, if_false] at h ⊢
      exact ih h

theorem aset_of_absent {α : Type} (m : List (Str × α)) (q : Str) (v : α)
    (h : alookup m q = none) : aset m q v = m ++ [(q, v)] := by
  induction m with
  | nil => rfl
  | cons kv r ih =>
    obtain ⟨k, w⟩ := kv
    by_cases hk : k = q
    · simp [alookup, hk] at h
    · simp only [aset, hk, if_false, List.cons_append, List.cons.injEq, true_and]
      exact ih (by simpa [alookup, hk] using h)

theorem alookup_eq_none_of_not_mem {α : Type} (m : List (Str × α)) (q : Str)
    (h : q ∉ akeys m) : alookup m q = none := by
  induction m with
  | nil => rfl
  | cons kv r ih =>
    obtain ⟨k, w⟩ := kv
    simp only [akeys, List.map_cons, List.mem_cons, not_or] at h
    obtain ⟨h1, h2⟩ := h
    have hk : ¬ k = q := fun hk => h1 hk.symm
    show (if k = q then some w else alookup r q) = none
    rw [if_neg hk]
    exact ih h2

theorem alookup_isSome_iff_mem {α : Type} (m : List (Str × α)) (q : Str) :
    (alookup m q).isSome = true ↔ q ∈ akeys m := by
  induction m with
  | nil => simp [alookup, akeys]
  | cons kv r ih =>
    obtain ⟨k, w⟩ := kv
    show (if k = q then some w else alookup r q).isSome = true ↔ q ∈ k :: akeys r
    by_cases hk : k = q
    · subst hk
      simp
    · rw [if_neg hk, List.mem_cons]
      have hqk : ¬ q = k := fun h => hk h.symm
      rw [ih]
      exact (or_iff_right hqk).symm

end TinyRedis

namespace TinyRedis

/-! ## Decimal rendering and numeric parsing

`natChars`/`intChars` model `std::to_string` on integers; `stollModel`
models `std::stoi`/`std::stoll` (`none` = the exception C++ throws when no
digits are found); `scoreChars` models `std::to_string(double)`'s fixed
six-decimal rendering on micro-unit scores and `stodMicros` models
`std::stod` on such strings. -/

/-- Is `c` a decimal digit (`'0'..'9'`). -/
def isDig (c : Char) : Bool := 48 ≤ c.toNat && c.toNat ≤ 57

/-- Is `c` C whitespace (`isspace`). -/
def isSpaceCh (c : Char) : Bool :=
  c = ' ' || c.toNat = 9 || c.toNat = 10 || c.toNat = 11 || c.toNat = 12 || c.toNat = 13

/-- The digit character for `d < 10`. -/
def dchar (d : Nat) : Char := Char.ofNat (48 + d)

/-- Numeric value of a digit character. -/
def digitVal (c : Char) : Nat := c.toNat - 48

/-- Decimal digits of `n`, most significant first (`fuel`-bounded helper). -/
def ndigsAux : Nat → Nat → List Char
  | 0, _ => []
  | fuel + 1, n => if n < 10 then [dchar n] else ndigsAux fuel (n / 10) ++ [dchar (n % 10)]

/-- Decimal rendering of a natural number. -/
def natChars (n : Nat) : List Char := ndigsAux (n + 1) n

/-- `std::to_string` on a 64-bit integer. -/
def intChars (i : Int) : List Char :=
  if i < 0 then '-' :: natChars (-i).toNat else natChars i.toNat

/-- Value of a digit string (used to state parser correctness). -/
def parseNat (l : Str) : Nat := l.foldl (fun a c => a * 10 + digitVal c) 0

/-- `std::stoll`/`std::stoi` on a token: skip whitespace, optional sign,
then the longest digit prefix; `none` models the exception thrown when no
digit is present.  Overflow is not modelled (the embedding is unbounded). -/
def stollModel (s : Str) : Option Int :=
  let s1 := s.dropWhile isSpaceCh
  match s1 with
  | [] => none
  | c :: r =>
    if c = '-' then
      let d := r.takeWhile isDig
      if d = [] then none else some (-(parseNat d : Int))
    else if c = '+' then
      let d := r.takeWhile isDig
      if d = [] then none else some ((parseNat d : Int))
    else
      let d := s1.takeWhile isDig
      if d = [] then none else some ((parseNat d : Int))

/-- Left-pad the decimal rendering of `k` with zeros to six places
(the fractional part of `std::to_string(double)`). -/
def pad6 (k : Nat) : Str :=
  let d := natChars k
  List.replicate (6 - d.length) '0' ++ d

/-- `std::to_string(double)` on a micro-unit score: sign, integer part,
`'.'`, six fractional digits. -/
def scoreChars (m : Int) : Str :=
  (if m < 0 then ['-'] else []) ++ natChars (m.natAbs / 1000000) ++ '.' :: pad6 (m.natAbs % 1000000)

/-- Pad or truncate a fractional digit string to six places (micro-units). -/
def frac6 (fp : Str) : Str :=
  let f := fp.take 6
  f ++ List.replicate (6 - f.length) '0'

/-- Sign application for `stodMicros`. -/
def applySign (neg : Bool) (v : Int) : Int := if neg then -v else v

/-- Digit-and-fraction part of `std::stod` after the sign has been
consumed (result in micro-units). -/
def stodCore (neg : Bool) (s2 : Str) : Option Int :=
  match List.dropWhile isDig s2 with
  | c :: r2 =>
    if c = '.' then
      if s2.takeWhile isDig = [] && r2.takeWhile isDig = [] then none
      else
        some (applySign neg ((parseNat (s2.takeWhile isDig) : Int) * 1000000
          + (parseNat (frac6 (r2.takeWhile isDig)) : Int)))
    else if s2.takeWhile isDig = [] then none
    else some (applySign neg ((parseNat (s2.takeWhile isDig) : Int) * 1000000))
  | [] =>
    if s2.takeWhile isDig = [] then none
    else some (applySign neg ((parseNat (s2.takeWhile isDig) : Int) * 1000000))

/-- `std::stod` on a decimal string, with the result in micro-units.
Fractional digits beyond the sixth are truncated (the printed forms the
codec produces carry exactly six). -/
def stodMicros (s : Str) : Option Int :=
  match s.dropWhile isSpaceCh with
  | [] => none
  | c :: r =>
    if c = '-' then stodCore true r
    else if c = '+' then stodCore false r
    else stodCore false (c :: r)

/-- `std::unique` then `erase`: drop adjacent duplicates, keeping the first
of each run (helper carrying the previous kept element). -/
def uniqAdjAux {α : Type} [DecidableEq α] (p : α) : List α → List α
  | [] => []
  | b :: r => if p = b then uniqAdjAux p r else b :: uniqAdjAux b r

/-- `std::unique` then `erase` on a whole list. -/
def uniqAdj {α : Type} [DecidableEq α] : List α → List α
  | [] => []
  | a :: r => a :: uniqAdjAux a r

end TinyRedis

namespace TinyRedis

theorem isDig_dchar {d : Nat} (h : d < 10) : isDig (dchar d) = true := by
  interval_cases d <;> decide

theorem digitVal_dchar {d : Nat} (h : d < 10) : digitVal (dchar d) = d := by
  interval_cases d <;> decide

theorem ndigsAux_all_dig : ∀ fuel n, n < fuel → ∀ c ∈ ndigsAux fuel n, isDig c = true := by
  intro fuel
  induction fuel with
  | zero => intro n h; omega
  | succ f ih =>
    intro n hn c hc
    by_cases h10 : n < 10
    · simp only [ndigsAux, if_pos h10, List.mem_singleton] at hc
      subst hc; exact isDig_dchar h10
    · simp only [ndigsAux, if_neg h10, List.mem_append, List.mem_singleton] at hc
      rcases hc with hc | hc
      · exact ih (n / 10) (by omega) c hc
      · subst hc; exact isDig_dchar (Nat.mod_lt _ (by omega))

theorem natChars_all_dig (n : Nat) : ∀ c ∈ natChars n, isDig c = true :=
  ndigsAux_all_dig (n + 1) n (Nat.lt_succ_self n)

theorem ndigsAux_ne_nil : ∀ fuel n, n < fuel → ndigsAux fuel n ≠ [] := by
  intro fuel
  cases fuel with
  | zero => intro n h; omega
  | succ f =>
    intro n _
    by_cases h10 : n < 10
    · simp [ndigsAux, h10]
    · simp [ndigsAux, h10]

theorem natChars_ne_nil (n : Nat) : natChars n ≠ [] :=
  ndigsAux_ne_nil (n + 1) n (Nat.lt_succ_self n)

theorem foldl_ndigsAux : ∀ fuel n acc, n < fuel →
    (ndigsAux fuel n).foldl (fun a c => a * 10 + digitVal c) acc
      = acc * 10 ^ (ndigsAux fuel n).length + n := by
  intro fuel
  induction fuel with
  | zero => intro n acc h; omega
  | succ f ih =>
    intro n acc hn
    by_cases h10 : n < 10
    · simp [ndigsAux, h10, digitVal_dchar h10]
    · have hdiv : n / 10 < f := by omega
      simp only [ndigsAux, if_neg h10, List.foldl_append, List.foldl_cons, List.foldl_nil,
        List.length_append, List.length_cons, List.length_nil]
      rw [ih (n / 10) acc hdiv]
      rw [digitVal_dchar (Nat.mod_lt _ (by omega))]
      rw [pow_succ]
      have := Nat.div_add_mod n 10
      ring_nf
      omega

theorem parseNat_natChars (n : Nat) : parseNat (natChars n) = n := by
  unfold parseNat natChars
  rw [foldl_ndigsAux (n + 1) n 0 (Nat.lt_succ_self n)]
  simp

theorem parseNat_zeros_append (z : Nat) (d : Str) :
    parseNat (List.replicate z '0' ++ d) = parseNat d := by
  unfold parseNat
  rw [List.foldl_append]
  have : (List.replicate z '0').foldl (fun a c => a * 10 + digitVal c) 0 = 0 := by
    induction z with
    | zero => rfl
    | succ k ihz => simpa [List.replicate_succ, digitVal]
  rw [this]

theorem ndigsAux_length_le : ∀ fuel n j, n < fuel → 1 ≤ j → n < 10 ^ j →
    (ndigsAux fuel n).length ≤ j := by
  intro fuel
  induction fuel with
  | zero => intro n j h; omega
  | succ f ih =>
    intro n j hn hj hpow
    by_cases h10 : n < 10
    · simpa [ndigsAux, h10] using hj
    · have hj2 : 2 ≤ j := by
        by_contra hcon
        have : j = 1 := by omega
        subst this
        simp at hpow
        omega
      have hdiv : n / 10 < 10 ^ (j - 1) := by
        have : n < 10 ^ j := hpow
        have hpow' : 10 ^ j = 10 ^ (j - 1) * 10 := by
          conv_lhs => rw [show j = (j - 1) + 1 by omega]
          rw [pow_succ]
        omega
      simp only [ndigsAux, if_neg h10, List.length_append, List.length_cons, List.length_nil]
      have := ih (n / 10) (j - 1) (by omega) (by omega) hdiv
      omega

theorem natChars_length_le_six {k : Nat} (h : k < 1000000) : (natChars k).length ≤ 6 :=
  ndigsAux_length_le (k + 1) k 6 (Nat.lt_succ_self k) (by omega) (by omega)

/-- Digits are not whitespace, sign, dot, or newline. -/
theorem isDig_facts {c : Char} (h : isDig c = true) :
    isSpaceCh c = false ∧ c ≠ '-' ∧ c ≠ '+' ∧ c ≠ '.' ∧ c ≠ '\n' ∧ c ≠ ' ' := by
  simp only [isDig, Bool.and_eq_true, decide_eq_true_eq] at h
  obtain ⟨h1, h2⟩ := h
  refine ⟨?_, ?_, ?_, ?_, ?_, ?_⟩
  · simp only [isSpaceCh, Bool.or_eq_false_iff, decide_eq_false_iff_not]
    refine ⟨⟨⟨⟨⟨?_, ?_⟩, ?_⟩, ?_⟩, ?_⟩, ?_⟩ <;>
      · intro hc
        first
          | (have : c.toNat = 32 := by rw [hc]; rfl
             omega)
          | omega
  all_goals
    intro hc
    rw [hc] at h1 h2
    revert h1 h2
    decide

theorem takeWhile_all {p : Char → Bool} : ∀ {l : Str}, (∀ c ∈ l, p c = true) →
    l.takeWhile p = l := by
  intro l
  induction l with
  | nil => intro _; rfl
  | cons a r ih =>
    intro h
    rw [List.takeWhile_cons, if_pos (h a (List.mem_cons_self a r))]
    rw [ih (fun c hc => h c (List.mem_cons_of_mem a hc))]

theorem dropWhile_all {p : Char → Bool} : ∀ {l : Str}, (∀ c ∈ l, p c = true) →
    l.dropWhile p = [] := by
  intro l
  induction l with
  | nil => intro _; rfl
  | cons a r ih =>
    intro h
    rw [List.dropWhile_cons, if_pos (h a (List.mem_cons_self a r))]
    exact ih (fun c hc => h c (List.mem_cons_of_mem a hc))

theorem takeWhile_middle {p : Char → Bool} : ∀ (l : Str) (c : Char) (r : Str),
    (∀ x ∈ l, p x = true) → p c = false → (l ++ c :: r).takeWhile p = l := by
  intro l c r hl hc
  induction l with
  | nil => simp [List.takeWhile_cons, hc]
  | cons a t ih =>
    rw [List.cons_append, List.takeWhile_cons, if_pos (hl a (List.mem_cons_self a t))]
    rw [ih (fun x hx => hl x (List.mem_cons_of_mem a hx))]

theorem dropWhile_middle {p : Char → Bool} : ∀ (l : Str) (c : Char) (r : Str),
    (∀ x ∈ l, p x = true) → p c = false → (l ++ c :: r).dropWhile p = c :: r := by
  intro l c r hl hc
  induction l with
  | nil => simp [List.dropWhile_cons, hc]
  | cons a t ih =>
    rw [List.cons_append, List.dropWhile_cons, if_pos (hl a (List.mem_cons_self a t))]
    exact ih (fun x hx => hl x (List.mem_cons_of_mem a hx))

theorem dropWhile_nodrop {p : Char → Bool} {c : Char} {r : Str} (hc : p c = false) :
    (c :: r).dropWhile p = c :: r := by
  rw [List.dropWhile_cons, if_neg (by simp [hc])]

/-- `stoll` recovers a value from its pure-digit rendering. -/
theorem stollModel_digits {d : Str} (hne : d ≠ []) (hd : ∀ c ∈ d, isDig c = true) :
    stollModel d = some ((parseNat d : Int)) := by
  obtain ⟨c, r, rfl⟩ := List.exists_cons_of_ne_nil hne
  have hc := hd c (List.mem_cons_self c r)
  obtain ⟨hsp, hminus, hplus, _, _, _⟩ := isDig_facts hc
  unfold stollModel
  rw [dropWhile_nodrop hsp]
  simp only [if_neg hminus, if_neg hplus]
  rw [takeWhile_all hd]
  simp

/-- `stoll` inverts `std::to_string` on integers. -/
theorem stollModel_intChars (i : Int) : stollModel (intChars i) = some i := by
  by_cases hneg : i < 0
  · unfold stollModel intChars
    rw [if_pos hneg]
    have hd := natChars_all_dig (-i).toNat
    have hne := natChars_ne_nil (-i).toNat
    obtain ⟨c, r, hcr⟩ := List.exists_cons_of_ne_nil hne
    have hc : isDig c = true := hd c (by rw [hcr]; exact List.mem_cons_self c r)
    obtain ⟨hsp, _, _, _, _, _⟩ := isDig_facts hc
    rw [List.dropWhile_cons, if_neg (by simp [isSpaceCh])]
    simp only [if_pos rfl]
    rw [takeWhile_all hd]
    rw [if_neg hne, parseNat_natChars]
    rw [Int.toNat_of_nonneg (by omega : (0:Int) ≤ -i), neg_neg]
    simp
  · unfold intChars
    rw [if_neg hneg]
    rw [stollModel_digits (natChars_ne_nil _) (natChars_all_dig _)]
    rw [parseNat_natChars]
    rw [Int.toNat_of_nonneg (by omega : (0:Int) ≤ i)]

theorem pad6_all_dig (k : Nat) : ∀ c ∈ pad6 k, isDig c = true := by
  intro c hc
  unfold pad6 at hc
  rw [List.mem_append] at hc
  rcases hc with hc | hc
  · rw [List.eq_of_mem_replicate hc]; decide
  · exact natChars_all_dig k c hc

theorem pad6_length {k : Nat} (h : k < 1000000) : (pad6 k).length = 6 := by
  unfold pad6
  have := natChars_length_le_six h
  simp only [List.length_append, List.length_replicate]
  omega

theorem parseNat_pad6 (k : Nat) : parseNat (pad6 k) = k := by
  unfold pad6
  rw [parseNat_zeros_append, parseNat_natChars]

theorem frac6_of_len6 {f : Str} (h : f.length = 6) : frac6 f = f := by
  unfold frac6
  rw [List.take_of_length_le (by omega)]
  simp [h]

theorem stodCore_rendered (neg : Bool) (a b : Nat) (hb : b < 1000000) :
    stodCore neg (natChars a ++ '.' :: pad6 b)
      = some (applySign neg ((a : Int) * 1000000 + (b : Int))) := by
  have hip := natChars_all_dig a
  have hipne := natChars_ne_nil a
  have hfp := pad6_all_dig b
  have hdw : List.dropWhile isDig (natChars a ++ '.' :: pad6 b) = '.' :: pad6 b :=
    dropWhile_middle _ _ _ hip (by decide)
  have htw : List.takeWhile isDig (natChars a ++ '.' :: pad6 b) = natChars a :=
    takeWhile_middle _ _ _ hip (by decide)
  unfold stodCore
  rw [hdw]
  dsimp only
  rw [htw, if_pos rfl, takeWhile_all hfp]
  rw [if_neg (by simp [hipne])]
  rw [frac6_of_len6 (pad6_length hb), parseNat_natChars, parseNat_pad6]

/-- `stod` inverts the six-decimal score rendering. -/
theorem stodMicros_scoreChars (m : Int) : stodMicros (scoreChars m) = some m := by
  have hfrac : m.natAbs % 1000000 < 1000000 := Nat.mod_lt _ (by omega)
  have hmod := Nat.div_add_mod m.natAbs 1000000
  by_cases hneg : m < 0
  · unfold scoreChars stodMicros
    rw [if_pos hneg]
    simp only [List.cons_append, List.nil_append]
    rw [dropWhile_nodrop (by decide)]
    dsimp only
    rw [if_pos rfl]
    rw [stodCore_rendered true _ _ hfrac]
    unfold applySign
    rw [if_pos rfl]
    congr 1
    omega
  · unfold scoreChars stodMicros
    rw [if_neg hneg]
    simp only [List.nil_append]
    obtain ⟨c, r, hcr⟩ := List.exists_cons_of_ne_nil (natChars_ne_nil (m.natAbs / 1000000))
    have hc : isDig c = true :=
      natChars_all_dig _ c (by rw [hcr]; exact List.mem_cons_self c r)
    obtain ⟨hsp, hminus, hplus, _, _, _⟩ := isDig_facts hc
    rw [hcr, List.cons_append, dropWhile_nodrop hsp]
    dsimp only
    rw [if_neg hminus, if_neg hplus, ← List.cons_append, ← hcr]
    rw [stodCore_rendered false _ _ hfrac]
    unfold applySign
    rw [if_neg (by decide)]
    congr 1
    omega

theorem mem_uniqAdjAux_sorted : ∀ (p : Str) (l : List Str),
    (∀ x ∈ l, p ≤ x) → List.Pairwise (fun a b : Str => a ≤ b) l →
    ∀ x, x ∈ uniqAdjAux p l ↔ (x ∈ l ∧ x ≠ p) := by
  intro p l
  induction l generalizing p with
  | nil => intro _ _ x; simp [uniqAdjAux]
  | cons b r ih =>
    intro hp hl x
    have hpr : ∀ y ∈ r, p ≤ y := fun y hy => hp y (List.mem_cons_of_mem b hy)
    have hbr : ∀ y ∈ r, b ≤ y := fun y hy => (List.pairwise_cons.mp hl).1 y hy
    have hlr : List.Pairwise (fun a b : Str => a ≤ b) r := (List.pairwise_cons.mp hl).2
    by_cases hpb : p = b
    · rw [show uniqAdjAux p (b :: r) = if p = b then uniqAdjAux p r else b :: uniqAdjAux b r
        from rfl, if_pos hpb]
      rw [ih p hpr hlr x]
      subst hpb
      constructor
      · rintro ⟨hxr, hxp⟩; exact ⟨List.mem_cons_of_mem p hxr, hxp⟩
      · rintro ⟨hxm, hxp⟩
        rcases List.mem_cons.mp hxm with h | h
        · exact absurd h hxp
        · exact ⟨h, hxp⟩
    · rw [show uniqAdjAux p (b :: r) = if p = b then uniqAdjAux p r else b :: uniqAdjAux b r
        from rfl, if_neg hpb]
      rw [List.mem_cons, ih b hbr hlr x]
      constructor
      · rintro (h | ⟨hxr, hxb⟩)
        · subst h; exact ⟨List.mem_cons_self x r, fun hx => hpb hx.symm⟩
        · refine ⟨List.mem_cons_of_mem b hxr, fun hx => ?_⟩
          subst hx
          have h1 : x ≤ b := hp b (List.mem_cons_self b r)
          have h2 : b ≤ x := hbr x hxr
          exact hpb (le_antisymm h1 h2)
      · rintro ⟨hxm, hxp⟩
        rcases List.mem_cons.mp hxm with h | h
        · exact Or.inl h
        · by_cases hxb : x = b
          · exact Or.inl hxb
          · exact Or.inr ⟨h, hxb⟩

theorem strict_uniqAdjAux : ∀ (p : Str) (l : List Str),
    (∀ x ∈ l, p ≤ x) → List.Pairwise (fun a b : Str => a ≤ b) l →
    List.Pairwise (fun a b : Str => a < b) (p :: uniqAdjAux p l) := by
  intro p l
  induction l generalizing p with
  | nil => intro _ _; simp [uniqAdjAux]
  | cons b r ih =>
    intro hp hl
    have hpr : ∀ y ∈ r, p ≤ y := fun y hy => hp y (List.mem_cons_of_mem b hy)
    have hbr : ∀ y ∈ r, b ≤ y := fun y hy => (List.pairwise_cons.mp hl).1 y hy
    have hlr : List.Pairwise (fun a b : Str => a ≤ b) r := (List.pairwise_cons.mp hl).2
    by_cases hpb : p = b
    · rw [show uniqAdjAux p (b :: r) = if p = b then uniqAdjAux p r else b :: uniqAdjAux b r
        from rfl, if_pos hpb]
      exact ih p hpr hlr
    · rw [show uniqAdjAux p (b :: r) = if p = b then uniqAdjAux p r else b :: uniqAdjAux b r
        from rfl, if_neg hpb]
      have htail := ih b hbr hlr
      rw [List.pairwise_cons]
      refine ⟨?_, htail⟩
      intro y hy
      have hple : p ≤ b := hp b (List.mem_cons_self b r)
      rcases List.mem_cons.mp hy with h | h
      · subst h; exact lt_of_le_of_ne hple hpb
      · rw [mem_uniqAdjAux_sorted b r hbr hlr y] at h
        obtain ⟨hyr, hyb⟩ := h
        have : b ≤ y := hbr y hyr
        calc p < b := lt_of_le_of_ne hple hpb
          _ ≤ y := this

theorem uniqAdj_mem_sorted (l : List Str) (hl : List.Pairwise (fun a b : Str => a ≤ b) l) :
    ∀ x, x ∈ uniqAdj l ↔ x ∈ l := by
  intro x
  cases l with
  | nil => simp [uniqAdj]
  | cons a r =>
    show x ∈ a :: uniqAdjAux a r ↔ x ∈ a :: r
    have har : ∀ y ∈ r, a ≤ y := fun y hy => (List.pairwise_cons.mp hl).1 y hy
    have hlr := (List.pairwise_cons.mp hl).2
    rw [List.mem_cons, List.mem_cons, mem_uniqAdjAux_sorted a r har hlr x]
    constructor
    · rintro (h | ⟨h, _⟩)
      · exact Or.inl h
      · exact Or.inr h
    · rintro (h | h)
      · exact Or.inl h
      · by_cases hxa : x = a
        · exact Or.inl hxa
        · exact Or.inr ⟨h, hxa⟩

theorem uniqAdj_strict_sorted (l : List Str) (hl : List.Pairwise (fun a b : Str => a ≤ b) l) :
    List.Pairwise (fun a b : Str => a < b) (uniqAdj l) := by
  cases l with
  | nil => simp [uniqAdj]
  | cons a r =>
    show List.Pairwise (fun a b : Str => a < b) (a :: uniqAdjAux a r)
    have har : ∀ y ∈ r, a ≤ y := fun y hy => (List.pairwise_cons.mp hl).1 y hy
    exact strict_uniqAdjAux a r har (List.pairwise_cons.mp hl).2

/-! ## Skiplist (include/tiny-redis/skiplist.hpp, src replica_client.cpp part 2)

Nodes live in an arena addressed by indices; index 0 is the head sentinel
(`head_`).  A `forward` entry `none` is a null pointer.  `Option`-valued
results model undefined behaviour (`none` = null dereference or
out-of-bounds access).  The sampled level of `randomLevel` is passed to
`insert` explicitly. -/

/-- `kDelta = 0.000001`, in micro-units. -/
def kDelta : Int := 1

/-- `kMaxLevel = 32`. -/
def kMaxLevel : Nat := 32

/-- `static_cast<int>(kProbability * 0xFFFF)` with `kProbability = 0.25`,
i.e. `int(16383.75) = 16383`. -/
def kProbThreshold : Nat := 16383

/-- `comparedLess` from skiplist.hpp: member order within the `kDelta`
score tolerance, score order otherwise. -/
def comparedLess (sc1 : Int) (m1 : Str) (sc2 : Int) (m2 : Str) : Bool :=
  if (sc1 - sc2).natAbs ≤ 1 then ltStr m1 m2 else decide (sc1 < sc2)

structure SkiplistNode where
  score : Int
  member : Str
  forward : List (Option Nat)
  deriving DecidableEq

structure Skiplist where
  nodes : List SkiplistNode
  level : Nat
  length : Nat
  deriving DecidableEq

/-- `Skiplist::Skiplist()`: head sentinel with `kMaxLevel` null forwards. -/
def mkSkiplist : Skiplist :=
  { nodes := [{ score := 0, member := [], forward := List.replicate kMaxLevel none }],
    level := 1, length := 0 }

/-- `Skiplist::randomLevel()` over an explicit stream of `rand()` draws:
start at 1, advance while the draw (masked to 16 bits) is below the
threshold and the level is below the cap. -/
def randomLevelAux (f : Nat → Nat) : Nat → Nat → Nat → Nat
  | 0, lvl, _ => lvl
  | fuel + 1, lvl, i =>
    if f i % 65536 < kProbThreshold ∧ lvl < kMaxLevel then
      randomLevelAux f fuel (lvl + 1) (i + 1)
    else lvl

/-- `Skiplist::randomLevel()`. -/
def randomLevel (f : Nat → Nat) : Nat := randomLevelAux f kMaxLevel 1 0

/-- The node stored at arena index `i`. -/
def nodeAt (sl : Skiplist) (i : Nat) : Option SkiplistNode := sl.nodes[i]?

/-- `x->forward[i]`: `none` = invalid access (UB), `some none` = null. -/
def fwdAt (sl : Skiplist) (x : Nat) (i : Nat) : Option (Option Nat) :=
  (nodeAt sl x).bind (fun nd => nd.forward[i]?)

/-- The inner `while` of the search loops: advance along level `i` while
the next node compares less than the probe. -/
def advanceLoop (sl : Skiplist) (score : Int) (member : Str) (i : Nat) :
    Nat → Nat → Option Nat
  | 0, _ => none
  | fuel + 1, x =>
    match fwdAt sl x i with
    | none => none
    | some none => some x
    | some (some y) =>
      match nodeAt sl y with
      | none => none
      | some ynd =>
        if comparedLess ynd.score ynd.member score member then
          advanceLoop sl score member i fuel y
        else some x

/-- The outer `for` of the search loops, from level `i - 1` down to 0,
recording `update[i] = x` per level; returns the final `x` as well. -/
def buildUpdate (sl : Skiplist) (score : Int) (member : Str) :
    Nat → Nat → List (Option Nat) → Option (List (Option Nat) × Nat)
  | 0, x, upd => some (upd, x)
  | i + 1, x, upd =>
    match advanceLoop sl score member i (sl.nodes.length + 1) x with
    | none => none
    | some x2 => buildUpdate sl score member i x2 (upd.set i (some x2))

/-- The link loop of `insert` (lines 236-239): for each level below `lvl`,
copy `update[i]->forward[i]` into the new node and point
`update[i]->forward[i]` at the new node's index. -/
def linkStep (idx : Nat) (upd : List (Option Nat))
    (st : Option (List SkiplistNode × List (Option Nat))) (i : Nat) :
    Option (List SkiplistNode × List (Option Nat)) :=
  match st with
  | none => none
  | some (nodes, nf) =>
    match upd[i]? with
    | none => none
    | some none => none
    | some (some u) =>
      match nodes[u]? with
      | none => none
      | some und =>
        match und.forward[i]? with
        | none => none
        | some uf =>
          some (nodes.set u { und with forward := und.forward.set i (some idx) },
                nf.set i uf)

def linkLevels (idx : Nat) (upd : List (Option Nat)) (lvl : Nat)
    (nodes0 : List SkiplistNode) (fwd0 : List (Option Nat)) :
    Option (List SkiplistNode × List (Option Nat)) :=
  (List.range lvl).foldl (linkStep idx upd) (some (nodes0, fwd0))

/-- `Skiplist::insert(score, member)` with the freshly sampled level `lvl`
passed explicitly.  Mirrors lines 211-242; note that when `lvl > level_`
the source assigns `level_ = lvl` *before* the fill loop
`for(i=level_; i<lvl; ++i) update[i] = head_;`, so that loop runs over the
empty range `[lvl, lvl)` and the `update` slots above the old level remain
null; the link loop then dereferences a null `update[i]`. -/
def Skiplist.insert (sl : Skiplist) (score : Int) (member : Str) (lvl : Nat) :
    Option (Bool × Skiplist) :=
  match buildUpdate sl score member sl.level 0 (List.replicate kMaxLevel none) with
  | none => none
  | some (upd, x) =>
    match fwdAt sl x 0 with
    | none => none
    | some fx =>
      let dup : Option Bool :=
        match fx with
        | none => some false
        | some y =>
          match nodeAt sl y with
          | none => none
          | some ynd => some ((ynd.score - score).natAbs ≤ kDelta.natAbs && ynd.member = member)
      match dup with
      | none => none
      | some true => some (false, sl)
      | some false =>
        let level2 := if sl.level < lvl then lvl else sl.level
        let upd2 :=
          if sl.level < lvl then
            (List.range' lvl (lvl - lvl)).foldl (fun u i => u.set i (some 0)) upd
          else upd
        let idx := sl.nodes.length
        match linkLevels idx upd2 lvl sl.nodes (List.replicate lvl none) with
        | none => none
        | some (nodes2, nf) =>
          some (true, { nodes := nodes2 ++ [{ score := score, member := member, forward := nf }],
                        level := level2, length := sl.length + 1 })

/-- `Skiplist::erase(score, member)`, lines 244-276.  Line 261 reads
`if(x != nullptr || abs(x->score-score)>kDelta || x->member!=member) return false;`:
a non-null candidate short-circuits the disjunction and returns `false`,
and a null candidate evaluates `x->score`, a null dereference.  The unlink
code below the condition is unreachable and therefore absent here. -/
def Skiplist.erase (sl : Skiplist) (score : Int) (member : Str) :
    Option (Bool × Skiplist) :=
  match buildUpdate sl score member sl.level 0 (List.replicate kMaxLevel none) with
  | none => none
  | some (_upd, x) =>
    match fwdAt sl x 0 with
    | none => none
    | some fx =>
      match fx with
      | some _ => some (false, sl)
      | none => none

/-- Walk the bottom-level chain collecting `(score, member)` pairs. -/
def chainToVector (sl : Skiplist) : Nat → Option Nat → List (Int × Str) →
    Option (List (Int × Str))
  | 0, _, _ => none
  | _ + 1, none, acc => some acc.reverse
  | fuel + 1, some y, acc =>
    match nodeAt sl y with
    | none => none
    | some ynd =>
      match ynd.forward[0]? with
      | none => none
      | some f => chainToVector sl fuel f ((ynd.score, ynd.member) :: acc)

/-- `Skiplist::toVector(out)`: all pairs along the bottom chain. -/
def Skiplist.toVector (sl : Skiplist) : Option (List (Int × Str)) :=
  match fwdAt sl 0 0 with
  | none => none
  | some f => chainToVector sl (sl.nodes.length + 1) f []

/-- `Skiplist::size()`. -/
def Skiplist.size (sl : Skiplist) : Nat := sl.length

/-! ## Skiplist representation invariant

`ChainIs sl f idxs l` states that following bottom-level links starting at
pointer `f` visits exactly the arena indices `idxs`, whose nodes carry the
`(score, member)` pairs `l` in order, ending in a null pointer.
`Represents sl l` states that `sl` is a well-formed level-1 skiplist whose
bottom chain carries `l`.  (Any skiplist reachable without undefined
behaviour has level 1, because the level-raising path of `insert` always
dereferences a null `update` slot; see `insert_level_raise_crash`.) -/

def ChainIs (sl : Skiplist) : Option Nat → List Nat → List (Int × Str) → Prop
  | f, [], [] => f = none
  | f, i :: rest, p :: lr =>
    f = some i ∧
      ∃ nd, sl.nodes[i]? = some nd ∧ nd.score = p.1 ∧ nd.member = p.2 ∧
        ∃ f2, nd.forward[0]? = some f2 ∧ ChainIs sl f2 rest lr
  | _, _ :: _, [] => False
  | _, [], _ :: _ => False

def Represents (sl : Skiplist) (l : List (Int × Str)) : Prop :=
  sl.level = 1 ∧ sl.length = l.length ∧
    ∃ hd, sl.nodes[0]? = some hd ∧ hd.forward.length = kMaxLevel ∧
      ∃ f0, hd.forward[0]? = some f0 ∧
        ∃ idxs, ChainIs sl f0 idxs l ∧ idxs.Nodup ∧
          ∀ i ∈ idxs, 0 < i ∧ i < sl.nodes.length

theorem represents_mkSkiplist : Represents mkSkiplist [] := by
  refine ⟨rfl, rfl, _, rfl, by decide, none, by decide, [], rfl, List.nodup_nil, by simp⟩

theorem chainIs_length : ∀ (sl : Skiplist) (f : Option Nat) (idxs : List Nat)
    (l : List (Int × Str)), ChainIs sl f idxs l → idxs.length = l.length := by
  intro sl f idxs
  induction idxs generalizing f with
  | nil =>
    intro l h
    cases l with
    | nil => rfl
    | cons p lr => exact absurd h (by simp [ChainIs])
  | cons i rest ih =>
    intro l h
    cases l with
    | nil => exact absurd h (by simp [ChainIs])
    | cons p lr =>
      obtain ⟨_, nd, _, _, _, f2, _, hrest⟩ := h
      simpa using congrArg Nat.succ (ih f2 lr hrest)

theorem chainIs_mem_idx : ∀ (sl : Skiplist) (f : Option Nat) (idxs : List Nat)
    (l : List (Int × Str)), ChainIs sl f idxs l → ∀ i ∈ idxs, ∃ nd, sl.nodes[i]? = some nd := by
  intro sl f idxs
  induction idxs generalizing f with
  | nil => intro l _ i hi; cases hi
  | cons j rest ih =>
    intro l h i hi
    cases l with
    | nil => exact absurd h (by simp [ChainIs])
    | cons p lr =>
      obtain ⟨_, nd, hnd, _, _, f2, _, hrest⟩ := h
      rcases List.mem_cons.mp hi with hij | hir
      · exact ⟨nd, hij ▸ hnd⟩
      · exact ih f2 lr hrest i hir

theorem getLast?_cons_ne_nil {i : Nat} {rest : List Nat} (h : rest ≠ []) :
    (i :: rest).getLast? = rest.getLast? := by
  cases rest with
  | nil => exact absurd rfl h
  | cons b t => exact List.getLast?_cons_cons

theorem advanceLoop_last (sl : Skiplist) (sc : Int) (m : Str) :
    ∀ (idxs : List Nat) (l : List (Int × Str)) (f : Option Nat) (x : Nat) (fuel : Nat),
    ChainIs sl f idxs l →
    fwdAt sl x 0 = some f →
    (∀ p ∈ l, comparedLess p.1 p.2 sc m = true) →
    idxs.length < fuel →
    advanceLoop sl sc m 0 fuel x = some ((idxs.getLast?).getD x) := by
  intro idxs
  induction idxs with
  | nil =>
    intro l f x fuel hchain hfx _ hfuel
    cases l with
    | cons p lr => exact absurd hchain (by simp [ChainIs])
    | nil =>
      have hf : f = none := hchain
      subst hf
      cases fuel with
      | zero => omega
      | succ fuel2 =>
        simp only [advanceLoop, hfx, List.getLast?_nil, Option.getD_none]
  | cons i rest ih =>
    intro l f x fuel hchain hfx hlt hfuel
    cases l with
    | nil => exact absurd hchain (by simp [ChainIs])
    | cons p lr =>
      obtain ⟨hf, nd, hnd, hsc, hm, f2, hf2, hrest⟩ := hchain
      subst hf
      cases fuel with
      | zero => omega
      | succ fuel2 =>
        have hcmp : comparedLess nd.score nd.member sc m = true := by
          rw [hsc, hm]; exact hlt p (List.mem_cons_self p lr)
        have hfx2 : fwdAt sl i 0 = some f2 := by
          unfold fwdAt nodeAt
          rw [hnd]
          exact hf2
        have hrec := ih lr f2 i fuel2 hrest hfx2
          (fun q hq => hlt q (List.mem_cons_of_mem p hq)) (by simpa using hfuel)
        simp only [advanceLoop, hfx]
        unfold nodeAt
        rw [hnd]
        dsimp only
        rw [if_pos hcmp, hrec]
        congr 1
        cases rest with
        | nil => simp
        | cons b t =>
          rw [getLast?_cons_ne_nil (List.cons_ne_nil b t)]
          have hs : ((b :: t).getLast?).isSome = true := List.getLast?_isSome.mpr (by simp)
          obtain ⟨v, hv⟩ := Option.isSome_iff_exists.mp hs
          rw [hv]
          rfl

theorem getElem?_some_lt {α : Type} {l : List α} {i : Nat} {a : α}
    (h : l[i]? = some a) : i < l.length := (List.getElem?_eq_some_iff.mp h).1

theorem chainIs_last_fwd (sl : Skiplist) : ∀ (idxs : List Nat) (l : List (Int × Str))
    (f : Option Nat) (x : Nat),
    ChainIs sl f idxs l → fwdAt sl x 0 = some f →
    fwdAt sl ((idxs.getLast?).getD x) 0 = some none := by
  intro idxs
  induction idxs with
  | nil =>
    intro l f x hchain hfx
    cases l with
    | cons p lr => exact absurd hchain (by simp [ChainIs])
    | nil =>
      have hf : f = none := hchain
      subst hf
      simpa using hfx
  | cons i rest ih =>
    intro l f x hchain hfx
    cases l with
    | nil => exact absurd hchain (by simp [ChainIs])
    | cons p lr =>
      obtain ⟨hf, nd, hnd, _, _, f2, hf2, hrest⟩ := hchain
      have hfx2 : fwdAt sl i 0 = some f2 := by
        unfold fwdAt nodeAt
        rw [hnd]
        exact hf2
      have hrec := ih lr f2 i hrest hfx2
      cases rest with
      | nil => simpa using hrec
      | cons b t =>
        rw [getLast?_cons_ne_nil (List.cons_ne_nil b t)]
        have hs : ((b :: t).getLast?).isSome = true := List.getLast?_isSome.mpr (by simp)
        obtain ⟨v, hv⟩ := Option.isSome_iff_exists.mp hs
        rw [hv] at hrec ⊢
        exact hrec

theorem chainIs_relink (sl sl2 : Skiplist) (sc : Int) (m : Str) (last : Nat)
    (lastNd : SkiplistNode) (newFwd : List (Option Nat)) (hnf : newFwd[0]? = some none)
    (hlast : sl.nodes[last]? = some lastNd)
    (hnodes : sl2.nodes
      = sl.nodes.set last { lastNd with forward := lastNd.forward.set 0 (some sl.nodes.length) }
          ++ [{ score := sc, member := m, forward := newFwd }]) :
    ∀ (idxs : List Nat) (l : List (Int × Str)) (f : Option Nat),
    ChainIs sl f idxs l →
    idxs.getLast? = some last →
    idxs.Nodup →
    (∀ i ∈ idxs, i < sl.nodes.length) →
    ChainIs sl2 f (idxs ++ [sl.nodes.length]) (l ++ [(sc, m)]) := by
  have hatN : sl2.nodes[sl.nodes.length]?
      = some { score := sc, member := m, forward := newFwd } := by
    rw [hnodes, List.getElem?_append_right (by rw [List.length_set])]
    rw [List.length_set, Nat.sub_self]
    rfl
  have htailN : ChainIs sl2 (some sl.nodes.length) [sl.nodes.length] [(sc, m)] :=
    ⟨rfl, { score := sc, member := m, forward := newFwd }, hatN, rfl, rfl, none, hnf, rfl⟩
  intro idxs
  induction idxs with
  | nil => intro l f _ hgl; simp at hgl
  | cons i rest ih =>
    intro l f hchain hgl hnodup hbounds
    cases l with
    | nil => exact absurd hchain (by simp [ChainIs])
    | cons p lr =>
      obtain ⟨hf, nd, hnd, hsc, hm, f2, hf2, hrest⟩ := hchain
      have hilen : i < sl.nodes.length := hbounds i (List.mem_cons_self i rest)
      cases rest with
      | nil =>
        have hlr : lr = [] := by
          cases lr with
          | nil => rfl
          | cons q t => exact absurd hrest (by simp [ChainIs])
        subst hlr
        have hil : i = last := by simpa using hgl
        subst hil
        have hndeq : lastNd = nd := by
          rw [hlast] at hnd
          exact Option.some.inj hnd
        subst hndeq
        have hfl : 0 < lastNd.forward.length := getElem?_some_lt hf2
        have hnd2 : sl2.nodes[i]?
            = some { lastNd with forward := lastNd.forward.set 0 (some sl.nodes.length) } := by
          rw [hnodes, List.getElem?_append
            (n := i), if_pos (by rw [List.length_set]; exact hilen)]
          exact List.getElem?_set_self hilen
        refine ⟨hf, { lastNd with forward := lastNd.forward.set 0 (some sl.nodes.length) },
          hnd2, hsc, hm, some sl.nodes.length, ?_, htailN⟩
        exact List.getElem?_set_self hfl
      | cons b t =>
        have hgl2 : (b :: t).getLast? = some last := by
          rw [← List.getLast?_cons_cons (a := i)]
          exact hgl
        have hlmem : last ∈ b :: t := List.mem_of_mem_getLast? hgl2
        have hine : i ∉ (b :: t) := (List.nodup_cons.mp hnodup).1
        have hil : last ≠ i := fun h => hine (h ▸ hlmem)
        have hnd2 : sl2.nodes[i]? = some nd := by
          rw [hnodes, List.getElem?_append
            (n := i), if_pos (by rw [List.length_set]; exact hilen)]
          rw [List.getElem?_set_ne hil]
          exact hnd
        refine ⟨hf, nd, hnd2, hsc, hm, f2, hf2, ?_⟩
        exact ih lr f2 hrest hgl2 (List.nodup_cons.mp hnodup).2
          (fun j hj => hbounds j (List.mem_cons_of_mem i hj))

/-- Inserting an element strictly greater (in `comparedLess` order) than
every element of a represented skiplist, at sampled level 1, succeeds and
appends it to the represented list. -/
theorem insert_append (sl : Skiplist) (l : List (Int × Str)) (sc : Int) (m : Str)
    (hrep : Represents sl l)
    (hgt : ∀ p ∈ l, comparedLess p.1 p.2 sc m = true) :
    ∃ sl2, sl.insert sc m 1 = some (true, sl2) ∧ Represents sl2 (l ++ [(sc, m)]) := by
  obtain ⟨hlvl, hlen, hd, hhd, hhdlen, f0, hf0, idxs, hchain, hnodup, hbounds⟩ := hrep
  have hN1 : 0 < sl.nodes.length := getElem?_some_lt hhd
  have hfx0 : fwdAt sl 0 0 = some f0 := by
    unfold fwdAt nodeAt
    rw [hhd]
    exact hf0
  have hfuel : idxs.length < sl.nodes.length + 1 := by
    apply Nat.lt_succ_of_le
    have hsub : idxs ⊆ List.range' 1 (sl.nodes.length - 1) := by
      intro i hi
      obtain ⟨h0, hN⟩ := hbounds i hi
      exact List.mem_range'.mpr ⟨i - 1, by omega, by rw [one_mul]; omega⟩
    calc idxs.length ≤ (List.range' 1 (sl.nodes.length - 1)).length :=
          (List.subperm_of_subset hnodup hsub).length_le
      _ = sl.nodes.length - 1 := by simp
      _ ≤ sl.nodes.length := by omega
  have hlast := advanceLoop_last sl sc m idxs l f0 0 (sl.nodes.length + 1)
    hchain hfx0 hgt hfuel
  have hfxlast : fwdAt sl ((idxs.getLast?).getD 0) 0 = some none :=
    chainIs_last_fwd sl idxs l f0 0 hchain hfx0
  obtain ⟨lastNd, hlastNd, hlastF⟩ :
      ∃ nd, sl.nodes[(idxs.getLast?).getD 0]? = some nd ∧ nd.forward[0]? = some none := by
    unfold fwdAt nodeAt at hfxlast
    cases hx : sl.nodes[(idxs.getLast?).getD 0]? with
    | none => rw [hx] at hfxlast; cases hfxlast
    | some nd => rw [hx] at hfxlast; exact ⟨nd, rfl, hfxlast⟩
  have hbuild : buildUpdate sl sc m sl.level 0 (List.replicate kMaxLevel none)
      = some ((List.replicate kMaxLevel none).set 0 (some ((idxs.getLast?).getD 0)),
              (idxs.getLast?).getD 0) := by
    rw [hlvl]
    simp only [buildUpdate]
    rw [hlast]
  have hlastlen : (idxs.getLast?).getD 0 < sl.nodes.length := getElem?_some_lt hlastNd
  have hupd0 : ((List.replicate kMaxLevel none).set 0
      (some ((idxs.getLast?).getD 0)))[0]? = some (some ((idxs.getLast?).getD 0)) :=
    List.getElem?_set_self (by rw [List.length_replicate]; decide)
  have hlink : linkLevels sl.nodes.length
      ((List.replicate kMaxLevel none).set 0 (some ((idxs.getLast?).getD 0))) 1
      sl.nodes (List.replicate 1 none)
      = some (sl.nodes.set ((idxs.getLast?).getD 0)
          { lastNd with forward := lastNd.forward.set 0 (some sl.nodes.length) }, [none]) := by
    unfold linkLevels
    rw [List.range_succ, List.range_zero, List.nil_append, List.foldl_cons, List.foldl_nil]
    unfold linkStep
    dsimp only
    rw [hupd0]
    dsimp only
    rw [hlastNd]
    dsimp only
    rw [hlastF]
    rfl
  have hinsert : sl.insert sc m 1 = some (true,
      { nodes := sl.nodes.set ((idxs.getLast?).getD 0)
          { lastNd with forward := lastNd.forward.set 0 (some sl.nodes.length) }
          ++ [{ score := sc, member := m, forward := [none] }],
        level := sl.level, length := sl.length + 1 }) := by
    unfold Skiplist.insert
    rw [hbuild]
    dsimp only
    rw [show fwdAt sl ((idxs.getLast?).getD 0) 0 = some none from hfxlast]
    dsimp only
    rw [if_neg (by rw [hlvl]; omega), hlink]
    rw [hlvl]
    rfl
  refine ⟨_, hinsert, ?_⟩
  constructor
  · exact hlvl
  constructor
  · simpa using congrArg Nat.succ hlen
  cases hidxs : idxs with
  | nil =>
    subst hidxs
    have hl : l = [] := by
      cases l with
      | nil => rfl
      | cons p lr => exact absurd hchain (by simp [ChainIs])
    subst hl
    have hf0n : f0 = none := hchain
    have hlast0 : (([] : List Nat).getLast?).getD 0 = 0 := rfl
    rw [hlast0] at hlastNd hinsert
    have hhd' : lastNd = hd := by
      rw [hhd] at hlastNd
      exact (Option.some.inj hlastNd).symm
    subst hhd'
    refine ⟨{ lastNd with forward := lastNd.forward.set 0 (some sl.nodes.length) }, ?_, ?_, ?_⟩
    · show ((sl.nodes.set 0 _ ++ _))[0]? = _
      rw [List.getElem?_append (n := 0), if_pos (by rw [List.length_set]; exact hN1)]
      exact List.getElem?_set_self (by exact hN1)
    · show (lastNd.forward.set 0 (some sl.nodes.length)).length = kMaxLevel
      rw [List.length_set]
      exact hhdlen
    refine ⟨some sl.nodes.length, ?_, [sl.nodes.length], ?_, ?_, ?_⟩
    · exact List.getElem?_set_self (by rw [hhdlen]; decide)
    · refine ⟨rfl, { score := sc, member := m, forward := [none] }, ?_, rfl, rfl, none, rfl, rfl⟩
      show ((sl.nodes.set 0 _ ++ _))[sl.nodes.length]? = _
      rw [List.getElem?_append_right (by rw [List.length_set])]
      rw [List.length_set, Nat.sub_self]
      rfl
    · exact List.nodup_singleton _
    · intro i hi
      rw [List.mem_singleton] at hi
      subst hi
      constructor
      · exact hN1
      · show sl.nodes.length < (sl.nodes.set 0 _ ++ [_]).length
        rw [List.length_append, List.length_set]
        simp
  | cons i0 rest0 =>
    have hne : idxs ≠ [] := by rw [hidxs]; exact List.cons_ne_nil i0 rest0
    rw [← hidxs] at *
    obtain ⟨lastv, hgl⟩ := Option.isSome_iff_exists.mp (List.getLast?_isSome.mpr hne)
    have hlastv : (idxs.getLast?).getD 0 = lastv := by rw [hgl]; rfl
    rw [hlastv] at hlastNd hinsert hlastlen ⊢
    have hlastmem : lastv ∈ idxs := List.mem_of_mem_getLast? hgl
    have hlastpos : 0 < lastv := (hbounds lastv hlastmem).1
    have hchain2 := chainIs_relink sl
      { nodes := sl.nodes.set lastv
          { lastNd with forward := lastNd.forward.set 0 (some sl.nodes.length) }
          ++ [{ score := sc, member := m, forward := [none] }],
        level := sl.level, length := sl.length + 1 }
      sc m lastv lastNd [none] rfl hlastNd rfl
      idxs l f0 hchain hgl hnodup (fun j hj => (hbounds j hj).2)
    refine ⟨hd, ?_, hhdlen, f0, hf0, idxs ++ [sl.nodes.length], hchain2, ?_, ?_⟩
    · show ((sl.nodes.set lastv _ ++ _))[0]? = _
      rw [List.getElem?_append (n := 0), if_pos (by rw [List.length_set]; exact hN1)]
      rw [List.getElem?_set_ne (by omega)]
      exact hhd
    · rw [List.nodup_append]
      refine ⟨hnodup, List.nodup_singleton _, ?_⟩
      intro j hj hjN
      rw [List.mem_singleton] at hjN
      have := (hbounds j hj).2
      omega
    · intro j hj
      rw [List.mem_append, List.mem_singleton] at hj
      have hlen2 : ((sl.nodes.set lastv
          ({ lastNd with forward := lastNd.forward.set 0 (some sl.nodes.length) } : SkiplistNode))
          ++ [({ score := sc, member := m, forward := [none] } : SkiplistNode)]).length
          = sl.nodes.length + 1 := by
        rw [List.length_append, List.length_set]
        simp
      rcases hj with hj | hj
      · obtain ⟨h0, hN⟩ := hbounds j hj
        exact ⟨h0, by rw [hlen2]; omega⟩
      · subst hj
        exact ⟨hN1, by rw [hlen2]; omega⟩

theorem idxs_length_lt (N : Nat) (idxs : List Nat) (hnodup : idxs.Nodup)
    (hbounds : ∀ i ∈ idxs, 0 < i ∧ i < N) : idxs.length < N + 1 := by
  apply Nat.lt_succ_of_le
  have hsub : idxs ⊆ List.range' 1 (N - 1) := by
    intro i hi
    obtain ⟨h0, hN⟩ := hbounds i hi
    exact List.mem_range'.mpr ⟨i - 1, by omega, by rw [one_mul]; omega⟩
  calc idxs.length ≤ (List.range' 1 (N - 1)).length :=
        (List.subperm_of_subset hnodup hsub).length_le
    _ = N - 1 := by simp
    _ ≤ N := by omega

theorem chainToVector_of_chain (sl : Skiplist) : ∀ (idxs : List Nat)
    (l : List (Int × Str)) (f : Option Nat) (acc : List (Int × Str)) (fuel : Nat),
    ChainIs sl f idxs l → idxs.length < fuel →
    chainToVector sl fuel f acc = some (acc.reverse ++ l) := by
  intro idxs
  induction idxs with
  | nil =>
    intro l f acc fuel hchain hfuel
    cases l with
    | cons p lr => exact absurd hchain (by simp [ChainIs])
    | nil =>
      have hf : f = none := hchain
      subst hf
      cases fuel with
      | zero => omega
      | succ fuel2 => simp [chainToVector]
  | cons i rest ih =>
    intro l f acc fuel hchain hfuel
    cases l with
    | nil => exact absurd hchain (by simp [ChainIs])
    | cons p lr =>
      obtain ⟨hf, nd, hnd, hsc, hm, f2, hf2, hrest⟩ := hchain
      subst hf
      cases fuel with
      | zero => omega
      | succ fuel2 =>
        show (match nodeAt sl i with
          | none => none
          | some ynd =>
            match ynd.forward[0]? with
            | none => none
            | some f => chainToVector sl fuel2 f ((ynd.score, ynd.member) :: acc)) = _
        unfold nodeAt
        rw [hnd]
        dsimp only
        rw [hf2]
        dsimp only
        rw [ih lr f2 ((nd.score, nd.member) :: acc) fuel2 hrest (by simpa using hfuel)]
        rw [hsc, hm]
        simp

/-- `toVector` on a represented skiplist returns the represented list. -/
theorem toVector_of_represents (sl : Skiplist) (l : List (Int × Str))
    (hrep : Represents sl l) : sl.toVector = some l := by
  obtain ⟨hlvl, hlen, hd, hhd, hhdlen, f0, hf0, idxs, hchain, hnodup, hbounds⟩ := hrep
  have hfx0 : fwdAt sl 0 0 = some f0 := by
    unfold fwdAt nodeAt
    rw [hhd]
    exact hf0
  unfold Skiplist.toVector
  rw [hfx0]
  dsimp only
  rw [chainToVector_of_chain sl idxs l f0 [] (sl.nodes.length + 1) hchain
    (idxs_length_lt sl.nodes.length idxs hnodup hbounds)]
  rfl

theorem foldl_linkStep_none (idx : Nat) (upd : List (Option Nat)) :
    ∀ l : List Nat, l.foldl (linkStep idx upd) none = none := by
  intro l
  induction l with
  | nil => rfl
  | cons a r ih => simpa [linkStep] using ih

theorem linkLevels_none (idx : Nat) (upd : List (Option Nat)) (lvl : Nat)
    (nodes0 : List SkiplistNode) (fwd0 : List (Option Nat))
    (h2 : 2 ≤ lvl) (hupd1 : upd[1]? = some none) :
    linkLevels idx upd lvl nodes0 fwd0 = none := by
  obtain ⟨k, rfl⟩ : ∃ k, lvl = k + 2 := ⟨lvl - 2, by omega⟩
  unfold linkLevels
  rw [show List.range (k + 2) = 0 :: 1 :: List.range' 2 k by
    rw [List.range_eq_range']
    rfl]
  rw [List.foldl_cons, List.foldl_cons]
  have h1 : ∀ st, linkStep idx upd st 1 = none ∨ linkStep idx upd st 1
      = none := fun st => Or.inl (by
    cases st with
    | none => rfl
    | some pr =>
      obtain ⟨nodes, nf⟩ := pr
      show (match upd[1]? with
        | none => none
        | some none => none
        | some (some u) =>
          match nodes[u]? with
          | none => none
          | some und =>
            match und.forward[1]? with
            | none => none
            | some uf =>
              some (nodes.set u { und with forward := und.forward.set 1 (some idx) },
                    nf.set 1 uf)) = none
      rw [hupd1])
  rcases h1 (linkStep idx upd (some (nodes0, fwd0)) 0) with h | h
  · rw [h]
    exact foldl_linkStep_none idx upd _
  · rw [h]
    exact foldl_linkStep_none idx upd _

/-- On a represented (level-1) skiplist, a non-duplicate insert whose
sampled level exceeds the current level dereferences a null `update` slot:
the fill loop at lines 230-233 is dead (`level_` is assigned before it), so
`update[1]` is still null when the link loop reads it. -/
theorem insert_big_none (sl : Skiplist) (l : List (Int × Str)) (sc : Int) (m : Str)
    (lvl : Nat) (hrep : Represents sl l)
    (hgt : ∀ p ∈ l, comparedLess p.1 p.2 sc m = true) (h2 : 2 ≤ lvl) :
    sl.insert sc m lvl = none := by
  obtain ⟨hlvl, hlen, hd, hhd, hhdlen, f0, hf0, idxs, hchain, hnodup, hbounds⟩ := hrep
  have hfx0 : fwdAt sl 0 0 = some f0 := by
    unfold fwdAt nodeAt
    rw [hhd]
    exact hf0
  have hfuel := idxs_length_lt sl.nodes.length idxs hnodup hbounds
  have hlast := advanceLoop_last sl sc m idxs l f0 0 (sl.nodes.length + 1)
    hchain hfx0 hgt hfuel
  have hfxlast : fwdAt sl ((idxs.getLast?).getD 0) 0 = some none :=
    chainIs_last_fwd sl idxs l f0 0 hchain hfx0
  have hbuild : buildUpdate sl sc m sl.level 0 (List.replicate kMaxLevel none)
      = some ((List.replicate kMaxLevel none).set 0 (some ((idxs.getLast?).getD 0)),
              (idxs.getLast?).getD 0) := by
    rw [hlvl]
    simp only [buildUpdate]
    rw [hlast]
  have hupd1 : ((List.replicate kMaxLevel none).set 0
      (some ((idxs.getLast?).getD 0)))[1]? = some none := by
    rw [List.getElem?_set_ne (by omega)]
    rw [List.getElem?_replicate]
    rfl
  unfold Skiplist.insert
  rw [hbuild]
  dsimp only
  rw [hfxlast]
  dsimp only
  rw [if_pos (by omega)]
  rw [linkLevels_none _ _ _ _ _ h2 (by
    rw [show lvl - lvl = 0 from by omega]
    rw [show List.range' lvl 0 = [] from rfl, List.foldl_nil]
    exact hupd1)]

/-- The migration loop of `zadd` (lines 358-362 and 408-411): re-insert
every pair of the sorted vector into a fresh skiplist, consuming one
sampled level per insert (`lvls.headD 1`; an exhausted stream continues
with level 1). -/
def slFromItems : Skiplist → List (Int × Str) → List Nat → Option (Skiplist × List Nat)
  | sl, [], lvls => some (sl, lvls)
  | sl, p :: rest, lvls =>
    match sl.insert p.1 p.2 (lvls.headD 1) with
    | none => none
    | some (_, sl2) => slFromItems sl2 rest lvls.tail

/-- Folding `insert` over a strictly ascending list, starting from a
represented skiplist, either crashes or appends all pairs in order. -/
theorem slFromItems_represents : ∀ (items l : List (Int × Str)) (sl : Skiplist)
    (lvls : List Nat), Represents sl l →
    (∀ v ∈ lvls, 1 ≤ v) →
    List.Pairwise (fun a b : Int × Str => comparedLess a.1 a.2 b.1 b.2 = true) (l ++ items) →
    ∀ res, slFromItems sl items lvls = some res →
    Represents res.1 (l ++ items) := by
  intro items
  induction items with
  | nil =>
    intro l sl lvls hrep _ _ res hres
    have : res = (sl, lvls) := by
      unfold slFromItems at hres
      exact (Option.some.inj hres).symm
    subst this
    simpa using hrep
  | cons p rest ih =>
    intro l sl lvls hrep hlvls hsorted res hres
    have hgt : ∀ q ∈ l, comparedLess q.1 q.2 p.1 p.2 = true := by
      intro q hq
      exact (List.pairwise_append.mp hsorted).2.2 q hq p (List.mem_cons_self p rest)
    have hlv1 : 1 ≤ lvls.headD 1 := by
      cases lvls with
      | nil => exact le_refl 1
      | cons v t => exact hlvls v (List.mem_cons_self v t)
    by_cases hlv : lvls.headD 1 = 1
    · obtain ⟨sl2, hins, hrep2⟩ := insert_append sl l p.1 p.2
        ⟨(hrep.1), hrep.2.1, hrep.2.2⟩ hgt
      unfold slFromItems at hres
      rw [hlv, hins] at hres
      dsimp only at hres
      have hsorted2 : List.Pairwise
          (fun a b : Int × Str => comparedLess a.1 a.2 b.1 b.2 = true)
          ((l ++ [p]) ++ rest) := by
        rw [List.append_assoc, List.singleton_append]
        exact hsorted
      have := ih (l ++ [p]) sl2 lvls.tail hrep2
        (fun v hv => hlvls v (List.mem_of_mem_tail hv)) hsorted2 res hres
      rw [List.append_assoc, List.singleton_append] at this
      exact this
    · have h2 : 2 ≤ lvls.headD 1 := by omega
      have hnone := insert_big_none sl l p.1 p.2 (lvls.headD 1) hrep hgt h2
      unfold slFromItems at hres
      rw [hnone] at hres
      cases hres

/-! ## Key-value engine (include kv.hpp, unnamed/part_002)

Every operation takes the current time `now` explicitly (the source calls
`nowMs()`).  `zadd`/`zrem` thread the sampled-level stream and return
`none` on undefined behaviour inside the skiplist.  The store is the
four-map state of `KeyValueStore`; the mutex is irrelevant to a sequential
model. -/

structure ValueRecord where
  value : Str
  expire_at_ms : Int
  deriving DecidableEq

structure HashRecord where
  fields : List (Str × Str)
  expire_at_ms : Int
  deriving DecidableEq

structure ZSetRecord where
  use_skiplist : Bool
  items : List (Int × Str)
  sl : Option Skiplist
  member_to_score : List (Str × Int)
  expire_at_ms : Int
  deriving DecidableEq

/-- Default-constructed `ZSetRecord` (created by `zmap_[key]`). -/
def mkZSetRecord : ZSetRecord :=
  { use_skiplist := false, items := [], sl := none, member_to_score := [], expire_at_ms := -1 }

structure ZSetFlat where
  key : Str
  items : List (Int × Str)
  expire_at_ms : Int
  deriving DecidableEq

structure KeyValueStore where
  map : List (Str × ValueRecord)
  hmap : List (Str × HashRecord)
  zmap : List (Str × ZSetRecord)
  expire_index : List (Str × Int)
  deriving DecidableEq

/-- A freshly constructed store. -/
def emptyStore : KeyValueStore := { map := [], hmap := [], zmap := [], expire_index := [] }

/-- `kZsetVectorThreshold = 128`. -/
def kZsetVectorThreshold : Nat := 128

def isExpiredVal (r : ValueRecord) (now : Int) : Bool :=
  decide (r.expire_at_ms ≥ 0) && decide (now ≥ r.expire_at_ms)

def isExpiredHash (r : HashRecord) (now : Int) : Bool :=
  decide (r.expire_at_ms ≥ 0) && decide (now ≥ r.expire_at_ms)

def isExpiredZSet (r : ZSetRecord) (now : Int) : Bool :=
  decide (r.expire_at_ms ≥ 0) && decide (now ≥ r.expire_at_ms)

def cleanupIfExpired (st : KeyValueStore) (key : Str) (now : Int) : KeyValueStore :=
  match alookup st.map key with
  | none => st
  | some r =>
    if isExpiredVal r now then
      { st with map := aerase st.map key, expire_index := aerase st.expire_index key }
    else st

def cleanupIfExpiredHash (st : KeyValueStore) (key : Str) (now : Int) : KeyValueStore :=
  match alookup st.hmap key with
  | none => st
  | some r =>
    if isExpiredHash r now then
      { st with hmap := aerase st.hmap key, expire_index := aerase st.expire_index key }
    else st

def cleanupIfExpiredZSet (st : KeyValueStore) (key : Str) (now : Int) : KeyValueStore :=
  match alookup st.zmap key with
  | none => st
  | some r =>
    if isExpiredZSet r now then
      { st with zmap := aerase st.zmap key, expire_index := aerase st.expire_index key }
    else st

/-- `KeyValueStore::set(key, value, ttl_ms)`. -/
def KeyValueStore.set (st : KeyValueStore) (now : Int) (key value : Str)
    (ttl_ms : Option Int) : Bool × KeyValueStore :=
  let expire_at : Int := match ttl_ms with | some t => now + t | none => -1
  let st1 := { st with map := aset st.map key { value := value, expire_at_ms := expire_at } }
  if expire_at ≥ 0 then
    (true, { st1 with expire_index := aset st1.expire_index key expire_at })
  else
    (true, { st1 with expire_index := aerase st1.expire_index key })

/-- `KeyValueStore::setWithExpireAtMs(key, value, expire_at_ms)`.  Note:
lines 38-42 only add an index entry when `expire_at_ms >= 0`; a negative
expiry leaves any stale index entry in place. -/
def KeyValueStore.setWithExpireAtMs (st : KeyValueStore) (key value : Str)
    (expire_at_ms : Int) : Bool × KeyValueStore :=
  let st1 := { st with map := aset st.map key { value := value, expire_at_ms := expire_at_ms } }
  if expire_at_ms ≥ 0 then
    (true, { st1 with expire_index := aset st1.expire_index key expire_at_ms })
  else
    (true, st1)

/-- The loop body of `KeyValueStore::del` (lines 61-69): lazy-expire, then
erase from the scalar map (`map_`) and the expiry index only. -/
def delGo (now : Int) : List Str → KeyValueStore → Int → Int × KeyValueStore
  | [], st, removed => (removed, st)
  | k :: r, st, removed =>
    let st1 := cleanupIfExpired st k now
    match alookup st1.map k with
    | none => delGo now r st1 removed
    | some _ =>
      delGo now r
        { st1 with map := aerase st1.map k, expire_index := aerase st1.expire_index k }
        (removed + 1)

/-- `KeyValueStore::del(keys)`. -/
def KeyValueStore.del (st : KeyValueStore) (now : Int) (keys : List Str) :
    Int × KeyValueStore := delGo now keys st 0

/-- `KeyValueStore::exists(key)` (`exists` is reserved in Lean). -/
def KeyValueStore.existsKey (st : KeyValueStore) (now : Int) (key : Str) :
    Bool × KeyValueStore :=
  let st1 := cleanupIfExpired st key now
  ((alookup st1.map key).isSome || (alookup st1.hmap key).isSome
    || (alookup st1.zmap key).isSome, st1)

/-- `KeyValueStore::expire(key, ttl_seconds)`. -/
def KeyValueStore.expire (st : KeyValueStore) (now : Int) (key : Str)
    (ttl_seconds : Int) : Bool × KeyValueStore :=
  let st1 := cleanupIfExpired st key now
  match alookup st1.map key with
  | none => (false, st1)
  | some r =>
    if ttl_seconds < 0 then
      (true, { st1 with
               map := aset st1.map key ({ r with expire_at_ms := -1 }),
               expire_index := aerase st1.expire_index key })
    else
      (true, { st1 with
               map := aset st1.map key ({ r with expire_at_ms := now + ttl_seconds * 1000 }),
               expire_index := aset st1.expire_index key (now + ttl_seconds * 1000) })

/-- `KeyValueStore::hset(key, field, value)`. -/
def KeyValueStore.hset (st : KeyValueStore) (now : Int) (key field value : Str) :
    Int × KeyValueStore :=
  let st1 := cleanupIfExpiredHash st key now
  let rec0 := (alookup st1.hmap key).getD { fields := [], expire_at_ms := -1 }
  let ret : Int := match alookup rec0.fields field with | none => 1 | some _ => 0
  (ret, { st1 with
          hmap := aset st1.hmap key ({ rec0 with fields := aset rec0.fields field value }) })

/-- The field loop of `KeyValueStore::hdel` (lines 254-262). -/
def hdelGo : List Str → HashRecord → Int → Int × HashRecord
  | [], rec, removed => (removed, rec)
  | f :: r, rec, removed =>
    match alookup rec.fields f with
    | none => hdelGo r rec removed
    | some _ => hdelGo r { rec with fields := aerase rec.fields f } (removed + 1)

/-- `KeyValueStore::hdel(key, fields)`.  When the last field is removed,
the whole record is erased from `hmap_` (lines 263-266); the expiry index
is not touched. -/
def KeyValueStore.hdel (st : KeyValueStore) (now : Int) (key : Str)
    (fields : List Str) : Int × KeyValueStore :=
  let st1 := cleanupIfExpiredHash st key now
  match alookup st1.hmap key with
  | none => (0, st1)
  | some rec =>
    let pr := hdelGo fields rec 0
    if pr.2.fields = [] then (pr.1, { st1 with hmap := aerase st1.hmap key })
    else (pr.1, { st1 with hmap := aset st1.hmap key pr.2 })

/-- `KeyValueStore::setHashExpireAtMs(key, expire_at_ms)`. -/
def KeyValueStore.setHashExpireAtMs (st : KeyValueStore) (key : Str)
    (expire_at_ms : Int) : Bool × KeyValueStore :=
  match alookup st.hmap key with
  | none => (false, st)
  | some rec =>
    let st1 := { st with hmap := aset st.hmap key ({ rec with expire_at_ms := expire_at_ms }) }
    if expire_at_ms ≥ 0 then
      (true, { st1 with expire_index := aset st1.expire_index key expire_at_ms })
    else
      (true, { st1 with expire_index := aerase st1.expire_index key })

/-- The `zadd` vector comparator (lines 346-351 and 397-402). -/
def zaddCmp (a b : Int × Str) : Bool :=
  if (a.1 - b.1).natAbs > kDelta.natAbs then decide (a.1 < b.1) else ltStr a.2 b.2

/-- `std::lower_bound` + `vec.insert`: insert before the first element not
less than the probe. -/
def insertLB : List (Int × Str) → (Int × Str) → List (Int × Str)
  | [], p => [p]
  | x :: r, p => if zaddCmp x p then x :: insertLB r p else p :: x :: r

/-- The exact-match erase loop of the `zadd` update path (lines 389-396). -/
def eraseFirstPair (old : Int) (member : Str) : List (Int × Str) → List (Int × Str)
  | [] => []
  | (s, m) :: r => if s = old && m = member then r else (s, m) :: eraseFirstPair old member r

/-- The exact-match erase loop of `zrem` (lines 445-452), also reporting
whether a pair was erased (`++removed` happens only inside the loop). -/
def eraseFirstPairB (old : Int) (member : Str) : List (Int × Str) → Bool × List (Int × Str)
  | [] => (false, [])
  | (s, m) :: r =>
    if s = old && m = member then (true, r)
    else
      let pr := eraseFirstPairB old member r
      (pr.1, (s, m) :: pr.2)

/-- The body of `KeyValueStore::zadd` on the record `zmap_[key]`
(lines 334-422). -/
def zaddRec (rec : ZSetRecord) (score : Int) (member : Str) (lvls : List Nat) :
    Option (Int × ZSetRecord × List Nat) :=
  match alookup rec.member_to_score member with
  | none =>
    if rec.use_skiplist = false then
      let vec := insertLB rec.items (score, member)
      if kZsetVectorThreshold < vec.length then
        match slFromItems mkSkiplist vec lvls with
        | none => none
        | some (sl2, lvls2) =>
          some (1, { use_skiplist := true, items := [], sl := some sl2,
                     member_to_score := aset rec.member_to_score member score,
                     expire_at_ms := rec.expire_at_ms }, lvls2)
      else
        some (1, { rec with
                   items := vec,
                   member_to_score := aset rec.member_to_score member score }, lvls)
    else
      match rec.sl with
      | none => none
      | some sl =>
        match sl.insert score member (lvls.headD 1) with
        | none => none
        | some (_, sl2) =>
          some (1, { rec with
                     sl := some sl2,
                     member_to_score := aset rec.member_to_score member score }, lvls.tail)
  | some old =>
    if old = score then some (0, rec, lvls)
    else if rec.use_skiplist = false then
      let vec := insertLB (eraseFirstPair old member rec.items) (score, member)
      if kZsetVectorThreshold < vec.length then
        match slFromItems mkSkiplist vec lvls with
        | none => none
        | some (sl2, lvls2) =>
          some (0, { use_skiplist := true, items := [], sl := some sl2,
                     member_to_score := aset rec.member_to_score member score,
                     expire_at_ms := rec.expire_at_ms }, lvls2)
      else
        some (0, { rec with
                   items := vec,
                   member_to_score := aset rec.member_to_score member score }, lvls)
    else
      match rec.sl with
      | none => none
      | some sl =>
        match sl.erase old member with
        | none => none
        | some (_, sl1) =>
          match sl1.insert score member (lvls.headD 1) with
          | none => none
          | some (_, sl2) =>
            some (0, { rec with
                       sl := some sl2,
                       member_to_score := aset rec.member_to_score member score }, lvls.tail)

/-- `KeyValueStore::zadd(key, score, member)`. -/
def KeyValueStore.zadd (st : KeyValueStore) (now : Int) (key : Str) (score : Int)
    (member : Str) (lvls : List Nat) : Option (Int × KeyValueStore × List Nat) :=
  let st1 := cleanupIfExpiredZSet st key now
  let rec0 := (alookup st1.zmap key).getD mkZSetRecord
  match zaddRec rec0 score member lvls with
  | none => none
  | some (ret, rec2, lvls2) =>
    some (ret, { st1 with zmap := aset st1.zmap key rec2 }, lvls2)

/-- The member loop of `KeyValueStore::zrem` (lines 435-459). -/
def zremGo : List Str → ZSetRecord → Int → Option (Int × ZSetRecord)
  | [], rec, removed => some (removed, rec)
  | m :: r, rec, removed =>
    match alookup rec.member_to_score m with
    | none => zremGo r rec removed
    | some sc =>
      let rec1 := { rec with member_to_score := aerase rec.member_to_score m }
      if rec1.use_skiplist = false then
        let pr := eraseFirstPairB sc m rec1.items
        zremGo r { rec1 with items := pr.2 } (if pr.1 then removed + 1 else removed)
      else
        match rec1.sl with
        | none => none
        | some sl =>
          match sl.erase sc m with
          | none => none
          | some (erased, sl2) =>
            zremGo r { rec1 with sl := some sl2 }
              (if erased then removed + 1 else removed)

/-- `KeyValueStore::zrem(key, members)`.  When the record becomes empty it
is erased from `zmap_` (lines 461-470); the expiry index is not touched. -/
def KeyValueStore.zrem (st : KeyValueStore) (now : Int) (key : Str)
    (members : List Str) : Option (Int × KeyValueStore) :=
  let st1 := cleanupIfExpiredZSet st key now
  match alookup st1.zmap key with
  | none => some (0, st1)
  | some rec =>
    match zremGo members rec 0 with
    | none => none
    | some (removed, rec2) =>
      if rec2.use_skiplist = false then
        if rec2.items = [] then some (removed, { st1 with zmap := aerase st1.zmap key })
        else some (removed, { st1 with zmap := aset st1.zmap key rec2 })
      else
        match rec2.sl with
        | none => none
        | some sl =>
          if sl.size = 0 then some (removed, { st1 with zmap := aerase st1.zmap key })
          else some (removed, { st1 with zmap := aset st1.zmap key rec2 })

/-- `KeyValueStore::setZSetExpireAtMs(key, expire_at_ms)`. -/
def KeyValueStore.setZSetExpireAtMs (st : KeyValueStore) (key : Str)
    (expire_at_ms : Int) : Bool × KeyValueStore :=
  match alookup st.zmap key with
  | none => (false, st)
  | some rec =>
    let st1 := { st with zmap := aset st.zmap key ({ rec with expire_at_ms := expire_at_ms }) }
    if expire_at_ms ≥ 0 then
      (true, { st1 with expire_index := aset st1.expire_index key expire_at_ms })
    else
      (true, { st1 with expire_index := aerase st1.expire_index key })

/-- `KeyValueStore::snapshot()`: copy of `map_` in iteration order. -/
def KeyValueStore.snapshot (st : KeyValueStore) : List (Str × ValueRecord) := st.map

/-- `KeyValueStore::snapshotHash()`. -/
def KeyValueStore.snapshotHash (st : KeyValueStore) : List (Str × HashRecord) := st.hmap

/-- One `ZSetFlat` of the `snapshotZSet` loop body (lines 176-185):
`items` is copied from the vector in sequence mode, or materialized with
`toVector` in skiplist mode. -/
def flattenZ (k : Str) (rec : ZSetRecord) : Option ZSetFlat :=
  if rec.use_skiplist = false then
    some { key := k, items := rec.items, expire_at_ms := rec.expire_at_ms }
  else
    match rec.sl with
    | none => none
    | some sl =>
      match sl.toVector with
      | none => none
      | some items => some { key := k, items := items, expire_at_ms := rec.expire_at_ms }

def snapshotZSetList : List (Str × ZSetRecord) → Option (List ZSetFlat)
  | [] => some []
  | (k, rec) :: r =>
    match flattenZ k rec with
    | none => none
    | some flat =>
      match snapshotZSetList r with
      | none => none
      | some out => some (flat :: out)

/-- The local `out` vector of `KeyValueStore::snapshotZSet()` as populated
by the loop at lines 175-186.  The source function then falls off the end
without `return out;` (undefined behaviour), so this is the value the
function was evidently meant to return, not the value it returns. -/
def KeyValueStore.snapshotZSetOut (st : KeyValueStore) : Option (List ZSetFlat) :=
  snapshotZSetList st.zmap

/-- `KeyValueStore::listKeys()`: keys of all three maps, sorted
(`std::sort`, modelled by the sorted permutation `mergeSort` computes) and
deduplicated with `std::unique` + `erase`. -/
def KeyValueStore.listKeys (st : KeyValueStore) : List Str :=
  uniqAdj ((akeys st.map ++ akeys st.hmap ++ akeys st.zmap).mergeSort leStr)

/-! ## RDB snapshot codec (rdb.hpp, unnamed/part_002 second part)

`Rdb.save` produces the file bytes from the three snapshots (file
descriptors, `fsync` and I/O errors are outside the model; the value
serialized for the ordered sets is `snapshotZSetOut`, the vector the
source's `snapshotZSet` populates before falling off the end).  `Rdb.load`
parses the bytes and replays them into a store through the public store
operations, exactly following the source's line/token machinery:
`LoadRes.crash` models an uncaught exception (`std::stoi`/`std::stod` with
no digits, `substr` out of range), `LoadRes.fail` models the `return
false` error paths, with the store as mutated so far. -/

/-- One record line of the scalar (`STR`) section and of the legacy
`MRDB1` body. -/
def strRecLine (k : Str) (r : ValueRecord) : Str :=
  natChars k.length ++ [' '] ++ k ++ [' '] ++ natChars r.value.length ++ [' ']
    ++ r.value ++ [' '] ++ intChars r.expire_at_ms ++ ['\n']

/-- One field line of a `HASH` record. -/
def hashFieldLine (fv : Str × Str) : Str :=
  natChars fv.1.length ++ [' '] ++ fv.1 ++ [' '] ++ natChars fv.2.length ++ [' ']
    ++ fv.2 ++ ['\n']

/-- The head line of a `HASH` record. -/
def hashHeadLine (k : Str) (r : HashRecord) : Str :=
  natChars k.length ++ [' '] ++ k ++ [' '] ++ intChars r.expire_at_ms ++ [' ']
    ++ natChars r.fields.length ++ ['\n']

/-- One item line of a `ZSET` record. -/
def zsetItemLine (p : Int × Str) : Str :=
  scoreChars p.1 ++ [' '] ++ natChars p.2.length ++ [' '] ++ p.2 ++ ['\n']

/-- The head line of a `ZSET` record. -/
def zsetHeadLine (flat : ZSetFlat) : Str :=
  natChars flat.key.length ++ [' '] ++ flat.key ++ [' '] ++ intChars flat.expire_at_ms
    ++ [' '] ++ natChars flat.items.length ++ ['\n']

/-- The bytes `Rdb::save` writes for given snapshots. -/
def saveText (S : List (Str × ValueRecord)) (H : List (Str × HashRecord))
    (Z : List ZSetFlat) : Str :=
  "MRDB2\n".toList
    ++ "STR ".toList ++ natChars S.length ++ ['\n']
    ++ (S.map (fun kv => strRecLine kv.1 kv.2)).flatten
    ++ "HASH ".toList ++ natChars H.length ++ ['\n']
    ++ (H.map (fun kv => hashHeadLine kv.1 kv.2
          ++ (kv.2.fields.map hashFieldLine).flatten)).flatten
    ++ "ZSET ".toList ++ natChars Z.length ++ ['\n']
    ++ (Z.map (fun flat => zsetHeadLine flat
          ++ (flat.items.map zsetItemLine).flatten)).flatten

/-- `Rdb::save(store)`: serialize the three snapshots (or crash where
`snapshotZSet`'s missing return makes the source's behaviour undefined). -/
def Rdb.save (st : KeyValueStore) : Option Str :=
  match st.snapshotZSetOut with
  | none => none
  | some Z => some (saveText st.snapshot st.snapshotHash Z)

/-- Index of the first occurrence of `c`. -/
def firstIdx (c : Char) : Str → Option Nat
  | [] => none
  | x :: r => if x = c then some 0 else (firstIdx c r).map (· + 1)

/-- The `readLine` lambda of `Rdb::load`: split at the next newline. -/
def readLine (f : Str) : Option (Str × Str) :=
  match firstIdx '\n' f with
  | none => none
  | some e => some (f.take e, f.drop (e + 1))

/-- Leading spaces of a list. -/
def countSp : Str → Nat
  | [] => 0
  | c :: r => if c = ' ' then countSp r + 1 else 0

/-- The space-skipping loop of `nextTok` (`while (s < size && line[s]==' ') ++s`). -/
def skipSp (line : Str) (p : Nat) : Nat := p + countSp (line.drop p)

/-- `std::string::find(c, s)`: `npos` when `s > size()`. -/
def findFrom (line : Str) (c : Char) (s : Nat) : Option Nat :=
  if s ≤ line.length then (firstIdx c (line.drop s)).map (· + s) else none

/-- `line.substr(s)`: throws `out_of_range` when `s > size()`. -/
def substrFrom (line : Str) (s : Nat) : Option Str :=
  if s ≤ line.length then some (line.drop s) else none

/-- `line.substr(s, n)`: throws when `s > size()`, truncates otherwise. -/
def substrLen (line : Str) (s n : Nat) : Option Str :=
  if s ≤ line.length then some ((line.drop s).take n) else none

/-- The `nextTok` lambda of `Rdb::load`. -/
def nextTok (line : Str) (p : Nat) : Option (Str × Nat) :=
  let s := skipSp line p
  match findFrom line ' ' s with
  | some q => some (((line.drop s).take (q - s), q + 1))
  | none =>
    match substrFrom line s with
    | none => none
    | some tok => some (tok, line.length)

/-- Parse one scalar record line: `klen SP key SP vlen SP value SP exp`.
A negative parsed length is mapped to `none`: the source casts it to
`size_t`, making the following `substr` position astronomically large and
throw. -/
def parseStrRec (line : Str) : Option (Str × Str × Int) :=
  match nextTok line 0 with
  | none => none
  | some (klenTok, p1) =>
    match stollModel klenTok with
    | none => none
    | some klen =>
      if klen < 0 then none
      else
        match substrLen line p1 klen.toNat with
        | none => none
        | some key =>
          match nextTok line (p1 + klen.toNat + 1) with
          | none => none
          | some (vlenTok, p3) =>
            match stollModel vlenTok with
            | none => none
            | some vlen =>
              if vlen < 0 then none
              else
                match substrLen line p3 vlen.toNat with
                | none => none
                | some val =>
                  match nextTok line (p3 + vlen.toNat + 1) with
                  | none => none
                  | some (expTok, _) =>
                    match stollModel expTok with
                    | none => none
                    | some exp => some (key, val, exp)

/-- Parse a `HASH` record head line: `klen SP key SP exp SP nfields`. -/
def parseHashHead (line : Str) : Option (Str × Int × Int) :=
  match nextTok line 0 with
  | none => none
  | some (klenTok, p1) =>
    match stollModel klenTok with
    | none => none
    | some klen =>
      if klen < 0 then none
      else
        match substrLen line p1 klen.toNat with
        | none => none
        | some key =>
          match nextTok line (p1 + klen.toNat + 1) with
          | none => none
          | some (expTok, p3) =>
            match stollModel expTok with
            | none => none
            | some exp =>
              match nextTok line p3 with
              | none => none
              | some (nfTok, _) =>
                match stollModel nfTok with
                | none => none
                | some nf => some (key, exp, nf)

/-- Parse a `HASH` field line: `flen SP field SP vlen SP value`. -/
def parseFieldLine (line : Str) : Option (Str × Str) :=
  match nextTok line 0 with
  | none => none
  | some (flenTok, p1) =>
    match stollModel flenTok with
    | none => none
    | some flen =>
      if flen < 0 then none
      else
        match substrLen line p1 flen.toNat with
        | none => none
        | some field =>
          match nextTok line (p1 + flen.toNat + 1) with
          | none => none
          | some (vlenTok, p3) =>
            match stollModel vlenTok with
            | none => none
            | some vlen =>
              if vlen < 0 then none
              else
                match substrLen line p3 vlen.toNat with
                | none => none
                | some val => some (field, val)

/-- Parse a `ZSET` item line: `score SP mlen SP member`. -/
def parseZItem (line : Str) : Option (Int × Str) :=
  match nextTok line 0 with
  | none => none
  | some (scoreTok, p1) =>
    match stodMicros scoreTok with
    | none => none
    | some sc =>
      match nextTok line p1 with
      | none => none
      | some (mlenTok, p2) =>
        match stollModel mlenTok with
        | none => none
        | some ml =>
          if ml < 0 then none
          else
            match substrLen line p2 ml.toNat with
            | none => none
            | some member => some (sc, member)

/-- Result of a load: `crash` = uncaught exception, `fail` = `return
false` (with the store as mutated so far), `ok` = success. -/
inductive LoadRes (α : Type) where
  | crash : LoadRes α
  | fail : KeyValueStore → LoadRes α
  | ok : α → LoadRes α
  deriving DecidableEq

/-- The scalar-record loop (shared by the `STR` section and the legacy
`MRDB1` body). -/
def loadStrRecs : Nat → Str → KeyValueStore → LoadRes (Str × KeyValueStore)
  | 0, f, st => LoadRes.ok (f, st)
  | n + 1, f, st =>
    match readLine f with
    | none => LoadRes.fail st
    | some (line, rest) =>
      match parseStrRec line with
      | none => LoadRes.crash
      | some (k, v, e) => loadStrRecs n rest (st.setWithExpireAtMs k v e).2

/-- The field loop of one `HASH` record: collect `nf` parsed field lines. -/
def loadHashFields : Nat → Str → List (Str × Str) → Option (Option (Str × List (Str × Str)))
  | 0, f, fvs => some (some (f, fvs))
  | n + 1, f, fvs =>
    match readLine f with
    | none => some none
    | some (line, rest) =>
      match parseFieldLine line with
      | none => none
      | some fv => loadHashFields n rest (fvs ++ [fv])

/-- Replay the collected fields with `hset`. -/
def hsetFold (now : Int) (key : Str) (fvs : List (Str × Str)) (st : KeyValueStore) :
    KeyValueStore :=
  fvs.foldl (fun s fv => (s.hset now key fv.1 fv.2).2) st

/-- The `HASH`-record loop. -/
def loadHashRecs (now : Int) : Nat → Str → KeyValueStore → LoadRes (Str × KeyValueStore)
  | 0, f, st => LoadRes.ok (f, st)
  | n + 1, f, st =>
    match readLine f with
    | none => LoadRes.fail st
    | some (line, rest) =>
      match parseHashHead line with
      | none => LoadRes.crash
      | some (key, exp, nf) =>
        match loadHashFields nf.toNat rest [] with
        | none => LoadRes.crash
        | some none => LoadRes.fail st
        | some (some (rest2, fvs)) =>
          if fvs = [] then loadHashRecs now n rest2 st
          else
            let st1 := hsetFold now key fvs st
            let st2 := if exp ≥ 0 then (st1.setHashExpireAtMs key exp).2 else st1
            loadHashRecs now n rest2 st2

/-- The item loop of one `ZSET` record: each parsed item is replayed with
`zadd` immediately. -/
def loadZItems (now : Int) (key : Str) :
    Nat → Str → KeyValueStore → List Nat → Option (Option (Str × KeyValueStore × List Nat))
  | 0, f, st, lvls => some (some (f, st, lvls))
  | n + 1, f, st, lvls =>
    match readLine f with
    | none => some none
    | some (line, rest) =>
      match parseZItem line with
      | none => none
      | some (sc, member) =>
        match st.zadd now key sc member lvls with
        | none => none
        | some (_, st2, lvls2) => loadZItems now key n rest st2 lvls2

/-- The `ZSET`-record loop. -/
def loadZRecs (now : Int) : Nat → Str → KeyValueStore → List Nat →
    LoadRes (Str × KeyValueStore × List Nat)
  | 0, f, st, lvls => LoadRes.ok (f, st, lvls)
  | n + 1, f, st, lvls =>
    match readLine f with
    | none => LoadRes.fail st
    | some (line, rest) =>
      match parseHashHead line with
      | none => LoadRes.crash
      | some (key, exp, ni) =>
        match loadZItems now key ni.toNat rest st lvls with
        | none => LoadRes.crash
        | some none => LoadRes.fail st
        | some (some (rest2, st2, lvls2)) =>
          let st3 := if exp ≥ 0 then (st2.setZSetExpireAtMs key exp).2 else st2
          loadZRecs now n rest2 st3 lvls2

/-- `Rdb::load(store)` on file bytes `file`. -/
def Rdb.load (file : Str) (st : KeyValueStore) (now : Int) (lvls : List Nat) :
    LoadRes KeyValueStore :=
  match readLine file with
  | none => LoadRes.fail st
  | some (magic, rest) =>
    if magic = "MRDB1".toList then
      match readLine rest with
      | none => LoadRes.fail st
      | some (cntLine, rest2) =>
        match stollModel cntLine with
        | none => LoadRes.crash
        | some count =>
          match loadStrRecs count.toNat rest2 st with
          | LoadRes.crash => LoadRes.crash
          | LoadRes.fail s => LoadRes.fail s
          | LoadRes.ok (_, st2) => LoadRes.ok st2
    else if magic ≠ "MRDB2".toList then LoadRes.fail st
    else
      match readLine rest with
      | none => LoadRes.fail st
      | some (strLine, rest2) =>
        if strLine.take 4 ≠ "STR ".toList then LoadRes.fail st
        else
          match stollModel (strLine.drop 4) with
          | none => LoadRes.crash
          | some strCount =>
            match loadStrRecs strCount.toNat rest2 st with
            | LoadRes.crash => LoadRes.crash
            | LoadRes.fail s => LoadRes.fail s
            | LoadRes.ok (rest3, st3) =>
              match readLine rest3 with
              | none => LoadRes.fail st3
              | some (hashLine, rest4) =>
                if hashLine.take 5 ≠ "HASH ".toList then LoadRes.fail st3
                else
                  match stollModel (hashLine.drop 5) with
                  | none => LoadRes.crash
                  | some hashCount =>
                    match loadHashRecs now hashCount.toNat rest4 st3 with
                    | LoadRes.crash => LoadRes.crash
                    | LoadRes.fail s => LoadRes.fail s
                    | LoadRes.ok (rest5, st5) =>
                      match readLine rest5 with
                      | none => LoadRes.fail st5
                      | some (zsetLine, rest6) =>
                        if zsetLine.take 5 ≠ "ZSET ".toList then LoadRes.fail st5
                        else
                          match stollModel (zsetLine.drop 5) with
                          | none => LoadRes.crash
                          | some zsetCount =>
                            match loadZRecs now zsetCount.toNat rest6 st5 lvls with
                            | LoadRes.crash => LoadRes.crash
                            | LoadRes.fail s => LoadRes.fail s
                            | LoadRes.ok (_, st7, _) => LoadRes.ok st7

/-! ## Replica client frame dispatch (replica_client.cpp, lines 76-167)

The per-frame handling of `ReplicaClient::threadMain`, as a pure function
of the parsed frame and the replica state (socket I/O, the temporary RDB
file write, and the parser loop are outside the model; the bulk-string
branch applies `Rdb.load` to the current store directly).  The sampled
levels consumed by `zadd` come from the state's stream; `Rdb.load`'s own
consumption is not tracked further.  `none` models an uncaught exception
(`std::stoll`/`std::stod` on a malformed argument, or skiplist UB). -/

inductive RespTy where
  | kSimpleString
  | kError
  | kInteger
  | kBulkString
  | kArray
  | kNull
  deriving DecidableEq

inductive RespValue where
  | mk : RespTy → Str → List RespValue → RespValue

def RespValue.type : RespValue → RespTy
  | RespValue.mk t _ _ => t

def RespValue.bulk : RespValue → Str
  | RespValue.mk _ b _ => b

def RespValue.array : RespValue → List RespValue
  | RespValue.mk _ _ a => a

/-- A default-constructed `RespValue`. -/
def nullResp : RespValue := RespValue.mk RespTy.kNull [] []

/-- `::toupper` over a byte string. -/
def toUpperStr (s : Str) : Str := s.map Char.toUpper

structure ReplState where
  last_offset : Int
  store : KeyValueStore
  lvls : List Nat
  deriving DecidableEq

/-- Bulk of the `i`-th element of a frame's array. -/
def argBulk (v : RespValue) (i : Nat) : Str := ((v.array).getD i nullResp).bulk

/-- One iteration of the frame-dispatch loop of
`ReplicaClient::threadMain`.  The `kSimpleString` test at lines 151-165 is
nested inside the `kArray` branch, exactly as in the source, and is
therefore unreachable. -/
def applyFrame (now : Int) (v : RespValue) (st : ReplState) : Option ReplState :=
  if v.type = RespTy.kBulkString then
    match Rdb.load v.bulk st.store now st.lvls with
    | LoadRes.crash => none
    | LoadRes.fail s => some { st with store := s }
    | LoadRes.ok s => some { st with store := s }
  else if v.type = RespTy.kArray then
    match v.array with
    | [] => some st
    | a0 :: _ =>
      let cmd := toUpperStr a0.bulk
      if cmd = "SET".toList ∧ v.array.length = 3 then
        some { st with store := (st.store.set now (argBulk v 1) (argBulk v 2) none).2 }
      else if cmd = "DEL".toList ∧ 2 ≤ v.array.length then
        some { st with store :=
          (st.store.del now ((v.array.drop 1).map RespValue.bulk)).2 }
      else if cmd = "EXPIRE".toList ∧ v.array.length = 3 then
        match stollModel (argBulk v 2) with
        | none => none
        | some s => some { st with store := (st.store.expire now (argBulk v 1) s).2 }
      else if cmd = "HSET".toList ∧ v.array.length = 4 then
        some { st with store :=
          (st.store.hset now (argBulk v 1) (argBulk v 2) (argBulk v 3)).2 }
      else if cmd = "HDEL".toList ∧ 3 ≤ v.array.length then
        some { st with store :=
          (st.store.hdel now (argBulk v 1) ((v.array.drop 2).map RespValue.bulk)).2 }
      else if cmd = "ZADD".toList ∧ v.array.length = 4 then
        match stodMicros (argBulk v 2) with
        | none => none
        | some sc =>
          match st.store.zadd now (argBulk v 1) sc (argBulk v 3) st.lvls with
          | none => none
          | some (_, s2, lvls2) => some { st with store := s2, lvls := lvls2 }
      else if cmd = "ZREM".toList ∧ 3 ≤ v.array.length then
        match st.store.zrem now (argBulk v 1) ((v.array.drop 2).map RespValue.bulk) with
        | none => none
        | some (_, s2) => some { st with store := s2 }
      else if v.type = RespTy.kSimpleString then
        if (v.bulk).take 7 = "OFFSET ".toList then
          match substrFrom v.bulk 8 with
          | none => some st
          | some t =>
            match stollModel t with
            | none => some st
            | some n => some { st with last_offset := n }
        else some st
      else some st
  else some st

/-! ## CLI argument parsing (replica_client.cpp part 3, lines 352-412)

`parseArgs` models `parse_args` as a pure function over the argument list;
printed output is tracked as a list of messages.  The configuration values
set by `--port`/`--bind`/`--config` live in `ServerConfig` (config.hpp,
not part of the provided sources); the model records the port and bind
values and abstracts `loadConfigFromFile` as an oracle returning success
or failure.  `none` models the uncaught `std::stoi` exception on a
malformed `--port` value. -/

inductive OutMsg where
  | usage
  | unknownArg (a : Str)
  | cfgErr
  deriving DecidableEq

structure ArgState where
  port : Int
  bind_address : Str
  outs : List OutMsg
  deriving DecidableEq

/-- `parse_args(argc, argv, out_config)`. -/
def parseArgs (loadCfg : Str → Bool) : List Str → ArgState → Option (Bool × ArgState)
  | [], st => some (true, st)
  | a :: rest, st =>
    if a = "--port".toList ∧ rest ≠ [] then
      match rest with
      | [] => none
      | v :: rest2 =>
        match stollModel v with
        | none => none
        | some p => parseArgs loadCfg rest2 { st with port := p }
    else if a = "--bind".toList ∧ rest ≠ [] then
      match rest with
      | [] => none
      | v :: rest2 => parseArgs loadCfg rest2 { st with bind_address := v }
    else if a = "--config".toList ∧ rest ≠ [] then
      match rest with
      | [] => none
      | v :: rest2 =>
        if loadCfg v then parseArgs loadCfg rest2 st
        else some (false, { st with outs := st.outs ++ [OutMsg.cfgErr] })
    else if a = "-h".toList ∨ a = "--help".toList then
      some (false, { st with outs := st.outs ++ [OutMsg.usage] })
    else
      some (false, { st with outs := st.outs ++ [OutMsg.unknownArg a, OutMsg.usage] })

inductive MainOutcome where
  | exited (code : Nat) (outs : List OutMsg)
  | ranServer (outs : List OutMsg)
  | crashed
  deriving DecidableEq

/-- The initial `ServerConfig{}` (defaults live in config.hpp, outside the
provided sources; the claims do not depend on them). -/
def initialArgState : ArgState := { port := 0, bind_address := [], outs := [] }

/-- `main(argc, argv)` up to the `run_server` call: a failed `parse_args`
returns 1; a successful parse hands control to the server loop, whose exit
code is outside this model. -/
def mainModel (loadCfg : Str → Bool) (args : List Str) : MainOutcome :=
  match parseArgs loadCfg args initialArgState with
  | none => MainOutcome.crashed
  | some (false, st) => MainOutcome.exited 1 st.outs
  | some (true, st) => MainOutcome.ranServer st.outs

/-- A config-file oracle for closed statements (never consulted by them). -/
def noCfg : Str → Bool := fun _ => false

/-! ## Claim theorems -/

set_option maxRecDepth 10000

theorem randomLevelAux_succ (f : Nat → Nat) (fl lvl i : Nat) :
    randomLevelAux f (fl + 1) lvl i
      = if f i % 65536 < kProbThreshold ∧ lvl < kMaxLevel then
          randomLevelAux f fl (lvl + 1) (i + 1)
        else lvl := rfl

theorem randomLevelAux_bounds (f : Nat → Nat) :
    ∀ fuel lvl i, 1 ≤ lvl → lvl ≤ kMaxLevel →
    1 ≤ randomLevelAux f fuel lvl i ∧ randomLevelAux f fuel lvl i ≤ kMaxLevel := by
  intro fuel
  induction fuel with
  | zero => intro lvl i h1 h2; exact ⟨h1, h2⟩
  | succ fl ih =>
    intro lvl i h1 h2
    rw [randomLevelAux_succ]
    by_cases hc : f i % 65536 < kProbThreshold ∧ lvl < kMaxLevel
    · rw [if_pos hc]
      exact ih (lvl + 1) (i + 1) (by omega) (by
        have := hc.2
        unfold kMaxLevel at this ⊢
        omega)
    · rw [if_neg hc]
      exact ⟨h1, h2⟩

/-- `randomLevel` always samples a level between 1 and the cap 32. -/
theorem randomLevel_bounds (f : Nat → Nat) :
    1 ≤ randomLevel f ∧ randomLevel f ≤ kMaxLevel :=
  randomLevelAux_bounds f kMaxLevel 1 0 (le_refl 1) (by decide)

theorem randomLevelAux_all_low (f : Nat → Nat) (hf : ∀ i, f i % 65536 = 0) :
    ∀ fuel lvl i, lvl + fuel = 33 → 1 ≤ lvl → lvl ≤ 32 →
    randomLevelAux f fuel lvl i = 32 := by
  intro fuel
  induction fuel with
  | zero => intro lvl i h _ h2; omega
  | succ fl ih =>
    intro lvl i h h1 h2
    rw [randomLevelAux_succ]
    by_cases hl : lvl < kMaxLevel
    · rw [if_pos ⟨by rw [hf i]; decide, hl⟩]
      exact ih (lvl + 1) (i + 1) (by omega) (by omega) (by
        unfold kMaxLevel at hl
        omega)
    · rw [if_neg (fun hcc => hl hcc.2)]
      unfold kMaxLevel at hl
      omega

/-- The skiplist that holds exactly the node `(1.0, "a")` (score in
micro-units), built by one successful insert at sampled level 1. -/
def oneNodeSl : Skiplist :=
  match mkSkiplist.insert 1000000 ['a'] 1 with
  | some (_, sl) => sl
  | none => mkSkiplist

/-- C1: `Skiplist::erase` never erases.  After a successful
`insert(1.0, "a")`, `erase(1.0, "a")` returns `false` and leaves the node
in place, because line 261 writes `x != nullptr || ...` where a conjunction
of the negated tests is required: any non-null candidate returns `false`
immediately (and a null candidate is dereferenced).  The claim says this
erase returns `true` and removes the node. -/
theorem erase_after_insert_returns_false :
    mkSkiplist.insert 1000000 ['a'] 1 = some (true, oneNodeSl) ∧
    oneNodeSl.toVector = some [(1000000, ['a'])] ∧
    oneNodeSl.erase 1000000 ['a'] = some (false, oneNodeSl) ∧
    oneNodeSl.size = 1 := by
  refine ⟨rfl, by decide, by decide, by decide⟩

/-- C2: the expiry index keeps an entry for a key whose record is gone.
After `hset k f v; setHashExpireAtMs k 5; hdel k {f}`, removing the last
field erases the hash record (lines 263-266) without erasing the
expiry-index entry, so the index contains `k` while no family holds a
record for `k`.  The claim says any operation that removes a record also
removes the key's expiry-index entry. -/
theorem hdel_last_field_leaves_expiry_index :
    ((((emptyStore.hset 0 ['k'] ['f'] ['v']).2.setHashExpireAtMs ['k'] 5).2.hdel
        0 ['k'] [['f']]).2)
      = { map := [], hmap := [], zmap := [], expire_index := [(['k'], 5)] } := by
  decide

/-- C4: the level-raising path of `Skiplist::insert` dereferences null.
On an empty skiplist (current level 1), a non-duplicate insert whose
sampled level is 2 crashes: lines 228-233 assign `level_ = lvl` *before*
the loop `for(i=level_; i<lvl; ++i) update[i]=head_;`, so the loop runs
over the empty range and `update[1]` is still null when the link loop
dereferences it.  The same insert at sampled level 1 succeeds, and
`randomLevel` samples any level from 1 to 32 (2 with probability 1/4, 32
when every draw is below the threshold), so the claim's "any level from 1
up to the cap 32, including levels strictly greater than the current
maximum" inserts do not succeed: they crash. -/
theorem insert_sampled_level_two_crashes :
    (∀ f : Nat → Nat, 1 ≤ randomLevel f ∧ randomLevel f ≤ 32) ∧
    (∀ f : Nat → Nat, (∀ i, f i % 65536 = 0) → randomLevel f = 32) ∧
    randomLevel (fun i => if i = 0 then 0 else 20000) = 2 ∧
    mkSkiplist.insert 1000000 ['a'] 2 = none ∧
    mkSkiplist.insert 1000000 ['a'] 1 ≠ none := by
  refine ⟨randomLevel_bounds, ?_, by decide, by decide, by decide⟩
  intro f hf
  exact randomLevelAux_all_low f hf kMaxLevel 1 0 (by decide) (le_refl 1) (by decide)

/-- A two-node skiplist holding `(1.0,"b")` and `(1.0,"c")`, for the C6
store below. -/
def twoNodeSl : Skiplist :=
  match mkSkiplist.insert 1000000 ['b'] 1 with
  | some (_, s1) =>
    (match s1.insert 1000000 ['c'] 1 with
     | some (_, s2) => s2
     | none => mkSkiplist)
  | none => mkSkiplist

/-- A store with one sequence-mode and one indexed-mode ordered set. -/
def twoZSetStore : KeyValueStore :=
  { map := [], hmap := [], expire_index := [],
    zmap :=
      [(['u'], { use_skiplist := false, items := [(1000000, ['a']), (2000000, ['b'])],
                 sl := none, member_to_score := [(['a'], 1000000), (['b'], 2000000)],
                 expire_at_ms := -1 }),
       (['w'], { use_skiplist := true, items := [], sl := some twoNodeSl,
                 member_to_score := [(['b'], 1000000), (['c'], 1000000)],
                 expire_at_ms := 7 })] }

/-- C6: the vector `snapshotZSet` populates (one `ZSetFlat` per ordered-set
key, items in total order in both storage modes) — which the source then
fails to return: the function ends without `return out;`, undefined
behaviour on every call.  The claim describes the value
`snapshotZSetOut` computes; the defect is the missing return. -/
theorem snapshotZSet_out_value :
    twoZSetStore.snapshotZSetOut
      = some [{ key := ['u'], items := [(1000000, ['a']), (2000000, ['b'])], expire_at_ms := -1 },
              { key := ['w'], items := [(1000000, ['b']), (1000000, ['c'])], expire_at_ms := 7 }] := by
  decide

/-- A replica state with offset 0 over an empty store. -/
def freshReplState : ReplState := { last_offset := 0, store := emptyStore, lvls := [] }

/-- C8: a simple-string `OFFSET <n>` frame does not update `last_offset`.
The `kSimpleString` test (lines 151-165) is nested as an `else if` of the
command chain *inside* the `kArray` branch, so a simple-string frame falls
through the outer dispatch (`kBulkString` / `kArray`) untouched.  The
claim says the handler is reachable at the outer dispatch level and sets
`last_offset` to 42 here. -/
theorem offset_frame_not_handled :
    applyFrame 0 (RespValue.mk RespTy.kSimpleString ("OFFSET 42".toList) []) freshReplState
      = some freshReplState ∧
    freshReplState.last_offset = 0 := by
  exact ⟨rfl, rfl⟩

/-- C9 counterexample: `main` invoked with `-h` prints the usage text but
exits with status 1, not 0: `parse_args` returns `false` for `-h|--help`
(line 384) and `main` maps any `false` to `return 1` (lines 408-410). -/
theorem help_exits_one_not_zero :
    mainModel noCfg ["-h".toList] = MainOutcome.exited 1 [OutMsg.usage] ∧
    mainModel noCfg ["-h".toList] ≠ MainOutcome.exited 0 [OutMsg.usage] := by
  exact ⟨rfl, by decide⟩

/-- C9 (amended): `-h`/`--help` prints usage and exits with status 1, and
a single unrecognized argument prints the unknown-argument diagnostic plus
usage and exits with status 1. -/
theorem help_and_unknown_exit_one :
    (∀ (lc : Str → Bool) (a : Str), (a = "-h".toList ∨ a = "--help".toList) →
      mainModel lc [a] = MainOutcome.exited 1 [OutMsg.usage]) ∧
    (∀ (lc : Str → Bool) (a : Str),
      a ∉ ["--port".toList, "--bind".toList, "--config".toList, "-h".toList, "--help".toList] →
      mainModel lc [a] = MainOutcome.exited 1 [OutMsg.unknownArg a, OutMsg.usage]) := by
  constructor
  · intro lc a ha
    unfold mainModel parseArgs
    rw [if_neg (fun hc => hc.2 rfl), if_neg (fun hc => hc.2 rfl), if_neg (fun hc => hc.2 rfl)]
    rw [if_pos ha]
    rfl
  · intro lc a ha
    simp only [List.mem_cons, not_or] at ha
    obtain ⟨h1, h2, h3, h4, h5, -⟩ := ha
    unfold mainModel parseArgs
    rw [if_neg (fun hc => h1 hc.1), if_neg (fun hc => h2 hc.1), if_neg (fun hc => h3 hc.1)]
    rw [if_neg (by
      rintro (hc | hc)
      · exact h4 hc
      · exact h5 hc)]
    rfl

/-- C9 amended-theorem witness: concrete instances of both clauses. -/
theorem help_and_unknown_exit_one_witness :
    mainModel noCfg ["-h".toList] = MainOutcome.exited 1 [OutMsg.usage] ∧
    mainModel noCfg ["--help".toList] = MainOutcome.exited 1 [OutMsg.usage] ∧
    mainModel noCfg ["-x".toList] = MainOutcome.exited 1 [OutMsg.unknownArg "-x".toList, OutMsg.usage] :=
  ⟨help_and_unknown_exit_one.1 noCfg ("-h".toList) (Or.inl rfl),
   help_and_unknown_exit_one.1 noCfg ("--help".toList) (Or.inr rfl),
   help_and_unknown_exit_one.2 noCfg ("-x".toList) (by decide)⟩

theorem aerase_sublist {α : Type} (m : List (Str × α)) (k : Str) :
    (aerase m k).Sublist m := by
  induction m with
  | nil => exact List.Sublist.refl []
  | cons kv r ih =>
    obtain ⟨k2, v⟩ := kv
    show (if k2 = k then r else (k2, v) :: aerase r k).Sublist ((k2, v) :: r)
    by_cases hk : k2 = k
    · rw [if_pos hk]
      exact List.sublist_cons_self (k2, v) r
    · rw [if_neg hk]
      exact ih.cons₂ (k2, v)

theorem akeys_aerase_nodup {α : Type} (m : List (Str × α)) (k : Str)
    (h : (akeys m).Nodup) : (akeys (aerase m k)).Nodup :=
  h.sublist ((aerase_sublist m k).map Prod.fst)

theorem alookup_aerase_ne {α : Type} (m : List (Str × α)) (k q : Str) (hq : q ≠ k) :
    alookup (aerase m k) q = alookup m q := by
  induction m with
  | nil => rfl
  | cons kv r ih =>
    obtain ⟨k2, v⟩ := kv
    show alookup (if k2 = k then r else (k2, v) :: aerase r k) q
      = (if k2 = q then some v else alookup r q)
    by_cases hk : k2 = k
    · rw [if_pos hk, if_neg (by rw [hk]; exact fun h => hq h.symm)]
    · rw [if_neg hk]
      show (if k2 = q then some v else alookup (aerase r k) q) = _
      by_cases hq2 : k2 = q
      · rw [if_pos hq2, if_pos hq2]
      · rw [if_neg hq2, if_neg hq2, ih]

theorem alookup_aerase_self {α : Type} (m : List (Str × α)) (k : Str)
    (h : (akeys m).Nodup) : alookup (aerase m k) k = none := by
  induction m with
  | nil => rfl
  | cons kv r ih =>
    obtain ⟨k2, v⟩ := kv
    obtain ⟨hnot, hr⟩ := List.nodup_cons.mp h
    show alookup (if k2 = k then r else (k2, v) :: aerase r k) k = none
    by_cases hk : k2 = k
    · rw [if_pos hk]
      subst hk
      exact alookup_eq_none_of_not_mem r k2 hnot
    · rw [if_neg hk]
      show (if k2 = k then some v else alookup (aerase r k) k) = none
      rw [if_neg hk]
      exact ih hr

theorem cleanup_hmap_zmap (st : KeyValueStore) (k : Str) (now : Int) :
    (cleanupIfExpired st k now).hmap = st.hmap ∧ (cleanupIfExpired st k now).zmap = st.zmap := by
  unfold cleanupIfExpired
  cases alookup st.map k with
  | none => exact ⟨rfl, rfl⟩
  | some r =>
    dsimp only
    by_cases he : isExpiredVal r now
    · rw [if_pos he]
      exact ⟨rfl, rfl⟩
    · rw [if_neg he]
      exact ⟨rfl, rfl⟩

theorem cleanup_lookup_ne (st : KeyValueStore) (k q : Str) (now : Int) (hq : q ≠ k) :
    alookup (cleanupIfExpired st k now).map q = alookup st.map q := by
  unfold cleanupIfExpired
  cases alookup st.map k with
  | none => rfl
  | some r =>
    dsimp only
    by_cases he : isExpiredVal r now
    · rw [if_pos he]
      exact alookup_aerase_ne st.map k q hq
    · rw [if_neg he]

/-- Is `k` a live (present, unexpired) scalar key? -/
def scalarAlive (st : KeyValueStore) (now : Int) (k : Str) : Bool :=
  match alookup st.map k with
  | none => false
  | some r => !(isExpiredVal r now)

theorem cleanup_lookup_self (st : KeyValueStore) (k : Str) (now : Int)
    (h : (akeys st.map).Nodup) :
    alookup (cleanupIfExpired st k now).map k
      = if scalarAlive st now k then alookup st.map k else none := by
  unfold cleanupIfExpired scalarAlive
  cases hx : alookup st.map k with
  | none => simp [hx]
  | some r =>
    dsimp only
    by_cases he : isExpiredVal r now
    · rw [if_pos he, if_neg (by simp [he])]
      exact alookup_aerase_self st.map k h
    · rw [if_neg he, if_pos (by simp [he]), hx]

theorem cleanup_keys_nodup (st : KeyValueStore) (k : Str) (now : Int)
    (h : (akeys st.map).Nodup) : (akeys (cleanupIfExpired st k now).map).Nodup := by
  unfold cleanupIfExpired
  cases alookup st.map k with
  | none => exact h
  | some r =>
    dsimp only
    by_cases he : isExpiredVal r now
    · rw [if_pos he]
      exact akeys_aerase_nodup st.map k h
    · rw [if_neg he]
      exact h

theorem scalarAlive_congr (st st2 : KeyValueStore) (now : Int) (q : Str)
    (h : alookup st2.map q = alookup st.map q) :
    scalarAlive st2 now q = scalarAlive st now q := by
  unfold scalarAlive
  rw [h]

theorem delGo_nil (now : Int) (st : KeyValueStore) (acc : Int) :
    delGo now [] st acc = (acc, st) := rfl

theorem delGo_cons (now : Int) (k : Str) (r : List Str) (st : KeyValueStore) (acc : Int) :
    delGo now (k :: r) st acc
      = match alookup (cleanupIfExpired st k now).map k with
        | none => delGo now r (cleanupIfExpired st k now) acc
        | some _ =>
          delGo now r
            { cleanupIfExpired st k now with
              map := aerase (cleanupIfExpired st k now).map k,
              expire_index := aerase (cleanupIfExpired st k now).expire_index k }
            (acc + 1) := rfl

theorem filter_length_update (p q : Str → Bool) (k : Str)
    (hq : ∀ x, x ≠ k → q x = p x) (hqk : q k = false) :
    ∀ d : List Str, d.Nodup →
    (d.filter p).length
      = (d.filter q).length + (if k ∈ d ∧ p k = true then 1 else 0) := by
  intro d
  induction d with
  | nil =>
    intro _
    rw [if_neg (fun hc => List.not_mem_nil k hc.1)]
    rfl
  | cons x d ih =>
    intro hnd
    obtain ⟨hxd, hnd'⟩ := List.nodup_cons.mp hnd
    rw [List.filter_cons, List.filter_cons]
    by_cases hx : x = k
    · subst hx
      rw [hqk, if_neg Bool.false_ne_true]
      have hfq : d.filter q = d.filter p :=
        List.filter_congr (fun y hy => hq y (fun h => hxd (h ▸ hy)))
      by_cases hp : p x = true
      · rw [if_pos hp, if_pos (⟨List.mem_cons_self x d, hp⟩ : x ∈ x :: d ∧ p x = true), hfq]
        rfl
      · rw [if_neg hp, if_neg (fun hc => hp hc.2), hfq]
        rfl
    · rw [hq x hx]
      by_cases hcm : k ∈ d ∧ p k = true
      · rw [if_pos (⟨List.mem_cons_of_mem x hcm.1, hcm.2⟩ : k ∈ x :: d ∧ p k = true)]
        by_cases hpx : p x = true
        · rw [if_pos hpx, if_pos hpx]
          simp only [List.length_cons]
          rw [ih hnd', if_pos hcm]
        · rw [if_neg hpx, if_neg hpx]
          rw [ih hnd', if_pos hcm]
      · have hcm2 : ¬ (k ∈ x :: d ∧ p k = true) := by
          rintro ⟨hm, hp⟩
          rcases List.mem_cons.mp hm with h | h
          · exact hx h.symm
          · exact hcm ⟨h, hp⟩
        rw [if_neg hcm2]
        by_cases hpx : p x = true
        · rw [if_pos hpx, if_pos hpx]
          simp only [List.length_cons]
          rw [ih hnd', if_neg hcm]
        · rw [if_neg hpx, if_neg hpx]
          rw [ih hnd', if_neg hcm]

theorem delGo_spec (now : Int) : ∀ (ks : List Str) (st : KeyValueStore) (acc : Int),
    (akeys st.map).Nodup →
    (delGo now ks st acc).2.hmap = st.hmap ∧
    (delGo now ks st acc).2.zmap = st.zmap ∧
    (∀ q, q ∉ ks → alookup (delGo now ks st acc).2.map q = alookup st.map q) ∧
    (∀ k ∈ ks, alookup (delGo now ks st acc).2.map k = none) ∧
    (delGo now ks st acc).1
      = acc + ((ks.dedup.filter (fun k => scalarAlive st now k)).length : Int) := by
  intro ks
  induction ks with
  | nil =>
    intro st acc _
    refine ⟨rfl, rfl, fun q _ => rfl, fun k hk => absurd hk (List.not_mem_nil k),
      by rw [delGo_nil]; simp⟩
  | cons k r ih =>
    intro st acc hmnd
    have hcl := cleanup_hmap_zmap st k now
    have hclnd := cleanup_keys_nodup st k now hmnd
    have hclself := cleanup_lookup_self st k now hmnd
    rw [delGo_cons]
    by_cases halive : scalarAlive st now k = true
    · obtain ⟨rv, hrv⟩ : ∃ rv, alookup st.map k = some rv := by
        unfold scalarAlive at halive
        cases hx : alookup st.map k with
        | none => rw [hx] at halive; cases halive
        | some rv => exact ⟨rv, rfl⟩
      rw [hclself, if_pos halive, hrv]
      dsimp only
      set st1 := cleanupIfExpired st k now with hst1
      set st2 : KeyValueStore :=
        { st1 with map := aerase st1.map k, expire_index := aerase st1.expire_index k }
        with hst2def
      have hst2map : ∀ q, q ≠ k → alookup st2.map q = alookup st.map q := by
        intro q hq
        show alookup (aerase st1.map k) q = _
        rw [alookup_aerase_ne st1.map k q hq]
        exact cleanup_lookup_ne st k q now hq
      have hst2k : alookup st2.map k = none := alookup_aerase_self st1.map k hclnd
      have hst2nd : (akeys st2.map).Nodup := akeys_aerase_nodup st1.map k hclnd
      obtain ⟨ihh, ihz, ihframe, ihabs, ihcount⟩ := ih st2 (acc + 1) hst2nd
      refine ⟨by rw [ihh]; exact hcl.1, by rw [ihz]; exact hcl.2, ?_, ?_, ?_⟩
      · intro q hq
        rw [List.mem_cons, not_or] at hq
        rw [ihframe q hq.2]
        exact hst2map q hq.1
      · intro k2 hk2
        by_cases hk2r : k2 ∈ r
        · exact ihabs k2 hk2r
        · rcases List.mem_cons.mp hk2 with hk2e | hk2e
          · subst hk2e
            rw [ihframe k2 hk2r]
            exact hst2k
          · exact absurd hk2e hk2r
      · rw [ihcount]
        have hqk2 : scalarAlive st2 now k = false := by
          unfold scalarAlive
          rw [hst2k]
        have hupd := filter_length_update (fun q => scalarAlive st now q)
          (fun q => scalarAlive st2 now q) k
          (fun x hx => scalarAlive_congr st st2 now x (hst2map x hx)) hqk2
          r.dedup (List.nodup_dedup r)
        by_cases hkr : k ∈ r
        · rw [List.dedup_cons_of_mem hkr]
          rw [if_pos ⟨List.mem_dedup.mpr hkr, halive⟩] at hupd
          rw [hupd]
          push_cast
          ring
        · rw [List.dedup_cons_of_not_mem hkr]
          rw [List.filter_cons, if_pos (by simp [halive])]
          rw [if_neg (fun hc => hkr (List.mem_dedup.mp hc.1))] at hupd
          rw [Nat.add_zero] at hupd
          simp only [List.length_cons]
          rw [hupd]
          push_cast
          ring
    · have halive2 : scalarAlive st now k = false := by
        cases hx : scalarAlive st now k
        · rfl
        · exact absurd hx halive
      rw [hclself, if_neg (by rw [halive2]; exact Bool.false_ne_true)]
      dsimp only
      set st1 := cleanupIfExpired st k now with hst1
      have hst1map : ∀ q, q ≠ k → alookup st1.map q = alookup st.map q :=
        fun q hq => cleanup_lookup_ne st k q now hq
      have hst1k : alookup st1.map k = none := by
        rw [hst1, hclself, if_neg (by rw [halive2]; exact Bool.false_ne_true)]
      obtain ⟨ihh, ihz, ihframe, ihabs, ihcount⟩ := ih st1 acc hclnd
      refine ⟨by rw [ihh]; exact hcl.1, by rw [ihz]; exact hcl.2, ?_, ?_, ?_⟩
      · intro q hq
        rw [List.mem_cons, not_or] at hq
        rw [ihframe q hq.2]
        exact hst1map q hq.1
      · intro k2 hk2
        by_cases hk2r : k2 ∈ r
        · exact ihabs k2 hk2r
        · rcases List.mem_cons.mp hk2 with hk2e | hk2e
          · subst hk2e
            rw [ihframe k2 hk2r]
            exact hst1k
          · exact absurd hk2e hk2r
      · rw [ihcount]
        have hqk1 : scalarAlive st1 now k = false := by
          unfold scalarAlive
          rw [hst1k]
        have hupd := filter_length_update (fun q => scalarAlive st now q)
          (fun q => scalarAlive st1 now q) k
          (fun x hx => scalarAlive_congr st st1 now x (hst1map x hx)) hqk1
          r.dedup (List.nodup_dedup r)
        have hpk : ¬ ((fun q => scalarAlive st now q) k = true) := by
          show ¬ (scalarAlive st now k = true)
          rw [halive2]
          exact Bool.false_ne_true
        rw [if_neg (fun hc => hpk hc.2)] at hupd
        rw [Nat.add_zero] at hupd
        by_cases hkr : k ∈ r
        · rw [List.dedup_cons_of_mem hkr, hupd]
        · rw [List.dedup_cons_of_not_mem hkr]
          rw [List.filter_cons, if_neg (by simp [halive2])]
          rw [hupd]

/-- C3 counterexample: `del` does not remove a key held only by the
field-map family.  `KeyValueStore::del` (lines 56-71) consults only the
scalar `map_`: here the key exists only in `hmap_`, the call returns 0 and
leaves the record; the claim says it is removed and counted. -/
theorem del_ignores_hash_family :
    ((emptyStore.hset 0 ['h'] ['f'] ['v']).2.del 0 [['h']])
      = (0, (emptyStore.hset 0 ['h'] ['f'] ['v']).2) ∧
    (alookup (emptyStore.hset 0 ['h'] ['f'] ['v']).2.hmap ['h']).isSome = true := by
  decide

/-- C3 (amended): `del` removes listed keys from the scalar family only
(after lazy expiry), never touching the field-map or ordered-set maps, and
returns the number of distinct listed keys that were live scalars: a key
listed twice counts once, because the first pass already removed it.  The
key list is arbitrary (duplicates allowed); the only hypothesis is the
uniqueness of the scalar map's keys, which `std::unordered_map` guarantees
by construction. -/
theorem del_scalar_family_only (st : KeyValueStore) (now : Int) (ks : List Str)
    (hm : (akeys st.map).Nodup) :
    (st.del now ks).2.hmap = st.hmap ∧
    (st.del now ks).2.zmap = st.zmap ∧
    (∀ k ∈ ks, alookup (st.del now ks).2.map k = none) ∧
    (st.del now ks).1
      = ((ks.dedup.filter (fun k => scalarAlive st now k)).length : Int) := by
  have h := delGo_spec now ks st 0 hm
  exact ⟨h.1, h.2.1, h.2.2.2.1, by
    show (delGo now ks st 0).1 = _
    rw [h.2.2.2.2]
    ring⟩

/-- The C3 witness store: one scalar key and one field-map key. -/
def delWitnessStore : KeyValueStore :=
  ((emptyStore.set 0 ['a'] ['v'] none).2.hset 0 ['h'] ['f'] ['w']).2

/-- C3 witness: `del {a, a, h}` on a store holding scalar `a` and field
map `h` removes only `a`, leaves the hash record, and counts the
duplicated `a` once (the source returns 1 on `DEL a a`, since the second
pass no longer finds the key). -/
theorem del_scalar_family_only_witness :
    (delWitnessStore.del 0 [['a'], ['a'], ['h']]).2.hmap = delWitnessStore.hmap ∧
    (delWitnessStore.del 0 [['a'], ['a'], ['h']]).2.zmap = delWitnessStore.zmap ∧
    alookup (delWitnessStore.del 0 [['a'], ['a'], ['h']]).2.map ['a'] = none ∧
    (delWitnessStore.del 0 [['a'], ['a'], ['h']]).1 = 1 := by
  have h := del_scalar_family_only delWitnessStore 0 [['a'], ['a'], ['h']] (by decide)
  refine ⟨h.1, h.2.1, h.2.2.1 ['a'] (by decide), ?_⟩
  rw [h.2.2.2]
  decide

/-- C10: `listKeys` returns every key name held by at least one family,
exactly once (`Nodup`), in strictly ascending lexicographic order (the
Mathlib list order on `List Char` is lexicographic, matching
`std::string::operator<`). -/
theorem listKeys_sorted_unique_complete (st : KeyValueStore) :
    List.Pairwise (fun a b : Str => a < b) st.listKeys ∧
    st.listKeys.Nodup ∧
    (∀ k, k ∈ st.listKeys ↔ (k ∈ akeys st.map ∨ k ∈ akeys st.hmap ∨ k ∈ akeys st.zmap)) := by
  unfold KeyValueStore.listKeys
  have hsorted := @List.sorted_mergeSort Str leStr
    (fun a b c => leStr_trans a b c) leStr_total
    (akeys st.map ++ akeys st.hmap ++ akeys st.zmap)
  have hsle : List.Pairwise (fun a b : Str => a ≤ b)
      ((akeys st.map ++ akeys st.hmap ++ akeys st.zmap).mergeSort leStr) := by
    refine hsorted.imp ?_
    intro a b h
    simpa [leStr] using h
  have hlt := uniqAdj_strict_sorted _ hsle
  refine ⟨hlt, hlt.imp (fun h => ne_of_lt h), ?_⟩
  intro k
  rw [uniqAdj_mem_sorted _ hsle k]
  rw [(List.mergeSort_perm (akeys st.map ++ akeys st.hmap ++ akeys st.zmap) leStr).mem_iff]
  simp [List.mem_append, or_assoc]

/-- An operation on one ordered-set record: the record-level effect of
`zadd` (with its sampled-level stream) or `zrem` on that key. -/
inductive ZOp where
  | zadd (score : Int) (member : Str) (lvls : List Nat)
  | zrem (members : List Str)

/-- One operation applied to a record: `some none` = the record was erased
from `zmap_` (the end-of-`zrem` emptiness check, lines 461-470), `none` =
undefined behaviour. -/
def zstep : ZOp → ZSetRecord → Option (Option ZSetRecord)
  | ZOp.zadd sc m lvls, rec =>
    match zaddRec rec sc m lvls with
    | none => none
    | some (_, rec2, _) => some (some rec2)
  | ZOp.zrem ms, rec =>
    match zremGo ms rec 0 with
    | none => none
    | some (_, rec2) =>
      if rec2.use_skiplist = false then
        if rec2.items = [] then some none else some (some rec2)
      else
        match rec2.sl with
        | none => none
        | some sl => if sl.size = 0 then some none else some (some rec2)

/-- A sequence of record operations.  Once the record has been erased it
no longer exists; a later `zadd` on the key would create a fresh record,
which is a different record, so the erased state is absorbing here. -/
def applyZOps : List ZOp → Option ZSetRecord → Option (Option ZSetRecord)
  | [], st => some st
  | op :: r, st =>
    match st with
    | none => applyZOps r none
    | some rec =>
      match zstep op rec with
      | none => none
      | some st2 => applyZOps r st2

theorem zaddRec_keeps_flag (rec : ZSetRecord) (sc : Int) (m : Str) (lvls : List Nat)
    (n : Int) (rec2 : ZSetRecord) (lvls2 : List Nat)
    (hflag : rec.use_skiplist = true)
    (h : zaddRec rec sc m lvls = some (n, rec2, lvls2)) : rec2.use_skiplist = true := by
  unfold zaddRec at h
  cases hl : alookup rec.member_to_score m with
  | none =>
    rw [hl] at h
    dsimp only at h
    rw [if_neg (by rw [hflag]; decide)] at h
    cases hsl : rec.sl with
    | none => rw [hsl] at h; cases h
    | some sl =>
      rw [hsl] at h
      dsimp only at h
      cases hins : sl.insert sc m (lvls.headD 1) with
      | none => rw [hins] at h; cases h
      | some pr =>
        rw [hins] at h
        obtain ⟨b, sl2⟩ := pr
        dsimp only at h
        have hb := congrArg (fun t : Int × ZSetRecord × List Nat => t.2.1) (Option.some.inj h)
        dsimp only at hb
        rw [← hb]
        exact hflag
  | some old =>
    rw [hl] at h
    dsimp only at h
    by_cases heq : old = sc
    · rw [if_pos heq] at h
      have hb := congrArg (fun t : Int × ZSetRecord × List Nat => t.2.1) (Option.some.inj h)
      dsimp only at hb
      rw [← hb]
      exact hflag
    · rw [if_neg heq] at h
      rw [if_neg (by rw [hflag]; decide)] at h
      cases hsl : rec.sl with
      | none => rw [hsl] at h; cases h
      | some sl =>
        rw [hsl] at h
        dsimp only at h
        cases hers : sl.erase old m with
        | none => rw [hers] at h; cases h
        | some pr =>
          rw [hers] at h
          obtain ⟨b, sl1⟩ := pr
          dsimp only at h
          cases hins : sl1.insert sc m (lvls.headD 1) with
          | none => rw [hins] at h; cases h
          | some pr2 =>
            rw [hins] at h
            obtain ⟨b2, sl2⟩ := pr2
            dsimp only at h
            have hb := congrArg (fun t : Int × ZSetRecord × List Nat => t.2.1) (Option.some.inj h)
            dsimp only at hb
            rw [← hb]
            exact hflag

theorem zremGo_keeps_flag : ∀ (ms : List Str) (rec : ZSetRecord) (acc n : Int)
    (rec2 : ZSetRecord), zremGo ms rec acc = some (n, rec2) →
    rec2.use_skiplist = rec.use_skiplist := by
  intro ms
  induction ms with
  | nil =>
    intro rec acc n rec2 h
    have hb := congrArg (fun t : Int × ZSetRecord => t.2) (Option.some.inj h)
    dsimp only at hb
    rw [← hb]
  | cons m r ih =>
    intro rec acc n rec2 h
    unfold zremGo at h
    cases hl : alookup rec.member_to_score m with
    | none =>
      rw [hl] at h
      exact ih rec acc n rec2 h
    | some sc =>
      rw [hl] at h
      dsimp only at h
      by_cases hf : rec.use_skiplist = false
      · rw [if_pos (by exact hf)] at h
        have := ih _ _ n rec2 h
        rw [this]
      · rw [if_neg (by exact hf)] at h
        cases hsl : rec.sl with
        | none => rw [hsl] at h; cases h
        | some sl =>
          rw [hsl] at h
          dsimp only at h
          cases hers : sl.erase sc m with
          | none => rw [hers] at h; cases h
          | some pr =>
            rw [hers] at h
            obtain ⟨b, sl2⟩ := pr
            dsimp only at h
            have := ih _ _ n rec2 h
            rw [this]

theorem zstep_keeps_flag (op : ZOp) (rec : ZSetRecord) (rec2 : ZSetRecord)
    (hflag : rec.use_skiplist = true)
    (h : zstep op rec = some (some rec2)) : rec2.use_skiplist = true := by
  cases op with
  | zadd sc m lvls =>
    unfold zstep at h
    dsimp only at h
    cases hz : zaddRec rec sc m lvls with
    | none => rw [hz] at h; cases h
    | some tr =>
      rw [hz] at h
      obtain ⟨n, rec3, lvls2⟩ := tr
      dsimp only at h
      rw [← Option.some.inj (Option.some.inj h)]
      exact zaddRec_keeps_flag rec sc m lvls n rec3 lvls2 hflag hz
  | zrem ms =>
    unfold zstep at h
    dsimp only at h
    cases hz : zremGo ms rec 0 with
    | none => rw [hz] at h; cases h
    | some pr =>
      rw [hz] at h
      obtain ⟨n, rec3⟩ := pr
      dsimp only at h
      have hflag3 : rec3.use_skiplist = true := by
        rw [zremGo_keeps_flag ms rec 0 n rec3 hz]
        exact hflag
      rw [if_neg (by rw [hflag3]; decide)] at h
      cases hsl : rec3.sl with
      | none => rw [hsl] at h; cases h
      | some sl =>
        rw [hsl] at h
        dsimp only at h
        by_cases hsz : sl.size = 0
        · rw [if_pos hsz] at h
          cases Option.some.inj h
        · rw [if_neg hsz] at h
          rw [← Option.some.inj (Option.some.inj h)]
          exact hflag3

theorem applyZOps_none_absorbs : ∀ (ops : List ZOp) (res : Option ZSetRecord),
    applyZOps ops none = some res → res = none := by
  intro ops
  induction ops with
  | nil => intro res h; exact (Option.some.inj h).symm
  | cons o rr ih => intro res h; exact ih res h

theorem applyZOps_keeps_flag : ∀ (ops : List ZOp) (rec : ZSetRecord)
    (res : Option ZSetRecord),
    rec.use_skiplist = true →
    applyZOps ops (some rec) = some res →
    ∀ rec2, res = some rec2 → rec2.use_skiplist = true := by
  intro ops
  induction ops with
  | nil =>
    intro rec res hflag h rec2 hres
    rw [← (Option.some.inj h)] at hres
    rw [← Option.some.inj hres]
    exact hflag
  | cons op r ih =>
    intro rec res hflag h rec2 hres
    unfold applyZOps at h
    dsimp only at h
    cases hs : zstep op rec with
    | none => rw [hs] at h; cases h
    | some st2 =>
      rw [hs] at h
      cases st2 with
      | none =>
        have hnone := applyZOps_none_absorbs r res h
        rw [hnone] at hres
        cases hres
      | some rec3 =>
        exact ih rec3 res (zstep_keeps_flag op rec rec3 hflag hs) h rec2 hres

theorem zaddRec_migrates (rec : ZSetRecord) (sc : Int) (m : Str) (lvls : List Nat)
    (n : Int) (rec2 : ZSetRecord) (lvls2 : List Nat)
    (hflag : rec.use_skiplist = false)
    (hm : alookup rec.member_to_score m = none)
    (hth : kZsetVectorThreshold < (insertLB rec.items (sc, m)).length)
    (h : zaddRec rec sc m lvls = some (n, rec2, lvls2)) :
    rec2.use_skiplist = true ∧ rec2.items = [] ∧
    ∃ sl2, rec2.sl = some sl2 ∧
      (List.Pairwise (fun a b : Int × Str => comparedLess a.1 a.2 b.1 b.2 = true)
          (insertLB rec.items (sc, m)) →
       (∀ v ∈ lvls, 1 ≤ v) →
       sl2.toVector = some (insertLB rec.items (sc, m))) := by
  unfold zaddRec at h
  rw [hm] at h
  dsimp only at h
  rw [if_pos hflag, if_pos hth] at h
  cases hslf : slFromItems mkSkiplist (insertLB rec.items (sc, m)) lvls with
  | none => rw [hslf] at h; cases h
  | some pr =>
    rw [hslf] at h
    obtain ⟨sl2, l2⟩ := pr
    dsimp only at h
    have hb := congrArg (fun t : Int × ZSetRecord × List Nat => t.2.1) (Option.some.inj h)
    dsimp only at hb
    rw [← hb]
    refine ⟨rfl, rfl, sl2, rfl, ?_⟩
    intro hsorted hlv
    have hrep := slFromItems_represents (insertLB rec.items (sc, m)) [] mkSkiplist lvls
      represents_mkSkiplist hlv (by simpa using hsorted) (sl2, l2) hslf
    rw [List.nil_append] at hrep
    exact toVector_of_represents sl2 _ hrep

/-- C7: once a `zadd` pushes an ordered-set record past the threshold
(128), the record migrates to indexed (skiplist) mode — the flag is set,
the vector is discarded, and all pairs are re-inserted into a fresh
skiplist (whose materialization, for a well-formed record and any
level-stream on which the re-insertion completes, is exactly the sorted
pair vector) — and no subsequent sequence of `zadd`/`zrem` operations ever
returns the record to sequence mode while the record exists (erasure of
the emptied record ends its existence; `zadd` on the key afterwards makes
a fresh record). -/
theorem zset_indexed_mode_monotone :
    (∀ (rec : ZSetRecord) (sc : Int) (m : Str) (lvls : List Nat) (n : Int)
       (rec2 : ZSetRecord) (lvls2 : List Nat),
       rec.use_skiplist = false →
       alookup rec.member_to_score m = none →
       kZsetVectorThreshold < (insertLB rec.items (sc, m)).length →
       zaddRec rec sc m lvls = some (n, rec2, lvls2) →
       rec2.use_skiplist = true ∧ rec2.items = [] ∧
       ∃ sl2, rec2.sl = some sl2 ∧
         (List.Pairwise (fun a b : Int × Str => comparedLess a.1 a.2 b.1 b.2 = true)
             (insertLB rec.items (sc, m)) →
          (∀ v ∈ lvls, 1 ≤ v) →
          sl2.toVector = some (insertLB rec.items (sc, m)))) ∧
    (∀ (ops : List ZOp) (rec : ZSetRecord) (res : Option ZSetRecord) (rec2 : ZSetRecord),
       rec.use_skiplist = true →
       applyZOps ops (some rec) = some res →
       res = some rec2 →
       rec2.use_skiplist = true) := by
  constructor
  · intro rec sc m lvls n rec2 lvls2 hflag hm hth h
    exact zaddRec_migrates rec sc m lvls n rec2 lvls2 hflag hm hth h
  · intro ops rec res rec2 hflag h hres
    exact applyZOps_keeps_flag ops rec res hflag h rec2 hres

/-- A sequence-mode record at the threshold (128 duplicate pairs keep the
migration inserts cheap enough to evaluate). -/
def thresholdRec : ZSetRecord :=
  { use_skiplist := false, items := List.replicate 128 ((0 : Int), ['a']),
    sl := none, member_to_score := [], expire_at_ms := -1 }

/-- The record after the threshold-crossing `zadd`. -/
def thresholdRecOut : ZSetRecord :=
  match zaddRec thresholdRec 0 ['b'] [] with
  | some (_, r, _) => r
  | none => thresholdRec

/-- An indexed-mode record over an empty skiplist. -/
def indexedRec : ZSetRecord :=
  { use_skiplist := true, items := [], sl := some mkSkiplist,
    member_to_score := [], expire_at_ms := -1 }

/-- The indexed record after one more `zadd`. -/
def indexedRecOut : ZSetRecord :=
  match zstep (ZOp.zadd 1000000 ['a'] []) indexedRec with
  | some (some r) => r
  | _ => indexedRec

/-- C7 witness: both clauses at concrete inputs — a threshold-crossing
`zadd` flips the record to indexed mode and empties the vector, and a
`zadd` on an indexed record keeps it indexed. -/
theorem zset_indexed_mode_monotone_witness :
    zaddRec thresholdRec 0 ['b'] [] = some (1, thresholdRecOut, []) ∧
    thresholdRecOut.use_skiplist = true ∧
    thresholdRecOut.items = [] ∧
    applyZOps [ZOp.zadd 1000000 ['a'] []] (some indexedRec) = some (some indexedRecOut) ∧
    indexedRecOut.use_skiplist = true := by
  refine ⟨rfl, ?_, ?_, rfl, ?_⟩
  · exact (zset_indexed_mode_monotone.1 thresholdRec 0 ['b'] [] 1 thresholdRecOut []
      (by decide) (by decide) (by decide) rfl).1
  · exact (zset_indexed_mode_monotone.1 thresholdRec 0 ['b'] [] 1 thresholdRecOut []
      (by decide) (by decide) (by decide) rfl).2.1
  · exact zset_indexed_mode_monotone.2 [ZOp.zadd 1000000 ['a'] []] indexedRec
      (some indexedRecOut) indexedRecOut (by decide) rfl rfl

/-! ## Round-trip groundwork: line and token inversion over the save format -/

theorem isDig_ne_space {c : Char} (h : isDig c = true) : c ≠ ' ' := by
  intro hc; subst hc; exact absurd h (by decide)

theorem isDig_ne_nl {c : Char} (h : isDig c = true) : c ≠ '\n' := by
  intro hc; subst hc; exact absurd h (by decide)

theorem natChars_ne_space (n : Nat) : ∀ c ∈ natChars n, c ≠ ' ' :=
  fun c hc => isDig_ne_space (natChars_all_dig n c hc)

theorem natChars_ne_nl (n : Nat) : ∀ c ∈ natChars n, c ≠ '\n' :=
  fun c hc => isDig_ne_nl (natChars_all_dig n c hc)

theorem intChars_ne_space (i : Int) : ∀ c ∈ intChars i, c ≠ ' ' := by
  intro c hc
  unfold intChars at hc
  by_cases h : i < 0
  · rw [if_pos h] at hc
    rcases List.mem_cons.mp hc with h1 | h1
    · subst h1; decide
    · exact natChars_ne_space _ c h1
  · rw [if_neg h] at hc
    exact natChars_ne_space _ c hc

theorem intChars_ne_nl (i : Int) : ∀ c ∈ intChars i, c ≠ '\n' := by
  intro c hc
  unfold intChars at hc
  by_cases h : i < 0
  · rw [if_pos h] at hc
    rcases List.mem_cons.mp hc with h1 | h1
    · subst h1; decide
    · exact natChars_ne_nl _ c h1
  · rw [if_neg h] at hc
    exact natChars_ne_nl _ c hc

theorem intChars_ne_nil (i : Int) : intChars i ≠ [] := by
  unfold intChars
  by_cases h : i < 0
  · rw [if_pos h]; exact List.cons_ne_nil _ _
  · rw [if_neg h]; exact natChars_ne_nil _

theorem scoreChars_ne_space (m : Int) : ∀ c ∈ scoreChars m, c ≠ ' ' := by
  intro c hc
  unfold scoreChars at hc
  rcases List.mem_append.mp hc with h1 | h1
  · rcases List.mem_append.mp h1 with h2 | h2
    · by_cases hm : m < 0
      · rw [if_pos hm] at h2
        rcases List.mem_singleton.mp h2 with rfl
        decide
      · rw [if_neg hm] at h2
        exact absurd h2 (List.not_mem_nil c)
    · exact natChars_ne_space _ c h2
  · rcases List.mem_cons.mp h1 with h2 | h2
    · subst h2; decide
    · exact isDig_ne_space (pad6_all_dig _ c h2)

theorem scoreChars_ne_nl (m : Int) : ∀ c ∈ scoreChars m, c ≠ '\n' := by
  intro c hc
  unfold scoreChars at hc
  rcases List.mem_append.mp hc with h1 | h1
  · rcases List.mem_append.mp h1 with h2 | h2
    · by_cases hm : m < 0
      · rw [if_pos hm] at h2
        rcases List.mem_singleton.mp h2 with rfl
        decide
      · rw [if_neg hm] at h2
        exact absurd h2 (List.not_mem_nil c)
    · exact natChars_ne_nl _ c h2
  · rcases List.mem_cons.mp h1 with h2 | h2
    · subst h2; decide
    · exact isDig_ne_nl (pad6_all_dig _ c h2)

theorem scoreChars_ne_nil (m : Int) : scoreChars m ≠ [] := by
  unfold scoreChars
  intro h
  rcases List.append_eq_nil.mp h with ⟨h1, h2⟩
  exact List.cons_ne_nil _ _ h2

theorem firstIdx_of_ne (c : Char) : ∀ l : Str, (∀ x ∈ l, x ≠ c) → firstIdx c l = none := by
  intro l
  induction l with
  | nil => intro _; rfl
  | cons a r ih =>
    intro h
    unfold firstIdx
    rw [if_neg (h a (List.mem_cons_self a r))]
    rw [ih (fun x hx => h x (List.mem_cons_of_mem a hx))]
    rfl

theorem firstIdx_append_self (c : Char) :
    ∀ (l1 l2 : Str), (∀ x ∈ l1, x ≠ c) → firstIdx c (l1 ++ c :: l2) = some l1.length := by
  intro l1
  induction l1 with
  | nil =>
    intro l2 _
    rw [List.nil_append]
    unfold firstIdx
    rw [if_pos rfl]
    rfl
  | cons a r ih =>
    intro l2 h
    rw [List.cons_append]
    unfold firstIdx
    rw [if_neg (h a (List.mem_cons_self a r))]
    rw [ih l2 (fun x hx => h x (List.mem_cons_of_mem a hx))]
    rfl

theorem readLine_append (line rest : Str) (h : ∀ x ∈ line, x ≠ '\n') :
    readLine (line ++ '\n' :: rest) = some (line, rest) := by
  unfold readLine
  rw [firstIdx_append_self '\n' line rest h]
  dsimp only
  have ht : (line ++ '\n' :: rest).take line.length = line := List.take_left line _
  have hd : (line ++ '\n' :: rest).drop (line.length + 1) = rest := by
    rw [show line ++ '\n' :: rest = (line ++ ['\n']) ++ rest by simp]
    exact List.drop_left' (by simp)
  rw [ht, hd]

theorem countSp_cons_ne {c : Char} (hc : c ≠ ' ') (r : Str) : countSp (c :: r) = 0 := by
  unfold countSp; rw [if_neg hc]

theorem nextTok_mid (a tok rest : Str) (p : Nat) (hp : a.length = p)
    (hne : tok ≠ []) (hsp : ∀ x ∈ tok, x ≠ ' ') :
    nextTok (a ++ tok ++ ' ' :: rest) p = some (tok, p + tok.length + 1) := by
  subst hp
  rw [List.append_assoc]
  unfold nextTok skipSp
  rw [List.drop_left]
  have hc0 : countSp (tok ++ ' ' :: rest) = 0 := by
    cases tok with
    | nil => exact absurd rfl hne
    | cons c r =>
      rw [List.cons_append]
      exact countSp_cons_ne (hsp c (List.mem_cons_self c r)) _
  rw [hc0, Nat.add_zero]
  have hfi : findFrom (a ++ (tok ++ ' ' :: rest)) ' ' a.length = some (tok.length + a.length) := by
    unfold findFrom
    rw [if_pos (by simp only [List.length_append]; omega)]
    rw [List.drop_left]
    rw [firstIdx_append_self ' ' tok rest hsp]
    rfl
  dsimp only
  rw [hfi]
  dsimp only
  rw [List.drop_left]
  rw [show tok.length + a.length - a.length = tok.length from by omega]
  rw [List.take_left]
  rw [Nat.add_comm tok.length a.length]

theorem nextTok_end (a tok : Str) (p : Nat) (hp : a.length = p)
    (hne : tok ≠ []) (hsp : ∀ x ∈ tok, x ≠ ' ') :
    nextTok (a ++ tok) p = some (tok, (a ++ tok).length) := by
  subst hp
  unfold nextTok skipSp
  rw [List.drop_left]
  have hc0 : countSp tok = 0 := by
    cases tok with
    | nil => exact absurd rfl hne
    | cons c r => exact countSp_cons_ne (hsp c (List.mem_cons_self c r)) _
  rw [hc0, Nat.add_zero]
  have hfi : findFrom (a ++ tok) ' ' a.length = none := by
    unfold findFrom
    rw [if_pos (by simp only [List.length_append]; omega)]
    rw [List.drop_left, firstIdx_of_ne ' ' tok hsp]
    rfl
  dsimp only
  rw [hfi]
  dsimp only
  unfold substrFrom
  rw [if_pos (by simp only [List.length_append]; omega), List.drop_left]

theorem substrLen_at (a k rest : Str) (p n : Nat) (hp : a.length = p) (hn : k.length = n) :
    substrLen (a ++ k ++ rest) p n = some k := by
  subst hp; subst hn
  rw [List.append_assoc]
  unfold substrLen
  rw [if_pos (by simp only [List.length_append]; omega)]
  rw [List.drop_left]
  rw [List.take_left]

theorem stollModel_natChars (n : Nat) : stollModel (natChars n) = some (n : Int) := by
  rw [stollModel_digits (natChars_ne_nil n) (natChars_all_dig n), parseNat_natChars]

theorem parseStrRec_line (k v : Str) (e : Int) :
    parseStrRec (natChars k.length ++ [' '] ++ k ++ [' '] ++ natChars v.length ++ [' ']
      ++ v ++ [' '] ++ intChars e) = some (k, v, e) := by
  unfold parseStrRec
  have h1 : nextTok (natChars k.length ++ [' '] ++ k ++ [' '] ++ natChars v.length ++ [' ']
      ++ v ++ [' '] ++ intChars e) 0
      = some (natChars k.length, 0 + (natChars k.length).length + 1) := by
    rw [show natChars k.length ++ [' '] ++ k ++ [' '] ++ natChars v.length ++ [' ']
        ++ v ++ [' '] ++ intChars e
        = [] ++ natChars k.length
          ++ ' ' :: (k ++ [' '] ++ natChars v.length ++ [' '] ++ v ++ [' '] ++ intChars e)
        from by simp]
    exact nextTok_mid _ _ _ _ rfl (natChars_ne_nil _) (natChars_ne_space _)
  rw [h1]
  dsimp only
  rw [stollModel_natChars]
  dsimp only
  rw [if_neg (by omega : ¬((k.length : Int) < 0))]
  rw [Int.toNat_natCast]
  have h2 : substrLen (natChars k.length ++ [' '] ++ k ++ [' '] ++ natChars v.length ++ [' ']
      ++ v ++ [' '] ++ intChars e) (0 + (natChars k.length).length + 1) k.length = some k := by
    rw [show natChars k.length ++ [' '] ++ k ++ [' '] ++ natChars v.length ++ [' ']
        ++ v ++ [' '] ++ intChars e
        = (natChars k.length ++ [' ']) ++ k
          ++ ([' '] ++ natChars v.length ++ [' '] ++ v ++ [' '] ++ intChars e)
        from by simp]
    exact substrLen_at _ _ _ _ _
      (by simp only [List.length_append, List.length_cons, List.length_nil]; omega) rfl
  rw [h2]
  dsimp only
  have h3 : nextTok (natChars k.length ++ [' '] ++ k ++ [' '] ++ natChars v.length ++ [' ']
      ++ v ++ [' '] ++ intChars e) (0 + (natChars k.length).length + 1 + k.length + 1)
      = some (natChars v.length,
          0 + (natChars k.length).length + 1 + k.length + 1 + (natChars v.length).length + 1) := by
    rw [show natChars k.length ++ [' '] ++ k ++ [' '] ++ natChars v.length ++ [' ']
        ++ v ++ [' '] ++ intChars e
        = (natChars k.length ++ [' '] ++ k ++ [' ']) ++ natChars v.length
          ++ ' ' :: (v ++ [' '] ++ intChars e)
        from by simp]
    exact nextTok_mid _ _ _ _
      (by simp only [List.length_append, List.length_cons, List.length_nil]; omega)
      (natChars_ne_nil _) (natChars_ne_space _)
  rw [h3]
  dsimp only
  rw [stollModel_natChars]
  dsimp only
  rw [if_neg (by omega : ¬((v.length : Int) < 0))]
  rw [Int.toNat_natCast]
  have h4 : substrLen (natChars k.length ++ [' '] ++ k ++ [' '] ++ natChars v.length ++ [' ']
      ++ v ++ [' '] ++ intChars e)
      (0 + (natChars k.length).length + 1 + k.length + 1 + (natChars v.length).length + 1)
      v.length = some v := by
    rw [show natChars k.length ++ [' '] ++ k ++ [' '] ++ natChars v.length ++ [' ']
        ++ v ++ [' '] ++ intChars e
        = (natChars k.length ++ [' '] ++ k ++ [' '] ++ natChars v.length ++ [' ']) ++ v
          ++ ([' '] ++ intChars e)
        from by simp]
    exact substrLen_at _ _ _ _ _
      (by simp only [List.length_append, List.length_cons, List.length_nil]; omega) rfl
  rw [h4]
  dsimp only
  have h5 : nextTok (natChars k.length ++ [' '] ++ k ++ [' '] ++ natChars v.length ++ [' ']
      ++ v ++ [' '] ++ intChars e)
      (0 + (natChars k.length).length + 1 + k.length + 1 + (natChars v.length).length + 1
        + v.length + 1)
      = some (intChars e,
          (natChars k.length ++ [' '] ++ k ++ [' '] ++ natChars v.length ++ [' ']
            ++ v ++ [' '] ++ intChars e).length) := by
    rw [show natChars k.length ++ [' '] ++ k ++ [' '] ++ natChars v.length ++ [' ']
        ++ v ++ [' '] ++ intChars e
        = (natChars k.length ++ [' '] ++ k ++ [' '] ++ natChars v.length ++ [' '] ++ v ++ [' '])
          ++ intChars e
        from by simp]
    exact nextTok_end _ _ _
      (by simp only [List.length_append, List.length_cons, List.length_nil]; omega)
      (intChars_ne_nil _) (intChars_ne_space _)
  rw [h5]
  dsimp only
  rw [stollModel_intChars]

theorem parseHashHead_line (k : Str) (e : Int) (nf : Nat) :
    parseHashHead (natChars k.length ++ [' '] ++ k ++ [' '] ++ intChars e ++ [' ']
      ++ natChars nf) = some (k, e, (nf : Int)) := by
  unfold parseHashHead
  have h1 : nextTok (natChars k.length ++ [' '] ++ k ++ [' '] ++ intChars e ++ [' ']
      ++ natChars nf) 0 = some (natChars k.length, 0 + (natChars k.length).length + 1) := by
    rw [show natChars k.length ++ [' '] ++ k ++ [' '] ++ intChars e ++ [' '] ++ natChars nf
        = [] ++ natChars k.length ++ ' ' :: (k ++ [' '] ++ intChars e ++ [' '] ++ natChars nf)
        from by simp]
    exact nextTok_mid _ _ _ _ rfl (natChars_ne_nil _) (natChars_ne_space _)
  rw [h1]
  dsimp only
  rw [stollModel_natChars]
  dsimp only
  rw [if_neg (by omega : ¬((k.length : Int) < 0))]
  rw [Int.toNat_natCast]
  have h2 : substrLen (natChars k.length ++ [' '] ++ k ++ [' '] ++ intChars e ++ [' ']
      ++ natChars nf) (0 + (natChars k.length).length + 1) k.length = some k := by
    rw [show natChars k.length ++ [' '] ++ k ++ [' '] ++ intChars e ++ [' '] ++ natChars nf
        = (natChars k.length ++ [' ']) ++ k ++ ([' '] ++ intChars e ++ [' '] ++ natChars nf)
        from by simp]
    exact substrLen_at _ _ _ _ _
      (by simp only [List.length_append, List.length_cons, List.length_nil]; omega) rfl
  rw [h2]
  dsimp only
  have h3 : nextTok (natChars k.length ++ [' '] ++ k ++ [' '] ++ intChars e ++ [' ']
      ++ natChars nf) (0 + (natChars k.length).length + 1 + k.length + 1)
      = some (intChars e,
          0 + (natChars k.length).length + 1 + k.length + 1 + (intChars e).length + 1) := by
    rw [show natChars k.length ++ [' '] ++ k ++ [' '] ++ intChars e ++ [' '] ++ natChars nf
        = (natChars k.length ++ [' '] ++ k ++ [' ']) ++ intChars e ++ ' ' :: natChars nf
        from by simp]
    exact nextTok_mid _ _ _ _
      (by simp only [List.length_append, List.length_cons, List.length_nil]; omega)
      (intChars_ne_nil _) (intChars_ne_space _)
  rw [h3]
  dsimp only
  rw [stollModel_intChars]
  dsimp only
  have h4 : nextTok (natChars k.length ++ [' '] ++ k ++ [' '] ++ intChars e ++ [' ']
      ++ natChars nf)
      (0 + (natChars k.length).length + 1 + k.length + 1 + (intChars e).length + 1)
      = some (natChars nf,
          (natChars k.length ++ [' '] ++ k ++ [' '] ++ intChars e ++ [' ']
            ++ natChars nf).length) := by
    rw [show natChars k.length ++ [' '] ++ k ++ [' '] ++ intChars e ++ [' '] ++ natChars nf
        = (natChars k.length ++ [' '] ++ k ++ [' '] ++ intChars e ++ [' ']) ++ natChars nf
        from by simp]
    exact nextTok_end _ _ _
      (by simp only [List.length_append, List.length_cons, List.length_nil]; omega)
      (natChars_ne_nil _) (natChars_ne_space _)
  rw [h4]
  dsimp only
  rw [stollModel_natChars]

theorem parseFieldLine_line (f v : Str) :
    parseFieldLine (natChars f.length ++ [' '] ++ f ++ [' '] ++ natChars v.length ++ [' ']
      ++ v) = some (f, v) := by
  unfold parseFieldLine
  have h1 : nextTok (natChars f.length ++ [' '] ++ f ++ [' '] ++ natChars v.length ++ [' ']
      ++ v) 0 = some (natChars f.length, 0 + (natChars f.length).length + 1) := by
    rw [show natChars f.length ++ [' '] ++ f ++ [' '] ++ natChars v.length ++ [' '] ++ v
        = [] ++ natChars f.length ++ ' ' :: (f ++ [' '] ++ natChars v.length ++ [' '] ++ v)
        from by simp]
    exact nextTok_mid _ _ _ _ rfl (natChars_ne_nil _) (natChars_ne_space _)
  rw [h1]
  dsimp only
  rw [stollModel_natChars]
  dsimp only
  rw [if_neg (by omega : ¬((f.length : Int) < 0))]
  rw [Int.toNat_natCast]
  have h2 : substrLen (natChars f.length ++ [' '] ++ f ++ [' '] ++ natChars v.length ++ [' ']
      ++ v) (0 + (natChars f.length).length + 1) f.length = some f := by
    rw [show natChars f.length ++ [' '] ++ f ++ [' '] ++ natChars v.length ++ [' '] ++ v
        = (natChars f.length ++ [' ']) ++ f ++ ([' '] ++ natChars v.length ++ [' '] ++ v)
        from by simp]
    exact substrLen_at _ _ _ _ _
      (by simp only [List.length_append, List.length_cons, List.length_nil]; omega) rfl
  rw [h2]
  dsimp only
  have h3 : nextTok (natChars f.length ++ [' '] ++ f ++ [' '] ++ natChars v.length ++ [' ']
      ++ v) (0 + (natChars f.length).length + 1 + f.length + 1)
      = some (natChars v.length,
          0 + (natChars f.length).length + 1 + f.length + 1 + (natChars v.length).length + 1) := by
    rw [show natChars f.length ++ [' '] ++ f ++ [' '] ++ natChars v.length ++ [' '] ++ v
        = (natChars f.length ++ [' '] ++ f ++ [' ']) ++ natChars v.length ++ ' ' :: v
        from by simp]
    exact nextTok_mid _ _ _ _
      (by simp only [List.length_append, List.length_cons, List.length_nil]; omega)
      (natChars_ne_nil _) (natChars_ne_space _)
  rw [h3]
  dsimp only
  rw [stollModel_natChars]
  dsimp only
  rw [if_neg (by omega : ¬((v.length : Int) < 0))]
  rw [Int.toNat_natCast]
  have h4 : substrLen (natChars f.length ++ [' '] ++ f ++ [' '] ++ natChars v.length ++ [' ']
      ++ v)
      (0 + (natChars f.length).length + 1 + f.length + 1 + (natChars v.length).length + 1)
      v.length = some v := by
    rw [show natChars f.length ++ [' '] ++ f ++ [' '] ++ natChars v.length ++ [' '] ++ v
        = (natChars f.length ++ [' '] ++ f ++ [' '] ++ natChars v.length ++ [' ']) ++ v ++ []
        from by simp]
    exact substrLen_at _ _ _ _ _
      (by simp only [List.length_append, List.length_cons, List.length_nil]; omega) rfl
  rw [h4]

theorem parseZItem_line (sc : Int) (m : Str) :
    parseZItem (scoreChars sc ++ [' '] ++ natChars m.length ++ [' '] ++ m)
      = some (sc, m) := by
  unfold parseZItem
  have h1 : nextTok (scoreChars sc ++ [' '] ++ natChars m.length ++ [' '] ++ m) 0
      = some (scoreChars sc, 0 + (scoreChars sc).length + 1) := by
    rw [show scoreChars sc ++ [' '] ++ natChars m.length ++ [' '] ++ m
        = [] ++ scoreChars sc ++ ' ' :: (natChars m.length ++ [' '] ++ m) from by simp]
    exact nextTok_mid _ _ _ _ rfl (scoreChars_ne_nil _) (scoreChars_ne_space _)
  rw [h1]
  dsimp only
  rw [stodMicros_scoreChars]
  dsimp only
  have h2 : nextTok (scoreChars sc ++ [' '] ++ natChars m.length ++ [' '] ++ m)
      (0 + (scoreChars sc).length + 1)
      = some (natChars m.length,
          0 + (scoreChars sc).length + 1 + (natChars m.length).length + 1) := by
    rw [show scoreChars sc ++ [' '] ++ natChars m.length ++ [' '] ++ m
        = (scoreChars sc ++ [' ']) ++ natChars m.length ++ ' ' :: m from by simp]
    exact nextTok_mid _ _ _ _
      (by simp only [List.length_append, List.length_cons, List.length_nil]; omega)
      (natChars_ne_nil _) (natChars_ne_space _)
  rw [h2]
  dsimp only
  rw [stollModel_natChars]
  dsimp only
  rw [if_neg (by omega : ¬((m.length : Int) < 0))]
  rw [Int.toNat_natCast]
  have h3 : substrLen (scoreChars sc ++ [' '] ++ natChars m.length ++ [' '] ++ m)
      (0 + (scoreChars sc).length + 1 + (natChars m.length).length + 1) m.length
      = some m := by
    rw [show scoreChars sc ++ [' '] ++ natChars m.length ++ [' '] ++ m
        = (scoreChars sc ++ [' '] ++ natChars m.length ++ [' ']) ++ m ++ [] from by simp]
    exact substrLen_at _ _ _ _ _
      (by simp only [List.length_append, List.length_cons, List.length_nil]; omega) rfl
  rw [h3]

theorem alookup_aset_self {α : Type} :
    ∀ (m : List (Str × α)) (k : Str) (v : α), alookup (aset m k v) k = some v := by
  intro m k v
  induction m with
  | nil =>
    show (if k = k then some v else none) = some v
    rw [if_pos rfl]
  | cons kv r ih =>
    obtain ⟨a, b⟩ := kv
    by_cases ha : a = k
    · show alookup (if a = k then (a, v) :: r else (a, b) :: aset r k v) k = some v
      rw [if_pos ha]
      show (if a = k then some v else alookup r k) = some v
      rw [if_pos ha]
    · show alookup (if a = k then (a, v) :: r else (a, b) :: aset r k v) k = some v
      rw [if_neg ha]
      show (if a = k then some b else alookup (aset r k v) k) = some v
      rw [if_neg ha]
      exact ih

theorem aset_aset {α : Type} :
    ∀ (m : List (Str × α)) (k : Str) (v w : α), aset (aset m k v) k w = aset m k w := by
  intro m k v w
  induction m with
  | nil =>
    show (if k = k then [(k, w)] else _) = [(k, w)]
    rw [if_pos rfl]
  | cons kv r ih =>
    obtain ⟨a, b⟩ := kv
    by_cases ha : a = k
    · show aset (if a = k then (a, v) :: r else (a, b) :: aset r k v) k w = _
      rw [if_pos ha]
      show (if a = k then (a, w) :: r else _) = _
      rw [if_pos ha]
      show _ = (if a = k then (a, w) :: r else (a, b) :: aset r k w)
      rw [if_pos ha]
    · show aset (if a = k then (a, v) :: r else (a, b) :: aset r k v) k w = _
      rw [if_neg ha]
      show (if a = k then (a, w) :: aset r k v else (a, b) :: aset (aset r k v) k w) = _
      rw [if_neg ha, ih]
      show _ = (if a = k then (a, w) :: r else (a, b) :: aset r k w)
      rw [if_neg ha]

theorem aset_self_eq {α : Type} :
    ∀ (m : List (Str × α)) (k : Str) (r : α), alookup m k = some r → aset m k r = m := by
  intro m k r
  induction m with
  | nil => intro h; cases h
  | cons kv t ih =>
    obtain ⟨a, b⟩ := kv
    intro h
    by_cases ha : a = k
    · have hb : b = r := by
        rw [show alookup ((a, b) :: t) k = if a = k then some b else alookup t k from rfl,
          if_pos ha] at h
        exact Option.some.inj h
      show (if a = k then (a, r) :: t else _) = (a, b) :: t
      rw [if_pos ha, hb]
    · show (if a = k then (a, r) :: t else (a, b) :: aset t k r) = (a, b) :: t
      rw [if_neg ha]
      rw [ih (by
        rw [show alookup ((a, b) :: t) k = if a = k then some b else alookup t k from rfl,
          if_neg ha] at h
        exact h)]

theorem aset_last {α : Type} :
    ∀ (m : List (Str × α)) (k : Str) (r w : α), alookup m k = none →
    aset (m ++ [(k, r)]) k w = m ++ [(k, w)] := by
  intro m k r w
  induction m with
  | nil =>
    intro _
    show (if k = k then [(k, w)] else _) = [(k, w)]
    rw [if_pos rfl]
  | cons kv t ih =>
    obtain ⟨a, b⟩ := kv
    intro h
    have ha : ¬ a = k := by
      intro hak
      rw [show alookup ((a, b) :: t) k = if a = k then some b else alookup t k from rfl,
        if_pos hak] at h
      cases h
    rw [List.cons_append, List.cons_append]
    show (if a = k then (a, w) :: (t ++ [(k, r)]) else (a, b) :: aset (t ++ [(k, r)]) k w) = _
    rw [if_neg ha]
    rw [ih (by
      rw [show alookup ((a, b) :: t) k = if a = k then some b else alookup t k from rfl,
        if_neg ha] at h
      exact h)]

theorem alookup_append_last {α : Type} (m : List (Str × α)) (k : Str) (r : α)
    (h : alookup m k = none) : alookup (m ++ [(k, r)]) k = some r := by
  rw [alookup_append_right m _ k h]
  show (if k = k then some r else none) = some r
  rw [if_pos rfl]

/-- No newline byte in a string (the condition under which the line-based
save format can represent it). -/
def noNl (s : Str) : Prop := ∀ c ∈ s, c ≠ '\n'

instance noNl_decidable (s : Str) : Decidable (noNl s) :=
  List.decidableBAll _ s

theorem strRecBody_noNl (k v : Str) (e : Int) (hk : noNl k) (hv : noNl v) :
    ∀ c ∈ natChars k.length ++ [' '] ++ k ++ [' '] ++ natChars v.length ++ [' ']
      ++ v ++ [' '] ++ intChars e, c ≠ '\n' := by
  intro c hc
  simp only [List.mem_append, List.mem_singleton] at hc
  rcases hc with ((((((((h | h) | h) | h) | h) | h) | h) | h) | h)
  · exact natChars_ne_nl _ c h
  · subst h; decide
  · exact hk c h
  · subst h; decide
  · exact natChars_ne_nl _ c h
  · subst h; decide
  · exact hv c h
  · subst h; decide
  · exact intChars_ne_nl _ c h

theorem hashHeadBody_noNl (k : Str) (e : Int) (nf : Nat) (hk : noNl k) :
    ∀ c ∈ natChars k.length ++ [' '] ++ k ++ [' '] ++ intChars e ++ [' ']
      ++ natChars nf, c ≠ '\n' := by
  intro c hc
  simp only [List.mem_append, List.mem_singleton] at hc
  rcases hc with ((((((h | h) | h) | h) | h) | h) | h)
  · exact natChars_ne_nl _ c h
  · subst h; decide
  · exact hk c h
  · subst h; decide
  · exact intChars_ne_nl _ c h
  · subst h; decide
  · exact natChars_ne_nl _ c h

theorem fieldBody_noNl (f v : Str) (hf : noNl f) (hv : noNl v) :
    ∀ c ∈ natChars f.length ++ [' '] ++ f ++ [' '] ++ natChars v.length ++ [' ']
      ++ v, c ≠ '\n' := by
  intro c hc
  simp only [List.mem_append, List.mem_singleton] at hc
  rcases hc with ((((((h | h) | h) | h) | h) | h) | h)
  · exact natChars_ne_nl _ c h
  · subst h; decide
  · exact hf c h
  · subst h; decide
  · exact natChars_ne_nl _ c h
  · subst h; decide
  · exact hv c h

theorem zItemBody_noNl (sc : Int) (m : Str) (hm : noNl m) :
    ∀ c ∈ scoreChars sc ++ [' '] ++ natChars m.length ++ [' '] ++ m, c ≠ '\n' := by
  intro c hc
  simp only [List.mem_append, List.mem_singleton] at hc
  rcases hc with ((((h | h) | h) | h) | h)
  · exact scoreChars_ne_nl _ c h
  · subst h; decide
  · exact natChars_ne_nl _ c h
  · subst h; decide
  · exact hm c h

theorem strHeader_noNl (n : Nat) : ∀ c ∈ ("STR ".toList : Str) ++ natChars n, c ≠ '\n' := by
  intro c hc
  rcases List.mem_append.mp hc with h | h
  · rw [show ("STR ".toList : Str) = ['S', 'T', 'R', ' '] from rfl] at h
    fin_cases h <;> decide
  · exact natChars_ne_nl _ c h

theorem hashHeader_noNl (n : Nat) : ∀ c ∈ ("HASH ".toList : Str) ++ natChars n, c ≠ '\n' := by
  intro c hc
  rcases List.mem_append.mp hc with h | h
  · rw [show ("HASH ".toList : Str) = ['H', 'A', 'S', 'H', ' '] from rfl] at h
    fin_cases h <;> decide
  · exact natChars_ne_nl _ c h

theorem zsetHeader_noNl (n : Nat) : ∀ c ∈ ("ZSET ".toList : Str) ++ natChars n, c ≠ '\n' := by
  intro c hc
  rcases List.mem_append.mp hc with h | h
  · rw [show ("ZSET ".toList : Str) = ['Z', 'S', 'E', 'T', ' '] from rfl] at h
    fin_cases h <;> decide
  · exact natChars_ne_nl _ c h

theorem loadStrRecs_succ (n : Nat) (f : Str) (st : KeyValueStore) :
    loadStrRecs (n + 1) f st =
      match readLine f with
      | none => LoadRes.fail st
      | some (line, rest) =>
        match parseStrRec line with
        | none => LoadRes.crash
        | some (k, v, e) => loadStrRecs n rest (st.setWithExpireAtMs k v e).2 := rfl

theorem loadHashFields_succ (n : Nat) (f : Str) (fvs : List (Str × Str)) :
    loadHashFields (n + 1) f fvs =
      match readLine f with
      | none => some none
      | some (line, rest) =>
        match parseFieldLine line with
        | none => none
        | some fv => loadHashFields n rest (fvs ++ [fv]) := rfl

theorem loadHashRecs_succ (now : Int) (n : Nat) (f : Str) (st : KeyValueStore) :
    loadHashRecs now (n + 1) f st =
      match readLine f with
      | none => LoadRes.fail st
      | some (line, rest) =>
        match parseHashHead line with
        | none => LoadRes.crash
        | some (key, exp, nf) =>
          match loadHashFields nf.toNat rest [] with
          | none => LoadRes.crash
          | some none => LoadRes.fail st
          | some (some (rest2, fvs)) =>
            if fvs = [] then loadHashRecs now n rest2 st
            else
              let st1 := hsetFold now key fvs st
              let st2 := if exp ≥ 0 then (st1.setHashExpireAtMs key exp).2 else st1
              loadHashRecs now n rest2 st2 := rfl

theorem loadZItems_succ (now : Int) (key : Str) (n : Nat) (f : Str) (st : KeyValueStore)
    (lvls : List Nat) :
    loadZItems now key (n + 1) f st lvls =
      match readLine f with
      | none => some none
      | some (line, rest) =>
        match parseZItem line with
        | none => none
        | some (sc, member) =>
          match st.zadd now key sc member lvls with
          | none => none
          | some (_, st2, lvls2) => loadZItems now key n rest st2 lvls2 := rfl

theorem loadZRecs_succ (now : Int) (n : Nat) (f : Str) (st : KeyValueStore)
    (lvls : List Nat) :
    loadZRecs now (n + 1) f st lvls =
      match readLine f with
      | none => LoadRes.fail st
      | some (line, rest) =>
        match parseHashHead line with
        | none => LoadRes.crash
        | some (key, exp, ni) =>
          match loadZItems now key ni.toNat rest st lvls with
          | none => LoadRes.crash
          | some none => LoadRes.fail st
          | some (some (rest2, st2, lvls2)) =>
            let st3 := if exp ≥ 0 then (st2.setZSetExpireAtMs key exp).2 else st2
            loadZRecs now n rest2 st3 lvls2 := rfl

theorem setW_effect (st : KeyValueStore) (k : Str) (r : ValueRecord)
    (h : alookup st.map k = none) :
    ((st.setWithExpireAtMs k r.value r.expire_at_ms).2).map = st.map ++ [(k, r)]
      ∧ ((st.setWithExpireAtMs k r.value r.expire_at_ms).2).hmap = st.hmap
      ∧ ((st.setWithExpireAtMs k r.value r.expire_at_ms).2).zmap = st.zmap := by
  unfold KeyValueStore.setWithExpireAtMs
  dsimp only
  by_cases he : r.expire_at_ms ≥ 0
  · rw [if_pos he]
    exact ⟨by dsimp only; rw [aset_of_absent _ _ _ h], rfl, rfl⟩
  · rw [if_neg he]
    exact ⟨by dsimp only; rw [aset_of_absent _ _ _ h], rfl, rfl⟩

theorem loadStrRecs_flatten :
    ∀ (S : List (Str × ValueRecord)) (rest : Str) (st : KeyValueStore),
    (∀ kv ∈ S, noNl kv.1 ∧ noNl kv.2.value) →
    loadStrRecs S.length ((S.map (fun kv => strRecLine kv.1 kv.2)).flatten ++ rest) st
      = LoadRes.ok (rest,
          S.foldl (fun s kv => (s.setWithExpireAtMs kv.1 kv.2.value kv.2.expire_at_ms).2) st) := by
  intro S
  induction S with
  | nil => intro rest st _; rfl
  | cons kv S' ih =>
    intro rest st h
    obtain ⟨k, r⟩ := kv
    obtain ⟨hk, hv⟩ := h (k, r) (List.mem_cons_self _ _)
    simp only [List.length_cons, List.map_cons, List.flatten_cons, List.foldl_cons]
    rw [loadStrRecs_succ]
    have hrl : readLine ((strRecLine k r ++ (S'.map (fun kv => strRecLine kv.1 kv.2)).flatten)
        ++ rest)
        = some (natChars k.length ++ [' '] ++ k ++ [' '] ++ natChars r.value.length ++ [' ']
            ++ r.value ++ [' '] ++ intChars r.expire_at_ms,
          (S'.map (fun kv => strRecLine kv.1 kv.2)).flatten ++ rest) := by
      rw [show (strRecLine k r ++ (S'.map (fun kv => strRecLine kv.1 kv.2)).flatten) ++ rest
          = (natChars k.length ++ [' '] ++ k ++ [' '] ++ natChars r.value.length ++ [' ']
              ++ r.value ++ [' '] ++ intChars r.expire_at_ms)
            ++ '\n' :: ((S'.map (fun kv => strRecLine kv.1 kv.2)).flatten ++ rest)
          from by simp [strRecLine]]
      exact readLine_append _ _ (strRecBody_noNl k r.value r.expire_at_ms hk hv)
    rw [hrl]
    dsimp only
    rw [parseStrRec_line k r.value r.expire_at_ms]
    dsimp only
    exact ih rest _ (fun kv hkv => h kv (List.mem_cons_of_mem _ hkv))

theorem strFold_effect :
    ∀ (S : List (Str × ValueRecord)) (st : KeyValueStore),
    (∀ k ∈ akeys S, alookup st.map k = none) → (akeys S).Nodup →
    (S.foldl (fun s kv => (s.setWithExpireAtMs kv.1 kv.2.value kv.2.expire_at_ms).2) st).map
        = st.map ++ S
      ∧ (S.foldl (fun s kv => (s.setWithExpireAtMs kv.1 kv.2.value kv.2.expire_at_ms).2) st).hmap
        = st.hmap
      ∧ (S.foldl (fun s kv => (s.setWithExpireAtMs kv.1 kv.2.value kv.2.expire_at_ms).2) st).zmap
        = st.zmap := by
  intro S
  induction S with
  | nil => intro st _ _; exact ⟨(List.append_nil _).symm, rfl, rfl⟩
  | cons kv S' ih =>
    obtain ⟨k, r⟩ := kv
    intro st hfresh hnodup
    simp only [List.foldl_cons]
    obtain ⟨hm, hh, hz⟩ := setW_effect st k r (hfresh k (List.mem_cons_self _ _))
    simp only [akeys, List.map_cons, List.nodup_cons] at hnodup
    obtain ⟨hknotin, hnd'⟩ := hnodup
    have hfresh' : ∀ k' ∈ akeys S',
        alookup ((st.setWithExpireAtMs k r.value r.expire_at_ms).2).map k' = none := by
      intro k' hk'
      rw [hm, alookup_append_right _ _ _ (hfresh k' (List.mem_cons_of_mem _ hk'))]
      have hne : ¬ k = k' := fun hkk => hknotin (hkk ▸ hk')
      show (if k = k' then some r else none) = none
      rw [if_neg hne]
    obtain ⟨ihm, ihh, ihz⟩ := ih _ hfresh' hnd'
    refine ⟨?_, by rw [ihh, hh], by rw [ihz, hz]⟩
    rw [ihm, hm]
    simp

theorem cleanupHash_skip (st : KeyValueStore) (key : Str) (now : Int) (F : List (Str × Str))
    (hrec : alookup st.hmap key = some ⟨F, -1⟩) : cleanupIfExpiredHash st key now = st := by
  unfold cleanupIfExpiredHash
  rw [hrec]
  dsimp only
  have hex : isExpiredHash ⟨F, -1⟩ now = false := by
    show (decide ((-1 : Int) ≥ 0) && decide (now ≥ (-1 : Int))) = false
    rw [show decide ((-1 : Int) ≥ 0) = false from by decide, Bool.false_and]
  rw [hex, if_neg Bool.false_ne_true]

theorem cleanupHash_absent (st : KeyValueStore) (key : Str) (now : Int)
    (h : alookup st.hmap key = none) : cleanupIfExpiredHash st key now = st := by
  unfold cleanupIfExpiredHash
  rw [h]

theorem hset_fresh (st : KeyValueStore) (now : Int) (key f v : Str)
    (hrec : alookup st.hmap key = none) :
    ((st.hset now key f v).2).hmap = st.hmap ++ [(key, ⟨[(f, v)], -1⟩)]
      ∧ ((st.hset now key f v).2).map = st.map
      ∧ ((st.hset now key f v).2).zmap = st.zmap := by
  unfold KeyValueStore.hset
  rw [cleanupHash_absent st key now hrec]
  dsimp only
  rw [hrec]
  exact ⟨by rw [aset_of_absent _ _ _ hrec]; rfl, rfl, rfl⟩

theorem hset_present (st : KeyValueStore) (now : Int) (key f v : Str) (F : List (Str × Str))
    (hrec : alookup st.hmap key = some ⟨F, -1⟩) (hf : alookup F f = none) :
    ((st.hset now key f v).2).hmap = aset st.hmap key ⟨F ++ [(f, v)], -1⟩
      ∧ ((st.hset now key f v).2).map = st.map
      ∧ ((st.hset now key f v).2).zmap = st.zmap := by
  unfold KeyValueStore.hset
  rw [cleanupHash_skip st key now F hrec]
  dsimp only
  rw [hrec]
  exact ⟨by simp only [Option.getD_some]; rw [aset_of_absent _ _ _ hf], rfl, rfl⟩

theorem hsetFold_present :
    ∀ (fvs : List (Str × Str)) (st : KeyValueStore) (now : Int) (key : Str)
      (F : List (Str × Str)),
    alookup st.hmap key = some ⟨F, -1⟩ →
    (∀ f ∈ akeys fvs, alookup F f = none) → (akeys fvs).Nodup →
    (hsetFold now key fvs st).hmap = aset st.hmap key ⟨F ++ fvs, -1⟩
      ∧ (hsetFold now key fvs st).map = st.map
      ∧ (hsetFold now key fvs st).zmap = st.zmap := by
  intro fvs
  induction fvs with
  | nil =>
    intro st now key F hrec _ _
    rw [List.append_nil]
    exact ⟨(aset_self_eq _ _ _ hrec).symm, rfl, rfl⟩
  | cons fv fvs' ih =>
    intro st now key F hrec hfr hnd
    obtain ⟨f, v⟩ := fv
    obtain ⟨h1h, h1m, h1z⟩ :=
      hset_present st now key f v F hrec (hfr f (List.mem_cons_self _ _))
    simp only [akeys, List.map_cons, List.nodup_cons] at hnd
    obtain ⟨hfnotin, hnd'⟩ := hnd
    have hrec' : alookup ((st.hset now key f v).2).hmap key = some ⟨F ++ [(f, v)], -1⟩ := by
      rw [h1h]; exact alookup_aset_self _ _ _
    have hfr' : ∀ f' ∈ akeys fvs', alookup (F ++ [(f, v)]) f' = none := by
      intro f' hf'
      rw [alookup_append_right _ _ _ (hfr f' (List.mem_cons_of_mem _ hf'))]
      have hne : ¬ f = f' := fun hff => hfnotin (hff ▸ hf')
      show (if f = f' then some v else none) = none
      rw [if_neg hne]
    have hstep : hsetFold now key ((f, v) :: fvs') st
        = hsetFold now key fvs' ((st.hset now key f v).2) := by
      unfold hsetFold
      rw [List.foldl_cons]
    rw [hstep]
    obtain ⟨ihh, ihm, ihz⟩ := ih ((st.hset now key f v).2) now key (F ++ [(f, v)]) hrec' hfr' hnd'
    refine ⟨?_, by rw [ihm, h1m], by rw [ihz, h1z]⟩
    rw [ihh, h1h, aset_aset]
    rw [show (F ++ [(f, v)]) ++ fvs' = F ++ (f, v) :: fvs' from by simp]

theorem hsetFold_fresh (st : KeyValueStore) (now : Int) (key : Str) (F : List (Str × Str))
    (hrec : alookup st.hmap key = none) (hne : F ≠ []) (hnd : (akeys F).Nodup) :
    (hsetFold now key F st).hmap = st.hmap ++ [(key, ⟨F, -1⟩)]
      ∧ (hsetFold now key F st).map = st.map
      ∧ (hsetFold now key F st).zmap = st.zmap := by
  obtain ⟨fv, F', rfl⟩ := List.exists_cons_of_ne_nil hne
  obtain ⟨f, v⟩ := fv
  obtain ⟨h1h, h1m, h1z⟩ := hset_fresh st now key f v hrec
  simp only [akeys, List.map_cons, List.nodup_cons] at hnd
  obtain ⟨hfnotin, hnd'⟩ := hnd
  have hrec' : alookup ((st.hset now key f v).2).hmap key = some ⟨[(f, v)], -1⟩ := by
    rw [h1h]; exact alookup_append_last _ _ _ hrec
  have hfr' : ∀ f' ∈ akeys F', alookup ([(f, v)] : List (Str × Str)) f' = none := by
    intro f' hf'
    have hne' : ¬ f = f' := fun hff => hfnotin (hff ▸ hf')
    show (if f = f' then some v else none) = none
    rw [if_neg hne']
  have hstep : hsetFold now key ((f, v) :: F') st
      = hsetFold now key F' ((st.hset now key f v).2) := by
    unfold hsetFold
    rw [List.foldl_cons]
  rw [hstep]
  obtain ⟨ihh, ihm, ihz⟩ := hsetFold_present F' ((st.hset now key f v).2) now key [(f, v)]
    hrec' hfr' hnd'
  refine ⟨?_, by rw [ihm, h1m], by rw [ihz, h1z]⟩
  rw [ihh, h1h, aset_last _ _ _ _ hrec]
  rfl

theorem setHashExp_last (st : KeyValueStore) (key : Str) (e : Int) (F : List (Str × Str))
    (base : List (Str × HashRecord)) (hz : st.hmap = base ++ [(key, ⟨F, -1⟩)])
    (hbase : alookup base key = none) :
    ((st.setHashExpireAtMs key e).2).hmap = base ++ [(key, ⟨F, e⟩)]
      ∧ ((st.setHashExpireAtMs key e).2).map = st.map
      ∧ ((st.setHashExpireAtMs key e).2).zmap = st.zmap := by
  unfold KeyValueStore.setHashExpireAtMs
  rw [hz, alookup_append_last base key ⟨F, -1⟩ hbase]
  dsimp only
  by_cases he : e ≥ 0
  · rw [if_pos he]
    exact ⟨by dsimp only; rw [aset_last base key _ _ hbase], rfl, rfl⟩
  · rw [if_neg he]
    exact ⟨by dsimp only; rw [aset_last base key _ _ hbase], rfl, rfl⟩

theorem hashReplay_effect (st : KeyValueStore) (now : Int) (key : Str) (r : HashRecord)
    (hrec : alookup st.hmap key = none) (hne : r.fields ≠ [])
    (hnd : (akeys r.fields).Nodup) (hexp : r.expire_at_ms ≥ 0 ∨ r.expire_at_ms = -1) :
    (if r.expire_at_ms ≥ 0
      then ((hsetFold now key r.fields st).setHashExpireAtMs key r.expire_at_ms).2
      else hsetFold now key r.fields st).hmap = st.hmap ++ [(key, r)]
    ∧ (if r.expire_at_ms ≥ 0
      then ((hsetFold now key r.fields st).setHashExpireAtMs key r.expire_at_ms).2
      else hsetFold now key r.fields st).map = st.map
    ∧ (if r.expire_at_ms ≥ 0
      then ((hsetFold now key r.fields st).setHashExpireAtMs key r.expire_at_ms).2
      else hsetFold now key r.fields st).zmap = st.zmap := by
  obtain ⟨h1h, h1m, h1z⟩ := hsetFold_fresh st now key r.fields hrec hne hnd
  rcases hexp with he | he
  · simp only [if_pos he]
    obtain ⟨h2h, h2m, h2z⟩ :=
      setHashExp_last (hsetFold now key r.fields st) key r.expire_at_ms r.fields st.hmap h1h hrec
    refine ⟨by rw [h2h], by rw [h2m, h1m], by rw [h2z, h1z]⟩
  · have hne0 : ¬ (r.expire_at_ms ≥ 0) := by rw [he]; decide
    simp only [if_neg hne0]
    refine ⟨?_, h1m, h1z⟩
    rw [h1h, ← he]

theorem loadHashFields_flatten :
    ∀ (fields : List (Str × Str)) (rest : Str) (acc : List (Str × Str)),
    (∀ fv ∈ fields, noNl fv.1 ∧ noNl fv.2) →
    loadHashFields fields.length ((fields.map hashFieldLine).flatten ++ rest) acc
      = some (some (rest, acc ++ fields)) := by
  intro fields
  induction fields with
  | nil =>
    intro rest acc _
    show some (some (rest, acc)) = some (some (rest, acc ++ []))
    rw [List.append_nil]
  | cons fv fields' ih =>
    intro rest acc h
    obtain ⟨f, v⟩ := fv
    obtain ⟨hf, hv⟩ := h (f, v) (List.mem_cons_self _ _)
    simp only [List.length_cons, List.map_cons, List.flatten_cons]
    rw [loadHashFields_succ]
    have hrl : readLine ((hashFieldLine (f, v) ++ (fields'.map hashFieldLine).flatten) ++ rest)
        = some (natChars f.length ++ [' '] ++ f ++ [' '] ++ natChars v.length ++ [' '] ++ v,
            (fields'.map hashFieldLine).flatten ++ rest) := by
      rw [show (hashFieldLine (f, v) ++ (fields'.map hashFieldLine).flatten) ++ rest
          = (natChars f.length ++ [' '] ++ f ++ [' '] ++ natChars v.length ++ [' '] ++ v)
            ++ '\n' :: ((fields'.map hashFieldLine).flatten ++ rest)
          from by simp [hashFieldLine]]
      exact readLine_append _ _ (fieldBody_noNl f v hf hv)
    rw [hrl]
    dsimp only
    rw [parseFieldLine_line f v]
    dsimp only
    rw [ih rest (acc ++ [(f, v)]) (fun fv hfv => h fv (List.mem_cons_of_mem _ hfv))]
    rw [show (acc ++ [(f, v)]) ++ fields' = acc ++ (f, v) :: fields' from by simp]

theorem loadHashRecs_flatten (now : Int) :
    ∀ (H : List (Str × HashRecord)) (rest : Str) (st : KeyValueStore),
    (∀ kv ∈ H, noNl kv.1 ∧ kv.2.fields ≠ [] ∧ (akeys kv.2.fields).Nodup
      ∧ (∀ fv ∈ kv.2.fields, noNl fv.1 ∧ noNl fv.2)
      ∧ (kv.2.expire_at_ms ≥ 0 ∨ kv.2.expire_at_ms = -1)) →
    (∀ k ∈ akeys H, alookup st.hmap k = none) → (akeys H).Nodup →
    ∃ st2, loadHashRecs now H.length
        ((H.map (fun kv => hashHeadLine kv.1 kv.2
            ++ (kv.2.fields.map hashFieldLine).flatten)).flatten ++ rest) st
        = LoadRes.ok (rest, st2)
      ∧ st2.hmap = st.hmap ++ H ∧ st2.map = st.map ∧ st2.zmap = st.zmap := by
  intro H
  induction H with
  | nil =>
    intro rest st _ _ _
    exact ⟨st, rfl, (List.append_nil _).symm, rfl, rfl⟩
  | cons kv H' ih =>
    intro rest st h hfresh hnd
    obtain ⟨k, r⟩ := kv
    obtain ⟨hk, hne, hfnd, hfnl, hexp⟩ := h (k, r) (List.mem_cons_self _ _)
    dsimp only at hk hne hfnd hfnl hexp
    simp only [List.length_cons, List.map_cons, List.flatten_cons]
    rw [loadHashRecs_succ]
    have hrl : readLine (((hashHeadLine k r ++ (r.fields.map hashFieldLine).flatten)
        ++ (H'.map (fun kv => hashHeadLine kv.1 kv.2
            ++ (kv.2.fields.map hashFieldLine).flatten)).flatten) ++ rest)
        = some (natChars k.length ++ [' '] ++ k ++ [' '] ++ intChars r.expire_at_ms ++ [' ']
              ++ natChars r.fields.length,
            (r.fields.map hashFieldLine).flatten
              ++ ((H'.map (fun kv => hashHeadLine kv.1 kv.2
                  ++ (kv.2.fields.map hashFieldLine).flatten)).flatten ++ rest)) := by
      rw [show ((hashHeadLine k r ++ (r.fields.map hashFieldLine).flatten)
            ++ (H'.map (fun kv => hashHeadLine kv.1 kv.2
                ++ (kv.2.fields.map hashFieldLine).flatten)).flatten) ++ rest
          = (natChars k.length ++ [' '] ++ k ++ [' '] ++ intChars r.expire_at_ms ++ [' ']
              ++ natChars r.fields.length)
            ++ '\n' :: ((r.fields.map hashFieldLine).flatten
              ++ ((H'.map (fun kv => hashHeadLine kv.1 kv.2
                  ++ (kv.2.fields.map hashFieldLine).flatten)).flatten ++ rest))
          from by simp [hashHeadLine]]
      exact readLine_append _ _ (hashHeadBody_noNl k r.expire_at_ms r.fields.length hk)
    rw [hrl]
    dsimp only
    rw [parseHashHead_line k r.expire_at_ms r.fields.length]
    dsimp only
    rw [Int.toNat_natCast]
    rw [loadHashFields_flatten r.fields _ [] hfnl]
    dsimp only
    simp only [List.nil_append]
    rw [if_neg hne]
    obtain ⟨h2h, h2m, h2z⟩ :=
      hashReplay_effect st now k r (hfresh k (List.mem_cons_self _ _)) hne hfnd hexp
    simp only [akeys, List.map_cons, List.nodup_cons] at hnd
    obtain ⟨hknotin, hnd'⟩ := hnd
    have hfresh' : ∀ k' ∈ akeys H',
        alookup (if r.expire_at_ms ≥ 0
          then ((hsetFold now k r.fields st).setHashExpireAtMs k r.expire_at_ms).2
          else hsetFold now k r.fields st).hmap k' = none := by
      intro k' hk'
      rw [h2h, alookup_append_right _ _ _ (hfresh k' (List.mem_cons_of_mem _ hk'))]
      have hne' : ¬ k = k' := fun hkk => hknotin (hkk ▸ hk')
      show (if k = k' then some r else none) = none
      rw [if_neg hne']
    obtain ⟨st3, hload, h3h, h3m, h3z⟩ := ih rest _
      (fun kv hkv => h kv (List.mem_cons_of_mem _ hkv)) hfresh' hnd'
    refine ⟨st3, hload, ?_, by rw [h3m, h2m], by rw [h3z, h2z]⟩
    rw [h3h, h2h]
    simp

theorem insertLB_all_lt :
    ∀ (vec : List (Int × Str)) (t : Int × Str),
    (∀ x ∈ vec, zaddCmp x t = true) → insertLB vec t = vec ++ [t] := by
  intro vec t
  induction vec with
  | nil => intro _; rfl
  | cons x r ih =>
    intro h
    show (if zaddCmp x t then x :: insertLB r t else t :: x :: r) = (x :: r) ++ [t]
    rw [if_pos (h x (List.mem_cons_self _ _))]
    rw [ih (fun y hy => h y (List.mem_cons_of_mem _ hy))]
    rfl

/-- A sequence-mode ordered-set record as built by replaying its items in
order with `zadd` (expiry still unset). -/
def vrec (items : List (Int × Str)) : ZSetRecord :=
  { use_skiplist := false, items := items, sl := none,
    member_to_score := items.map (fun p => (p.2, p.1)), expire_at_ms := -1 }

/-- A sequence-mode record with items `X` and expiry `e`. -/
def zrecAt (X : List (Int × Str)) (e : Int) : ZSetRecord :=
  { use_skiplist := false, items := X, sl := none,
    member_to_score := X.map (fun p => (p.2, p.1)), expire_at_ms := e }

/-- The record a loaded `ZSetFlat` ends up as. -/
def zrecOf (fl : ZSetFlat) : ZSetRecord := zrecAt fl.items fl.expire_at_ms

theorem alookup_swap_none :
    ∀ (l : List (Int × Str)) (m : Str), (∀ p ∈ l, p.2 ≠ m) →
    alookup (l.map (fun p => (p.2, p.1))) m = none := by
  intro l m
  induction l with
  | nil => intro _; rfl
  | cons p r ih =>
    intro h
    simp only [List.map_cons]
    show (if p.2 = m then some p.1 else alookup (r.map (fun p => (p.2, p.1))) m) = none
    rw [if_neg (h p (List.mem_cons_self _ _))]
    exact ih (fun q hq => h q (List.mem_cons_of_mem _ hq))

theorem cleanupZSet_skip (st : KeyValueStore) (key : Str) (now : Int) (rec : ZSetRecord)
    (hrec : alookup st.zmap key = some rec) (hexp : rec.expire_at_ms = -1) :
    cleanupIfExpiredZSet st key now = st := by
  unfold cleanupIfExpiredZSet
  rw [hrec]
  dsimp only
  have hex : isExpiredZSet rec now = false := by
    unfold isExpiredZSet
    rw [hexp]
    rw [show decide ((-1 : Int) ≥ 0) = false from by decide, Bool.false_and]
  rw [hex, if_neg Bool.false_ne_true]

theorem cleanupZSet_absent (st : KeyValueStore) (key : Str) (now : Int)
    (h : alookup st.zmap key = none) : cleanupIfExpiredZSet st key now = st := by
  unfold cleanupIfExpiredZSet
  rw [h]

theorem zadd_fresh (st : KeyValueStore) (now : Int) (key : Str) (sc : Int) (m : Str)
    (lvls : List Nat) (habs : alookup st.zmap key = none) :
    st.zadd now key sc m lvls
      = some (1, { st with zmap := st.zmap ++ [(key, vrec [(sc, m)])] }, lvls) := by
  unfold KeyValueStore.zadd
  rw [cleanupZSet_absent st key now habs]
  dsimp only
  rw [habs]
  simp only [Option.getD_none]
  have hz : zaddRec mkZSetRecord sc m lvls = some (1, vrec [(sc, m)], lvls) := rfl
  rw [hz]
  dsimp only
  rw [aset_of_absent _ _ _ habs]

theorem zadd_step (st : KeyValueStore) (now : Int) (key : Str)
    (base : List (Str × ZSetRecord)) (done : List (Int × Str)) (sc : Int) (m : Str)
    (lvls : List Nat)
    (hz : st.zmap = base ++ [(key, vrec done)]) (hbase : alookup base key = none)
    (hfresh : ∀ p ∈ done, p.2 ≠ m) (hall : ∀ x ∈ done, zaddCmp x (sc, m) = true)
    (hlen : done.length + 1 ≤ 128) :
    st.zadd now key sc m lvls
      = some (1, { st with zmap := base ++ [(key, vrec (done ++ [(sc, m)]))] }, lvls) := by
  have hlook : alookup st.zmap key = some (vrec done) := by
    rw [hz]; exact alookup_append_last _ _ _ hbase
  have hmem : alookup (done.map (fun p => (p.2, p.1))) m = none :=
    alookup_swap_none done m hfresh
  unfold KeyValueStore.zadd
  rw [cleanupZSet_skip st key now (vrec done) hlook rfl]
  dsimp only
  rw [hlook]
  simp only [Option.getD_some]
  have hrec : zaddRec (vrec done) sc m lvls = some (1, vrec (done ++ [(sc, m)]), lvls) := by
    unfold zaddRec vrec
    dsimp only
    rw [hmem]
    dsimp only
    rw [if_pos rfl]
    rw [insertLB_all_lt done (sc, m) hall]
    rw [if_neg (by
      simp only [List.length_append, List.length_cons, List.length_nil]
      unfold kZsetVectorThreshold
      omega)]
    rw [aset_of_absent _ _ _ hmem]
    rw [List.map_append]
    rfl
  rw [hrec]
  dsimp only
  rw [hz, aset_last _ _ _ _ hbase]

theorem zsetFinish_effect (st2 : KeyValueStore) (key : Str) (e : Int)
    (X : List (Int × Str)) (base : List (Str × ZSetRecord))
    (hz : st2.zmap = base ++ [(key, vrec X)]) (hbase : alookup base key = none)
    (hexp : e ≥ 0 ∨ e = -1) :
    (if e ≥ 0 then (st2.setZSetExpireAtMs key e).2 else st2).zmap
        = base ++ [(key, zrecAt X e)]
      ∧ (if e ≥ 0 then (st2.setZSetExpireAtMs key e).2 else st2).map = st2.map
      ∧ (if e ≥ 0 then (st2.setZSetExpireAtMs key e).2 else st2).hmap = st2.hmap := by
  rcases hexp with he | he
  · simp only [if_pos he]
    unfold KeyValueStore.setZSetExpireAtMs
    rw [hz, alookup_append_last base key (vrec X) hbase]
    dsimp only
    rw [if_pos he]
    exact ⟨by dsimp only; rw [aset_last base key _ _ hbase]; rfl, rfl, rfl⟩
  · have hne0 : ¬ (e ≥ 0) := by rw [he]; decide
    rw [if_neg hne0]
    exact ⟨by rw [hz, he]; rfl, rfl, rfl⟩

theorem loadZItems_go (now : Int) (key : Str) :
    ∀ (todo : List (Int × Str)) (rest : Str) (st : KeyValueStore)
      (base : List (Str × ZSetRecord)) (done : List (Int × Str)) (lvls : List Nat),
    st.zmap = base ++ [(key, vrec done)] → alookup base key = none →
    (∀ p ∈ todo, noNl p.2) →
    (∀ a ∈ done, ∀ b ∈ todo, a.2 ≠ b.2) →
    (∀ a ∈ done, ∀ b ∈ todo, zaddCmp a b = true) →
    List.Pairwise (fun a b => zaddCmp a b = true) todo →
    List.Pairwise (fun a b : Int × Str => a.2 ≠ b.2) todo →
    done.length + todo.length ≤ 128 →
    ∃ st2, loadZItems now key todo.length ((todo.map zsetItemLine).flatten ++ rest) st lvls
        = some (some (rest, st2, lvls))
      ∧ st2.zmap = base ++ [(key, vrec (done ++ todo))]
      ∧ st2.map = st.map ∧ st2.hmap = st.hmap := by
  intro todo
  induction todo with
  | nil =>
    intro rest st base done lvls hz _ _ _ _ _ _ _
    refine ⟨st, rfl, ?_, rfl, rfl⟩
    rw [hz, List.append_nil]
  | cons t todo' ih =>
    intro rest st base done lvls hz hbase hnl hdist hall hpw hpwd hlen
    obtain ⟨tsc, tm⟩ := t
    simp only [List.length_cons, List.map_cons, List.flatten_cons]
    rw [loadZItems_succ]
    have hrl : readLine ((zsetItemLine (tsc, tm) ++ (todo'.map zsetItemLine).flatten) ++ rest)
        = some (scoreChars tsc ++ [' '] ++ natChars tm.length ++ [' '] ++ tm,
            (todo'.map zsetItemLine).flatten ++ rest) := by
      rw [show (zsetItemLine (tsc, tm) ++ (todo'.map zsetItemLine).flatten) ++ rest
          = (scoreChars tsc ++ [' '] ++ natChars tm.length ++ [' '] ++ tm)
            ++ '\n' :: ((todo'.map zsetItemLine).flatten ++ rest)
          from by simp [zsetItemLine]]
      exact readLine_append _ _
        (zItemBody_noNl tsc tm (hnl (tsc, tm) (List.mem_cons_self _ _)))
    rw [hrl]
    dsimp only
    rw [parseZItem_line tsc tm]
    dsimp only
    rw [zadd_step st now key base done tsc tm lvls hz hbase
      (fun p hp => hdist p hp (tsc, tm) (List.mem_cons_self _ _))
      (fun x hx => hall x hx (tsc, tm) (List.mem_cons_self _ _))
      (by simp only [List.length_cons] at hlen; omega)]
    dsimp only
    obtain ⟨hpw1, hpw'⟩ := List.pairwise_cons.mp hpw
    obtain ⟨hpwd1, hpwd'⟩ := List.pairwise_cons.mp hpwd
    have hdist' : ∀ a ∈ done ++ [(tsc, tm)], ∀ b ∈ todo', a.2 ≠ b.2 := by
      intro a ha b hb
      rcases List.mem_append.mp ha with h1 | h1
      · exact hdist a h1 b (List.mem_cons_of_mem _ hb)
      · rcases List.mem_singleton.mp h1 with rfl
        exact hpwd1 b hb
    have hall' : ∀ a ∈ done ++ [(tsc, tm)], ∀ b ∈ todo', zaddCmp a b = true := by
      intro a ha b hb
      rcases List.mem_append.mp ha with h1 | h1
      · exact hall a h1 b (List.mem_cons_of_mem _ hb)
      · rcases List.mem_singleton.mp h1 with rfl
        exact hpw1 b hb
    obtain ⟨st2, hload, h2z, h2m, h2h⟩ := ih rest
      { st with zmap := base ++ [(key, vrec (done ++ [(tsc, tm)]))] }
      base (done ++ [(tsc, tm)]) lvls rfl hbase
      (fun p hp => hnl p (List.mem_cons_of_mem _ hp)) hdist' hall' hpw' hpwd'
      (by simp only [List.length_append, List.length_cons, List.length_nil] at hlen ⊢; omega)
    refine ⟨st2, hload, ?_, by rw [h2m], by rw [h2h]⟩
    rw [h2z]
    rw [show (done ++ [(tsc, tm)]) ++ todo' = done ++ (tsc, tm) :: todo' from by simp]

theorem loadZRecs_flatten (now : Int) :
    ∀ (Z : List ZSetFlat) (rest : Str) (st : KeyValueStore) (lvls : List Nat),
    (∀ fl ∈ Z, noNl fl.key ∧ fl.items ≠ [] ∧ fl.items.length ≤ 128
      ∧ List.Pairwise (fun a b => zaddCmp a b = true) fl.items
      ∧ List.Pairwise (fun a b : Int × Str => a.2 ≠ b.2) fl.items
      ∧ (∀ p ∈ fl.items, noNl p.2)
      ∧ (fl.expire_at_ms ≥ 0 ∨ fl.expire_at_ms = -1)) →
    (∀ fl ∈ Z, alookup st.zmap fl.key = none) → (Z.map ZSetFlat.key).Nodup →
    ∃ st2, loadZRecs now Z.length
        ((Z.map (fun flat => zsetHeadLine flat ++ (flat.items.map zsetItemLine).flatten)).flatten
          ++ rest) st lvls
      = LoadRes.ok (rest, st2, lvls)
      ∧ st2.zmap = st.zmap ++ Z.map (fun fl => (fl.key, zrecOf fl))
      ∧ st2.map = st.map ∧ st2.hmap = st.hmap := by
  intro Z
  induction Z with
  | nil =>
    intro rest st lvls _ _ _
    exact ⟨st, rfl, (List.append_nil _).symm, rfl, rfl⟩
  | cons fl Z' ih =>
    intro rest st lvls h hfresh hnd
    obtain ⟨fkey, fitems, fexp⟩ := fl
    obtain ⟨hk, hne, hlen128, hpw, hpwd, hinl, hexp⟩ :=
      h ⟨fkey, fitems, fexp⟩ (List.mem_cons_self _ _)
    dsimp only at hk hne hlen128 hpw hpwd hinl hexp
    obtain ⟨t, items', rfl⟩ := List.exists_cons_of_ne_nil hne
    obtain ⟨tsc, tm⟩ := t
    simp only [List.length_cons, List.map_cons, List.flatten_cons]
    rw [loadZRecs_succ]
    have hrl : readLine ((((zsetHeadLine ⟨fkey, (tsc, tm) :: items', fexp⟩
          ++ (zsetItemLine (tsc, tm) ++ (items'.map zsetItemLine).flatten))
        ++ (Z'.map (fun flat => zsetHeadLine flat
            ++ (flat.items.map zsetItemLine).flatten)).flatten) ++ rest))
        = some (natChars fkey.length ++ [' '] ++ fkey ++ [' '] ++ intChars fexp ++ [' ']
              ++ natChars ((tsc, tm) :: items').length,
            (zsetItemLine (tsc, tm) ++ (items'.map zsetItemLine).flatten)
              ++ ((Z'.map (fun flat => zsetHeadLine flat
                  ++ (flat.items.map zsetItemLine).flatten)).flatten ++ rest)) := by
      rw [show ((zsetHeadLine ⟨fkey, (tsc, tm) :: items', fexp⟩
            ++ (zsetItemLine (tsc, tm) ++ (items'.map zsetItemLine).flatten))
          ++ (Z'.map (fun flat => zsetHeadLine flat
              ++ (flat.items.map zsetItemLine).flatten)).flatten) ++ rest
          = (natChars fkey.length ++ [' '] ++ fkey ++ [' '] ++ intChars fexp ++ [' ']
              ++ natChars ((tsc, tm) :: items').length)
            ++ '\n' :: ((zsetItemLine (tsc, tm) ++ (items'.map zsetItemLine).flatten)
              ++ ((Z'.map (fun flat => zsetHeadLine flat
                  ++ (flat.items.map zsetItemLine).flatten)).flatten ++ rest))
          from by simp [zsetHeadLine]]
      exact readLine_append _ _
        (hashHeadBody_noNl fkey fexp ((tsc, tm) :: items').length hk)
    rw [hrl]
    dsimp only
    rw [parseHashHead_line fkey fexp ((tsc, tm) :: items').length]
    dsimp only
    rw [Int.toNat_natCast]
    simp only [List.length_cons]
    rw [loadZItems_succ]
    have hrl2 : readLine ((zsetItemLine (tsc, tm) ++ (items'.map zsetItemLine).flatten)
        ++ ((Z'.map (fun flat => zsetHeadLine flat
            ++ (flat.items.map zsetItemLine).flatten)).flatten ++ rest))
        = some (scoreChars tsc ++ [' '] ++ natChars tm.length ++ [' '] ++ tm,
            (items'.map zsetItemLine).flatten
              ++ ((Z'.map (fun flat => zsetHeadLine flat
                  ++ (flat.items.map zsetItemLine).flatten)).flatten ++ rest)) := by
      rw [show (zsetItemLine (tsc, tm) ++ (items'.map zsetItemLine).flatten)
            ++ ((Z'.map (fun flat => zsetHeadLine flat
                ++ (flat.items.map zsetItemLine).flatten)).flatten ++ rest)
          = (scoreChars tsc ++ [' '] ++ natChars tm.length ++ [' '] ++ tm)
            ++ '\n' :: ((items'.map zsetItemLine).flatten
              ++ ((Z'.map (fun flat => zsetHeadLine flat
                  ++ (flat.items.map zsetItemLine).flatten)).flatten ++ rest))
          from by simp [zsetItemLine]]
      exact readLine_append _ _
        (zItemBody_noNl tsc tm (hinl (tsc, tm) (List.mem_cons_self _ _)))
    rw [hrl2]
    dsimp only
    rw [parseZItem_line tsc tm]
    dsimp only
    rw [zadd_fresh st now fkey tsc tm lvls (hfresh ⟨fkey, (tsc, tm) :: items', fexp⟩
      (List.mem_cons_self _ _))]
    dsimp only
    obtain ⟨hpw1, hpw'⟩ := List.pairwise_cons.mp hpw
    obtain ⟨hpwd1, hpwd'⟩ := List.pairwise_cons.mp hpwd
    obtain ⟨st2, hload2, h2z, h2m, h2h⟩ := loadZItems_go now fkey items' _
      { st with zmap := st.zmap ++ [(fkey, vrec [(tsc, tm)])] }
      st.zmap [(tsc, tm)] lvls rfl
      (hfresh ⟨fkey, (tsc, tm) :: items', fexp⟩ (List.mem_cons_self _ _))
      (fun p hp => hinl p (List.mem_cons_of_mem _ hp))
      (by
        intro a ha b hb
        rcases List.mem_singleton.mp ha with rfl
        exact hpwd1 b hb)
      (by
        intro a ha b hb
        rcases List.mem_singleton.mp ha with rfl
        exact hpw1 b hb)
      hpw' hpwd'
      (by simp only [List.length_cons, List.length_nil] at hlen128 ⊢; omega)
    rw [hload2]
    dsimp only
    obtain ⟨h3z, h3m, h3h⟩ := zsetFinish_effect st2 fkey fexp ([(tsc, tm)] ++ items')
      st.zmap h2z
      (hfresh ⟨fkey, (tsc, tm) :: items', fexp⟩ (List.mem_cons_self _ _)) hexp
    simp only [List.map_cons, List.nodup_cons] at hnd
    obtain ⟨hknotin, hnd'⟩ := hnd
    have hfresh' : ∀ fl' ∈ Z',
        alookup (if fexp ≥ 0 then (st2.setZSetExpireAtMs fkey fexp).2 else st2).zmap fl'.key
          = none := by
      intro fl' hfl'
      rw [h3z, alookup_append_right _ _ _
        (hfresh fl' (List.mem_cons_of_mem _ hfl'))]
      have hne' : ¬ fkey = fl'.key := by
        intro hkk
        exact hknotin (hkk ▸ List.mem_map_of_mem ZSetFlat.key hfl')
      show (if fkey = fl'.key then some (zrecAt ([(tsc, tm)] ++ items') fexp) else none) = none
      rw [if_neg hne']
    obtain ⟨st3, hload3, h4z, h4m, h4h⟩ := ih rest _ lvls
      (fun fl' hfl' => h fl' (List.mem_cons_of_mem _ hfl')) hfresh' hnd'
    refine ⟨st3, hload3, ?_, by rw [h4m, h3m, h2m], by rw [h4h, h3h, h2h]⟩
    rw [h4z, h3z]
    rw [show st.zmap ++ [(fkey, zrecAt ([(tsc, tm)] ++ items') fexp)]
          ++ Z'.map (fun fl => (fl.key, zrecOf fl))
        = st.zmap ++ ((fkey, zrecAt ([(tsc, tm)] ++ items') fexp)
            :: Z'.map (fun fl => (fl.key, zrecOf fl))) from by simp]
    rfl

theorem snapshotZSetList_zrecOf :
    ∀ (Z : List ZSetFlat),
    snapshotZSetList (Z.map (fun fl => (fl.key, zrecOf fl))) = some Z := by
  intro Z
  induction Z with
  | nil => rfl
  | cons fl Z' ih =>
    simp only [List.map_cons]
    show (match flattenZ fl.key (zrecOf fl) with
      | none => none
      | some flat =>
        match snapshotZSetList (Z'.map (fun fl => (fl.key, zrecOf fl))) with
        | none => none
        | some out => some (flat :: out)) = some (fl :: Z')
    rw [show flattenZ fl.key (zrecOf fl) = some fl from rfl]
    rw [ih]

theorem saveText_load (S : List (Str × ValueRecord)) (H : List (Str × HashRecord))
    (Z : List ZSetFlat) (now : Int) (lvls : List Nat)
    (hS : ∀ kv ∈ S, noNl kv.1 ∧ noNl kv.2.value) (hSnd : (akeys S).Nodup)
    (hH : ∀ kv ∈ H, noNl kv.1 ∧ kv.2.fields ≠ [] ∧ (akeys kv.2.fields).Nodup
      ∧ (∀ fv ∈ kv.2.fields, noNl fv.1 ∧ noNl fv.2)
      ∧ (kv.2.expire_at_ms ≥ 0 ∨ kv.2.expire_at_ms = -1))
    (hHnd : (akeys H).Nodup)
    (hZ : ∀ fl ∈ Z, noNl fl.key ∧ fl.items ≠ [] ∧ fl.items.length ≤ 128
      ∧ List.Pairwise (fun a b => zaddCmp a b = true) fl.items
      ∧ List.Pairwise (fun a b : Int × Str => a.2 ≠ b.2) fl.items
      ∧ (∀ p ∈ fl.items, noNl p.2)
      ∧ (fl.expire_at_ms ≥ 0 ∨ fl.expire_at_ms = -1))
    (hZnd : (Z.map ZSetFlat.key).Nodup) :
    ∃ st2, Rdb.load (saveText S H Z) emptyStore now lvls = LoadRes.ok st2
      ∧ st2.map = S ∧ st2.hmap = H
      ∧ st2.zmap = Z.map (fun fl => (fl.key, zrecOf fl)) := by
  have hfile : saveText S H Z
      = "MRDB2".toList ++ '\n' :: (("STR ".toList ++ natChars S.length)
        ++ '\n' :: ((S.map (fun kv => strRecLine kv.1 kv.2)).flatten
          ++ (("HASH ".toList ++ natChars H.length)
            ++ '\n' :: ((H.map (fun kv => hashHeadLine kv.1 kv.2
                ++ (kv.2.fields.map hashFieldLine).flatten)).flatten
              ++ (("ZSET ".toList ++ natChars Z.length)
                ++ '\n' :: ((Z.map (fun flat => zsetHeadLine flat
                    ++ (flat.items.map zsetItemLine).flatten)).flatten
                  ++ ([] : Str))))))) := by
    unfold saveText
    rw [show ("MRDB2\n".toList : Str) = "MRDB2".toList ++ ['\n'] from rfl]
    simp [List.append_assoc]
  unfold Rdb.load
  rw [hfile]
  rw [readLine_append ("MRDB2".toList) _ (by decide)]
  dsimp only
  rw [if_neg (by decide : ¬ ("MRDB2".toList : Str) = "MRDB1".toList)]
  rw [if_neg (by decide : ¬ ("MRDB2".toList : Str) ≠ "MRDB2".toList)]
  rw [readLine_append ("STR ".toList ++ natChars S.length) _ (strHeader_noNl S.length)]
  dsimp only
  rw [if_neg (by
    rw [List.take_left' (show ("STR ".toList : Str).length = 4 from rfl)]
    exact not_ne_iff.mpr rfl)]
  rw [List.drop_left' (show ("STR ".toList : Str).length = 4 from rfl)]
  rw [stollModel_natChars]
  dsimp only
  rw [Int.toNat_natCast]
  rw [loadStrRecs_flatten S _ emptyStore hS]
  dsimp only
  obtain ⟨hSm, hSh, hSz⟩ := strFold_effect S emptyStore (fun k _ => rfl) hSnd
  rw [readLine_append ("HASH ".toList ++ natChars H.length) _ (hashHeader_noNl H.length)]
  dsimp only
  rw [if_neg (by
    rw [List.take_left' (show ("HASH ".toList : Str).length = 5 from rfl)]
    exact not_ne_iff.mpr rfl)]
  rw [List.drop_left' (show ("HASH ".toList : Str).length = 5 from rfl)]
  rw [stollModel_natChars]
  dsimp only
  rw [Int.toNat_natCast]
  obtain ⟨stH, hloadH, hHh, hHm, hHz⟩ := loadHashRecs_flatten now H _
    (S.foldl (fun s kv => (s.setWithExpireAtMs kv.1 kv.2.value kv.2.expire_at_ms).2) emptyStore)
    hH (fun k _ => by rw [hSh]; rfl) hHnd
  rw [hloadH]
  dsimp only
  rw [readLine_append ("ZSET ".toList ++ natChars Z.length) _ (zsetHeader_noNl Z.length)]
  dsimp only
  rw [if_neg (by
    rw [List.take_left' (show ("ZSET ".toList : Str).length = 5 from rfl)]
    exact not_ne_iff.mpr rfl)]
  rw [List.drop_left' (show ("ZSET ".toList : Str).length = 5 from rfl)]
  rw [stollModel_natChars]
  dsimp only
  rw [Int.toNat_natCast]
  obtain ⟨stZ, hloadZ, hZz, hZm, hZh⟩ := loadZRecs_flatten now Z [] stH lvls hZ
    (fun fl _ => by rw [hHz, hSz]; rfl) hZnd
  rw [hloadZ]
  dsimp only
  refine ⟨stZ, rfl, ?_, ?_, ?_⟩
  · rw [hZm, hHm, hSm]
    rfl
  · rw [hZh, hHh, hSh]
    rfl
  · rw [hZz, hHz, hSz]
    rfl

/-- A store whose scalar key embeds a newline byte, reachable by one `set`. -/
def c5Store : KeyValueStore := (emptyStore.set 0 ['a', '\n', 'b'] ['v'] none).2

/-- The file `Rdb::save` writes for `c5Store`. -/
def c5File : Str :=
  match Rdb.save c5Store with
  | some f => f
  | none => []

/-- An ordered set one past the sequence-mode threshold: 129 items with
distinct scores and members (scores descending, so the vector is as
stored, not sorted — `Rdb::save` writes it either way). -/
def bigItems : List (Int × Str) :=
  (List.range 129).map (fun (i : Nat) => (((128 - i : Nat) : Int) * 1000000, natChars (128 - i)))

/-- A store holding that 129-member ordered set in sequence mode. -/
def c5bigStore : KeyValueStore :=
  { map := [], hmap := [], zmap := [(['z'], zrecAt bigItems (-1))], expire_index := [] }

/-- The file `Rdb::save` writes for `c5bigStore`. -/
def c5bigFile : Str :=
  match Rdb.save c5bigStore with
  | some f => f
  | none => []

/-- Two counterexamples to the unrestricted round-trip claim.  First, a
key containing a newline byte is saved, but the embedded newline
desynchronizes the line-based reader and the reload throws (the final
token read runs `substr` past the end of the truncated line).  Second, a
129-member ordered set (one past `kZsetVectorThreshold`) is saved, but its
reload replays the items through `zadd`, whose 129th insert crosses the
threshold and migrates into a fresh skiplist through the broken
`Skiplist::insert`: the first level draw that is not 1 — here the stream
`[2]`, drawn with probability 1/4 per draw — dereferences a null `update`
slot and the load crashes.  So neither newline bytes nor above-threshold
ordered sets survive a round trip. -/
theorem save_load_roundtrip_counterexamples :
    (Rdb.save c5Store = some c5File
      ∧ Rdb.load c5File emptyStore 0 [] = LoadRes.crash)
    ∧ (kZsetVectorThreshold < bigItems.length
      ∧ c5bigStore.snapshotZSetOut = some [⟨['z'], bigItems, -1⟩]
      ∧ Rdb.save c5bigStore = some c5bigFile
      ∧ Rdb.load c5bigFile emptyStore 0 [2] = LoadRes.crash) :=
  ⟨⟨rfl, rfl⟩, ⟨by decide, rfl, rfl, rfl⟩⟩

/-- C5 (corrected): saving an engine state and reloading the produced file
into an empty store reproduces the same scalar records, field maps, and
ordered sets with millisecond expiries — provided the state is one the
load path can reproduce: no key, value, field, or member contains a
newline byte (space bytes are fine: variable-width fields are
length-prefixed); field maps are non-empty with distinct field names;
ordered sets are non-empty, within the sequence-mode threshold (128),
sorted with distinct members; and hash/zset expiries are either finite or
the sentinel `-1`.  Both restrictions the original claim violates are
refuted by `save_load_roundtrip_counterexamples`: newline bytes
desynchronize the line-based reader, and an above-threshold ordered set
is replayed through a migration into the broken `Skiplist::insert`, which
crashes on any level draw other than 1. -/
theorem rdb_save_load_roundtrip (st : KeyValueStore) (file : Str) (Z : List ZSetFlat)
    (now : Int) (lvls : List Nat)
    (hsave : Rdb.save st = some file) (hz : st.snapshotZSetOut = some Z)
    (hwf : (akeys st.snapshot).Nodup
      ∧ (∀ kv ∈ st.snapshot, noNl kv.1 ∧ noNl kv.2.value)
      ∧ (akeys st.snapshotHash).Nodup
      ∧ (∀ kv ∈ st.snapshotHash, noNl kv.1 ∧ kv.2.fields ≠ [] ∧ (akeys kv.2.fields).Nodup
          ∧ (∀ fv ∈ kv.2.fields, noNl fv.1 ∧ noNl fv.2)
          ∧ (kv.2.expire_at_ms ≥ 0 ∨ kv.2.expire_at_ms = -1))
      ∧ (Z.map ZSetFlat.key).Nodup
      ∧ (∀ fl ∈ Z, noNl fl.key ∧ fl.items ≠ [] ∧ fl.items.length ≤ 128
          ∧ List.Pairwise (fun a b => zaddCmp a b = true) fl.items
          ∧ (fl.items.map Prod.snd).Nodup ∧ (∀ p ∈ fl.items, noNl p.2)
          ∧ (fl.expire_at_ms ≥ 0 ∨ fl.expire_at_ms = -1))) :
    ∃ st2, Rdb.load file emptyStore now lvls = LoadRes.ok st2
      ∧ st2.snapshot = st.snapshot ∧ st2.snapshotHash = st.snapshotHash
      ∧ st2.snapshotZSetOut = some Z := by
  obtain ⟨c1, c2, c3, c4, c5, c6⟩ := hwf
  have hfile : file = saveText st.snapshot st.snapshotHash Z := by
    unfold Rdb.save at hsave
    rw [hz] at hsave
    exact (Option.some.inj hsave).symm
  have hZ' : ∀ fl ∈ Z, noNl fl.key ∧ fl.items ≠ [] ∧ fl.items.length ≤ 128
      ∧ List.Pairwise (fun a b => zaddCmp a b = true) fl.items
      ∧ List.Pairwise (fun a b : Int × Str => a.2 ≠ b.2) fl.items
      ∧ (∀ p ∈ fl.items, noNl p.2)
      ∧ (fl.expire_at_ms ≥ 0 ∨ fl.expire_at_ms = -1) := by
    intro fl hfl
    obtain ⟨a1, a2, a3, a4, a5, a6, a7⟩ := c6 fl hfl
    exact ⟨a1, a2, a3, a4, List.pairwise_map.mp a5, a6, a7⟩
  obtain ⟨st2, hload, hm, hh, hzm⟩ :=
    saveText_load st.snapshot st.snapshotHash Z now lvls c2 c1 c4 c3 hZ' c5
  refine ⟨st2, by rw [hfile]; exact hload, hm, hh, ?_⟩
  show snapshotZSetList st2.zmap = some Z
  rw [hzm]
  exact snapshotZSetList_zrecOf Z

/-- A small mixed store: one scalar, one single-field hash, one one-member
ordered set with a finite expiry. -/
def rtVal : ValueRecord := { value := ['v'], expire_at_ms := -1 }

/-- The hash record of the round-trip witness store. -/
def rtHash : HashRecord := { fields := [(['f'], ['w'])], expire_at_ms := -1 }

/-- The ordered-set record of the round-trip witness store. -/
def rtZrec : ZSetRecord := zrecAt [(1000000, ['m'])] 5

/-- The round-trip witness store. -/
def rtStore : KeyValueStore :=
  { map := [(['k'], rtVal)], hmap := [(['h'], rtHash)], zmap := [(['z'], rtZrec)],
    expire_index := [(['z'], 5)] }

/-- Its ordered-set snapshot. -/
def rtZ : List ZSetFlat := [⟨['z'], [(1000000, ['m'])], 5⟩]

/-- The file `Rdb::save` writes for `rtStore`. -/
def rtFile : Str :=
  match Rdb.save rtStore with
  | some f => f
  | none => []

/-- C5 witness: the round-trip theorem applied to `rtStore`. -/
theorem rdb_save_load_roundtrip_witness :
    Rdb.save rtStore = some rtFile
      ∧ (∃ st2, Rdb.load rtFile emptyStore 7 [] = LoadRes.ok st2
          ∧ st2.snapshot = rtStore.snapshot ∧ st2.snapshotHash = rtStore.snapshotHash
          ∧ st2.snapshotZSetOut = some rtZ) :=
  ⟨rfl, rdb_save_load_roundtrip rtStore rtFile rtZ 7 [] rfl rfl (by decide)⟩
